import Mathlib

/-!
# nodeIgnore.c : the IGNORE (skip-only) executor node

A shallow embedding of `src/backend/executor/nodeIgnore.c` and theorems about it.

* `PlanState` is the plan-state tree that `pass_down_bound` walks.
* `IgnoreState` is the node's own record; `ExecIgnore`, `recompute_ignore`,
  `pass_down_bound`, `ExecInitIgnore` and `ExecReScanIgnore` follow the C functions
  of the same names statement by statement.
* The subplan and the expression evaluator are external to the file; they enter as the
  fields of `Executor`, whose pull and rescan are handed the plan-state tree along with
  the subplan's execution state.  `cursorExecutor` is the list-backed bidirectional
  subplan used for the end-to-end properties; it takes no notice of the hint in the tree.
  `sortExecutor` is the same cursor over a Sort that acts on the hint.
* `node->subSlot` is a pointer to the subplan's slot.  The field `subSlot` records the
  tuple in the slot when the pointer was assigned; `subSlotTarget` is what the slot of
  the cursor subplan holds afterwards.
* `ExecIgnoreSeq` drives a sequence of pulls, `runCalls` a sequence of pulls and rescans
  over any subplan.

The `int64` fields `k`, `position` and `count` are integers.  The only arithmetic
whose overflow the source discusses, `count + k` in `pass_down_bound`, is taken modulo
`2^64` (`wrapInt64`).  `position` moves by one per subplan tuple and stays between 0 and
the number of tuples the subplan has produced, and `k + 1` is computed only in
`IGNORE_INWINDOW`, where `k < position`; neither leaves the `int64` range unless the
subplan returns `2^63` tuples.
-/

namespace NodeIgnore

/-! ## Data model -/

/-- Modelled from the spec: the `ScanDirection` type is declared outside this file; the
spec gives it the two values forward and backward, and the source only ever asks
`ScanDirectionIsForward`. -/
inductive ScanDirection where
  | BackwardScanDirection
  | ForwardScanDirection
  deriving DecidableEq, Repr

/-- The source's `ScanDirectionIsForward(direction)`. -/
def ScanDirectionIsForward : ScanDirection → Bool
  | .ForwardScanDirection => true
  | .BackwardScanDirection => false

/-- The state tag `node->lstate`.  The seven named values are the cases of the switch in
`ExecIgnore`; `outOfRange` stands for any other value the C enum variable could hold, which
is what the switch's `default:` branch catches. -/
inductive IgnoreStateCond where
  | IGNORE_INITIAL
  | IGNORE_RESCAN
  | IGNORE_EMPTY
  | IGNORE_INWINDOW
  | IGNORE_SUBPLANEOF
  | IGNORE_WINDOWEND
  | IGNORE_WINDOWSTART
  | outOfRange (raw : Int)
  deriving DecidableEq, Repr

/-- The errors the file raises (`ereport(ERROR)`, `elog(ERROR)`, a failed `Assert`). -/
inductive ExecError where
  /-- "IGNORE must not be negative" (`ERRCODE_INVALID_ROW_COUNT_IN_LIMIT_CLAUSE`). -/
  | invalidBound
  /-- "IGNORE subplan failed to run backwards". -/
  | subplanFailedBackwards
  /-- "impossible IGNORE state: %d". -/
  | impossibleState (raw : Int)
  /-- The closing `Assert(!TupIsNull(slot))` of `ExecIgnore`. -/
  | assertNonNullSlot
  /-- The opening `Assert(!(eflags & EXEC_FLAG_MARK))` of `ExecInitIgnore`. -/
  | assertNoMarkFlag
  deriving DecidableEq, Repr

/-- The part of a plan-state tree that `pass_down_bound` looks at: the node tag
(`IsA`), the `bounded`/`bound` fields of a `SortState`, the `mergeplans` array of a
`MergeAppendState`, the outer subtree of a `ResultState` together with
`expression_returns_set(plan->targetlist)`, and every other node kind with its tag and
subnodes. -/
inductive PlanState where
  | sort (bounded : Bool) (bound : Int) (lefttree : Option PlanState)
  | mergeAppend (mergeplans : List PlanState)
  | result (returnsSet : Bool) (lefttree : Option PlanState)
  | other (tag : Nat) (subnodes : List PlanState)

/-- The fields of `IgnoreState` the file reads or writes.  `τ` is the type of tuples,
`ξ` the type of expression states.

`lefttree` is `outerPlanState(node)` as a plan-state tree, the part `pass_down_bound`
writes; the rest of the subplan's execution state is passed separately, and both are
handed to the subplan at every `ExecProcNode` and `ExecReScan` (see `Executor`), so a
subplan can act on the hint written into the tree.

`subSlot` is in the source a pointer to the slot the subplan returned, not a copy of
the tuple.  The field here records the tuple that slot held when the pointer was assigned
(`none` for the null pointer); what the slot holds at a later time is a matter of the
subplan (`subSlotTarget` for the cursor subplan).  `ExecIgnore` reads the field only in
`IGNORE_WINDOWSTART` and `IGNORE_WINDOWEND`, entered from `IGNORE_INWINDOW` without a pull
of the subplan, so there the slot still holds the recorded tuple. -/
structure IgnoreState (τ ξ : Type) where
  lefttree : PlanState
  ignoreClause : Option ξ
  k : Int
  count : Int
  noCount : Bool
  lstate : IgnoreStateCond
  position : Int
  subSlot : Option τ

/-- The collaborators `nodeIgnore.c` calls but does not define.  `σ` is the execution
state of the subplan, `ε` the contents of the expression context.

* `ExecProcNode dir tree s` pulls one tuple from the subplan in direction `dir`
  (`none` is a null/empty slot, `TupIsNull`); `tree` is the subplan's plan-state tree
  (`node->ps.lefttree`), so that the pull can act on a hint that `pass_down_bound` wrote
  there.  The subplan reads the tree and does not write it: the node tags, the shape and
  the `bounded`/`bound` fields are written by `pass_down_bound` alone;
* `ExecReScan tree s` rescans the subplan (`tree` as for `ExecProcNode`);
* `chgParamIsNull s` is the test `lefttree->chgParam == NULL`;
* `ExecEvalExprSwitchContext e ctx` evaluates an expression: `none` is `isNull`,
  `some v` the `int64` datum. -/
structure Executor (τ σ ξ ε : Type) where
  ExecProcNode : ScanDirection → PlanState → σ → Option τ × σ
  ExecReScan : PlanState → σ → σ
  chgParamIsNull : σ → Bool
  ExecEvalExprSwitchContext : ξ → ε → Option Int

/-! ## `pass_down_bound` -/

/-- Two's-complement reading of an integer as an `int64`. -/
def wrapInt64 (x : Int) : Int := (x + 2 ^ 63) % 2 ^ 64 - 2 ^ 63

mutual
/-- The source's `pass_down_bound(node, child_node)`; the result is the tree after the
call. -/
def pass_down_bound {τ ξ : Type} (node : IgnoreState τ ξ) : PlanState → PlanState
  | .sort _ bound lefttree =>
      let tuples_needed := wrapInt64 (node.count + node.k)
      if node.noCount || decide (tuples_needed < 0) then
        .sort false bound lefttree
      else
        .sort true tuples_needed lefttree
  | .mergeAppend mergeplans => .mergeAppend (pass_down_bound_plans node mergeplans)
  | .result returnsSet none => .result returnsSet none
  | .result returnsSet (some outer) =>
      if !returnsSet then .result returnsSet (some (pass_down_bound node outer))
      else .result returnsSet (some outer)
  | .other tag subnodes => .other tag subnodes
/-- The loop `for (i = 0; i < ms_nplans; i++) pass_down_bound(node, mergeplans[i])`. -/
def pass_down_bound_plans {τ ξ : Type} (node : IgnoreState τ ξ) :
    List PlanState → List PlanState
  | [] => []
  | p :: ps => pass_down_bound node p :: pass_down_bound_plans node ps
end

/-! ## `recompute_ignore` -/

/-- The source's `recompute_ignore(node)`.  The first component is `none` on normal
return and the raised error otherwise; the second is the node as the call leaves it
(on error: as it is when the error is raised). -/
def recompute_ignore {τ σ ξ ε : Type} (ex : Executor τ σ ξ ε) (econtext : ε)
    (node : IgnoreState τ ξ) : Option ExecError × IgnoreState τ ξ :=
  let evaluated : Option ExecError × IgnoreState τ ξ :=
    match node.ignoreClause with
    | some clause =>
        match ex.ExecEvalExprSwitchContext clause econtext with
        | none => (none, { node with k := 0 })
        | some val =>
            let node1 := { node with k := val }
            if node1.k < 0 then (some .invalidBound, node1) else (none, node1)
    | none => (none, { node with k := 0 })
  match evaluated with
  | (some err, node1) => (some err, node1)
  | (none, node1) =>
      let node2 := { node1 with position := 0, subSlot := none,
                                lstate := .IGNORE_RESCAN }
      (none, { node2 with lefttree := pass_down_bound node2 node2.lefttree })

/-! ## `ExecIgnore` -/

/-- What a call of `ExecIgnore` leaves behind: the returned slot (`none` is `NULL`) or
the raised error, the node, and the subplan's execution state. -/
abbrev PullResult (τ σ ξ : Type) := Except ExecError (Option τ) × IgnoreState τ ξ × σ

/-- The `for (;;)` loop of the `IGNORE_RESCAN` case together with the statements that
follow it: fetch rows from the subplan until `++position > k`. -/
def ExecIgnore_fetch {τ σ ξ ε : Type} (ex : Executor τ σ ξ ε) (direction : ScanDirection)
    (node : IgnoreState τ ξ) (child : σ) : PullResult τ σ ξ :=
  match ex.ExecProcNode direction node.lefttree child with
  | (none, child1) => (.ok none, { node with lstate := .IGNORE_EMPTY }, child1)
  | (some slot, child1) =>
      if node.position + 1 > node.k then
        (.ok (some slot),
          { node with subSlot := some slot, position := node.position + 1,
                      lstate := .IGNORE_INWINDOW }, child1)
      else
        ExecIgnore_fetch ex direction
          { node with subSlot := some slot, position := node.position + 1 } child1
termination_by (node.k - node.position).toNat
decreasing_by
  all_goals simp_wf
  all_goals omega

/-- The `IGNORE_RESCAN` case of the switch (also reached by falling through from
`IGNORE_INITIAL`). -/
def ExecIgnore_rescan {τ σ ξ ε : Type} (ex : Executor τ σ ξ ε) (direction : ScanDirection)
    (node : IgnoreState τ ξ) (child : σ) : PullResult τ σ ξ :=
  if !ScanDirectionIsForward direction then (.ok none, node, child)
  else ExecIgnore_fetch ex direction node child

/-- The closing `Assert(!TupIsNull(slot)); return slot;`. -/
def returnSlot {τ σ ξ : Type} (slot : Option τ) (node : IgnoreState τ ξ) (child : σ) :
    PullResult τ σ ξ :=
  match slot with
  | none => (.error .assertNonNullSlot, node, child)
  | some t => (.ok (some t), node, child)

/-- The source's `ExecIgnore(node)`.  `direction` is `node->ps.state->es_direction` and
`econtext` the contents of `node->ps.ps_ExprContext` at the time of the call. -/
def ExecIgnore {τ σ ξ ε : Type} (ex : Executor τ σ ξ ε) (direction : ScanDirection)
    (econtext : ε) (node0 : IgnoreState τ ξ) (child : σ) : PullResult τ σ ξ :=
  let node := { node0 with noCount := true }
  match node.lstate with
  | .IGNORE_INITIAL =>
      match recompute_ignore ex econtext node with
      | (some err, node1) => (.error err, node1, child)
      | (none, node1) => ExecIgnore_rescan ex direction node1 child
  | .IGNORE_RESCAN => ExecIgnore_rescan ex direction node child
  | .IGNORE_EMPTY => (.ok none, node, child)
  | .IGNORE_INWINDOW =>
      if ScanDirectionIsForward direction then
        if !node.noCount && decide (node.position - node.k ≥ node.count) then
          (.ok none, { node with lstate := .IGNORE_WINDOWEND }, child)
        else
          match ex.ExecProcNode direction node.lefttree child with
          | (none, child1) => (.ok none, { node with lstate := .IGNORE_SUBPLANEOF }, child1)
          | (some slot, child1) =>
              returnSlot (some slot)
                { node with subSlot := some slot, position := node.position + 1 } child1
      else
        if node.position ≤ node.k + 1 then
          (.ok none, { node with lstate := .IGNORE_WINDOWSTART }, child)
        else
          match ex.ExecProcNode direction node.lefttree child with
          | (none, child1) => (.error .subplanFailedBackwards, node, child1)
          | (some slot, child1) =>
              returnSlot (some slot)
                { node with subSlot := some slot, position := node.position - 1 } child1
  | .IGNORE_SUBPLANEOF =>
      if ScanDirectionIsForward direction then (.ok none, node, child)
      else
        match ex.ExecProcNode direction node.lefttree child with
        | (none, child1) => (.error .subplanFailedBackwards, node, child1)
        | (some slot, child1) =>
            returnSlot (some slot)
              { node with subSlot := some slot, lstate := .IGNORE_INWINDOW } child1
  | .IGNORE_WINDOWEND =>
      if ScanDirectionIsForward direction then (.ok none, node, child)
      else returnSlot node.subSlot { node with lstate := .IGNORE_INWINDOW } child
  | .IGNORE_WINDOWSTART =>
      if !ScanDirectionIsForward direction then (.ok none, node, child)
      else returnSlot node.subSlot { node with lstate := .IGNORE_INWINDOW } child
  | .outOfRange raw => (.error (.impossibleState raw), node, child)

/-! ## `ExecInitIgnore`, `ExecReScanIgnore` -/

/-- The source's `ExecInitIgnore`.  `fresh` is the record `makeNode(IgnoreState)` hands
back; the function sets `lstate`, the expression state and the outer plan state and
leaves every other field as allocated. -/
def ExecInitIgnore {τ ξ : Type} (fresh : IgnoreState τ ξ) (ignoreClause : Option ξ)
    (outerPlanState : PlanState) : IgnoreState τ ξ :=
  { fresh with lstate := .IGNORE_INITIAL, ignoreClause := ignoreClause,
               lefttree := outerPlanState }

/-- `ExecInitIgnore` together with its opening `Assert(!(eflags & EXEC_FLAG_MARK))`;
`markFlag` says whether `eflags` has `EXEC_FLAG_MARK` set.  The function raises nothing
else of its own: the bound expression is initialised (`ExecInitExpr`), not evaluated. -/
def ExecInitIgnore_eflags {τ ξ : Type} (markFlag : Bool) (fresh : IgnoreState τ ξ)
    (ignoreClause : Option ξ) (outerPlanState : PlanState) :
    Except ExecError (IgnoreState τ ξ) :=
  if markFlag then .error .assertNoMarkFlag
  else .ok (ExecInitIgnore fresh ignoreClause outerPlanState)

/-- The zero-filled record of `makeNode`. -/
def zeroedIgnoreState (τ ξ : Type) : IgnoreState τ ξ :=
  { lefttree := .other 0 [], ignoreClause := none, k := 0, count := 0, noCount := false,
    lstate := .IGNORE_INITIAL, position := 0, subSlot := none }

/-- The source's `ExecReScanIgnore(node)`: `recompute_ignore`, then `ExecReScan` of the
subplan when its `chgParam` is null. -/
def ExecReScanIgnore {τ σ ξ ε : Type} (ex : Executor τ σ ξ ε) (econtext : ε)
    (node : IgnoreState τ ξ) (child : σ) : Option ExecError × IgnoreState τ ξ × σ :=
  match recompute_ignore ex econtext node with
  | (some err, node1) => (some err, node1, child)
  | (none, node1) =>
      if ex.chgParamIsNull child then (none, node1, ex.ExecReScan node1.lefttree child)
      else (none, node1, child)

/-! ## Driving the node: sequences of pulls, and a list-backed subplan -/

/-- A sequence of `ExecIgnore` calls, one per listed direction, with the results in call
order.  The query aborts at the first error: no further call is made. -/
def ExecIgnoreSeq {τ σ ξ ε : Type} (ex : Executor τ σ ξ ε) (econtext : ε) :
    List ScanDirection → IgnoreState τ ξ → σ →
      List (Except ExecError (Option τ)) × IgnoreState τ ξ × σ
  | [], node, child => ([], node, child)
  | d :: ds, node, child =>
      match ExecIgnore ex d econtext node child with
      | (.error err, node1, child1) => ([.error err], node1, child1)
      | (.ok slot, node1, child1) =>
          let rest := ExecIgnoreSeq ex econtext ds node1 child1
          (.ok slot :: rest.1, rest.2)

/-- Modelled from the spec: the execution state of a subplan that serves a finite
sequence `rows` of `n` tuples as a bidirectional cursor.  `pos = 0` is before the first
tuple, `pos = i` with `1 ≤ i ≤ n` is on the `i`-th tuple, `pos = n + 1` is past the last.
`chgParam` is the subplan's pending-parameter-change flag. -/
structure CursorState where
  pos : Nat
  chgParam : Bool
  deriving DecidableEq, Repr

/-- Modelled from the spec: one pull on the cursor.  A pending parameter change makes the
pull rescan first.  A forward pull moves to the next tuple and returns it, or moves past
the end and returns end-of-stream; a backward pull moves to the previous tuple and
returns it, or moves before the start and returns end-of-stream. -/
def cursorProcNode {τ : Type} (rows : List τ) (direction : ScanDirection) (s : CursorState) :
    Option τ × CursorState :=
  let p := if s.chgParam then 0 else s.pos
  match direction with
  | .ForwardScanDirection =>
      match rows[p]? with
      | some t => (some t, { pos := p + 1, chgParam := false })
      | none => (none, { pos := rows.length + 1, chgParam := false })
  | .BackwardScanDirection =>
      if p ≤ 1 then (none, { pos := 0, chgParam := false })
      else
        match rows[p - 2]? with
        | some t => (some t, { pos := p - 1, chgParam := false })
        | none => (none, { pos := 0, chgParam := false })

/-- Modelled from the spec: the subplan over the tuple sequence `rows`, with the expression
evaluator `eval` left as given. -/
def cursorExecutor {τ ξ ε : Type} (rows : List τ) (eval : ξ → ε → Option Int) :
    Executor τ CursorState ξ ε :=
  { ExecProcNode := fun direction _ s => cursorProcNode rows direction s
    ExecReScan := fun _ _ => { pos := 0, chgParam := false }
    chgParamIsNull := fun s => !s.chgParam
    ExecEvalExprSwitchContext := eval }

/-- The cursor of a subplan that has just been initialised. -/
def cursorStart : CursorState := { pos := 0, chgParam := false }

/-- Modelled from the spec: the tuples a subplan with plan-state tree `tree` serves in one
scan when `rows` is its whole output in sort order.  A `SortState` told `bounded = true`,
`bound = N` keeps the first `N` tuples of the sort order and no more (the comment in
`pass_down_bound` on set-returning Results: a Sort "might need to return more than N
tuples", so "we cannot use bounded sort"); a Sort that is not bounded serves all of
`rows`.  Only a Sort at the top of the tree is modelled: any other tree is taken to
serve all of `rows`.  `nodeSort.c` is not among the sources. -/
def sortRows {τ : Type} (tree : PlanState) (rows : List τ) : List τ :=
  match tree with
  | .sort true bound _ => rows.take bound.toNat
  | _ => rows

/-- Modelled from the spec: a subplan that acts on the hint.  It serves
`sortRows tree rows` as a bidirectional cursor, `tree` being its plan-state tree at the
pull.  `nodeIgnore.c` writes the hint only in `recompute_ignore`, that is before the first
pull of a scan, so reading the hint at every pull agrees with reading it when the Sort
starts its work. -/
def sortExecutor {τ ξ ε : Type} (rows : List τ) (eval : ξ → ε → Option Int) :
    Executor τ CursorState ξ ε :=
  { ExecProcNode := fun direction tree s => cursorProcNode (sortRows tree rows) direction s
    ExecReScan := fun _ _ => { pos := 0, chgParam := false }
    chgParamIsNull := fun s => !s.chgParam
    ExecEvalExprSwitchContext := eval }

/-- The expression evaluator used with constant bounds: the expression state is the
value itself (`none` for SQL null) and the context is ignored. -/
def constEval : Option Int → Unit → Option Int := fun v _ => v

/-- The `m`-fold repetition of one direction. -/
def pullsOf (d : ScanDirection) (m : Nat) : List ScanDirection := List.replicate m d

/-! ## The node over a cursor subplan: synchronisation invariant and transition table -/

/-- The bound a (re)scan resolves: `some k` when `recompute_ignore` returns normally and
leaves `node->k = k`, `none` when it raises an error. -/
def resolvedBound {τ σ ξ ε : Type} (ex : Executor τ σ ξ ε) (econtext : ε)
    (node : IgnoreState τ ξ) : Option Int :=
  match recompute_ignore ex econtext node with
  | (none, node1) => some node1.k
  | (some _, _) => none

/-- The node and the cursor of its subplan are in step: after the bound has been
resolved to `K`, the state tag determines where the cursor stands relative to
`position`, and which tuple the field `subSlot` records (the tuple in the slot when the
pointer was assigned; in `IGNORE_SUBPLANEOF` the slot itself has been emptied since, see
`subSlotTarget`). -/
def Sync {τ ξ : Type} (rows : List τ) (K : Nat) (node : IgnoreState τ ξ)
    (child : CursorState) : Prop :=
  node.k = (K : Int) ∧
  match node.lstate with
  | .IGNORE_RESCAN => node.position = 0 ∧ (child.chgParam = true ∨ child.pos = 0)
  | .IGNORE_INWINDOW =>
      child.chgParam = false ∧ node.position = (child.pos : Int) ∧ K + 1 ≤ child.pos ∧
        child.pos ≤ rows.length ∧ node.subSlot = rows[child.pos - 1]?
  | .IGNORE_WINDOWSTART =>
      child.chgParam = false ∧ node.position = (child.pos : Int) ∧ child.pos = K + 1 ∧
        child.pos ≤ rows.length ∧ node.subSlot = rows[child.pos - 1]?
  | .IGNORE_SUBPLANEOF =>
      child.chgParam = false ∧ child.pos = rows.length + 1 ∧
        node.position = (rows.length : Int) ∧ K < rows.length ∧
        node.subSlot = rows[rows.length - 1]?
  | .IGNORE_EMPTY =>
      child.chgParam = false ∧ child.pos = rows.length + 1 ∧
        node.position = (rows.length : Int) ∧ rows.length ≤ K
  | _ => False

/-- The transition table of the node over a cursor subplan of `n` tuples with bound `K`,
on the pair (state tag, position): whether the pull returns a tuple, and the next pair.
`ExecIgnore_sync` proves that `ExecIgnore` follows it. -/
def modelStep (n K : Nat) :
    ScanDirection → IgnoreStateCond × Nat → Bool × IgnoreStateCond × Nat
  | .ForwardScanDirection, (.IGNORE_RESCAN, _) =>
      if K < n then (true, .IGNORE_INWINDOW, K + 1) else (false, .IGNORE_EMPTY, n)
  | .ForwardScanDirection, (.IGNORE_INWINDOW, p) =>
      if p < n then (true, .IGNORE_INWINDOW, p + 1) else (false, .IGNORE_SUBPLANEOF, p)
  | .BackwardScanDirection, (.IGNORE_INWINDOW, p) =>
      if p ≤ K + 1 then (false, .IGNORE_WINDOWSTART, p) else (true, .IGNORE_INWINDOW, p - 1)
  | .BackwardScanDirection, (.IGNORE_SUBPLANEOF, p) => (true, .IGNORE_INWINDOW, p)
  | .ForwardScanDirection, (.IGNORE_WINDOWSTART, p) => (true, .IGNORE_INWINDOW, p)
  | _, s => (false, s)

/-- The table run over a sequence of pulls: for each pull the 0-based index of the
returned row (`none` for end-of-stream), and the final pair. -/
def modelRun (n K : Nat) :
    List ScanDirection → IgnoreStateCond × Nat → List (Option Nat) × IgnoreStateCond × Nat
  | [], s => ([], s)
  | d :: ds, s =>
      let r := modelStep n K d s
      let rest := modelRun n K ds r.2
      ((if r.1 then some (r.2.2 - 1) else none) :: rest.1, rest.2)

/-- The node as the first pull leaves it once the bound is resolved. -/
def resolvedNode {σ : Type} (ex : Executor τ σ ξ ε) (ctx : ε) (node : IgnoreState τ ξ) :
    IgnoreState τ ξ :=
  (recompute_ignore ex ctx { node with noCount := true }).2

/-- A freshly initialised node over the cursor subplan of `rows`, pulled forward `m`
times from the start of the subplan. -/
def freshForward {τ ξ ε : Type} (rows : List τ) (eval : ξ → ε → Option Int) (ctx : ε)
    (fresh : IgnoreState τ ξ) (clause : Option ξ) (outer : PlanState) (m : Nat) :
    List (Except ExecError (Option τ)) × IgnoreState τ ξ × CursorState :=
  ExecIgnoreSeq (cursorExecutor rows eval) ctx (pullsOf .ForwardScanDirection m)
    (ExecInitIgnore fresh clause outer) cursorStart

/-- The node over the cursor subplan of `rows` is rescanned (expression context `ctxR`)
and then pulled forward `m` times. -/
def rescanForward {τ ξ ε : Type} (rows : List τ) (eval : ξ → ε → Option Int) (ctxR ctx : ε)
    (m : Nat) (node : IgnoreState τ ξ) (child : CursorState) :
    List (Except ExecError (Option τ)) × IgnoreState τ ξ × CursorState :=
  ExecIgnoreSeq (cursorExecutor rows eval) ctx (pullsOf .ForwardScanDirection m)
    (ExecReScanIgnore (cursorExecutor rows eval) ctxR node child).2.1
    (ExecReScanIgnore (cursorExecutor rows eval) ctxR node child).2.2

/-- A subplan whose execution state is the number of pulls made on it; every pull
returns the tuple `t`.  Used to observe whether a call of `ExecIgnore` pulls the subplan. -/
def countingExecutor {τ : Type} (t : τ) : Executor τ Nat (Option Int) Unit :=
  { ExecProcNode := fun _ _ calls => (some t, calls + 1)
    ExecReScan := fun _ calls => calls
    chgParamIsNull := fun _ => true
    ExecEvalExprSwitchContext := constEval }

/-- The tuples returned by the pulls made in direction `d`, in call order: `ds` lists the
directions of the pulls and `outs` their results. -/
def returnedTuples {τ : Type} (d : ScanDirection) :
    List ScanDirection → List (Except ExecError (Option τ)) → List τ
  | d1 :: ds, .ok (some t) :: outs =>
      if d1 = d then t :: returnedTuples d ds outs else returnedTuples d ds outs
  | _ :: ds, _ :: outs => returnedTuples d ds outs
  | _, _ => []

/-- The rows `K+1 .. position` (1-based) of the subplan's sequence. -/
def windowRows {τ : Type} (rows : List τ) (K : Nat) (position : Int) : List τ :=
  (rows.drop K).take (position.toNat - K)

/-! ## Addressing the nodes of a plan-state tree -/

/-- The subnodes of a plan-state node, in order. -/
def PlanState.children : PlanState → List PlanState
  | .sort _ _ lefttree => lefttree.toList
  | .mergeAppend mergeplans => mergeplans
  | .result _ lefttree => lefttree.toList
  | .other _ subnodes => subnodes

/-- The fields of a plan-state node that are its own (its subnodes apart). -/
inductive NodeFields where
  | sort (bounded : Bool) (bound : Int)
  | mergeAppend
  | result (returnsSet : Bool)
  | other (tag : Nat)
  deriving DecidableEq, Repr

/-- The own fields of a node. -/
def PlanState.fields : PlanState → NodeFields
  | .sort bounded bound _ => .sort bounded bound
  | .mergeAppend _ => .mergeAppend
  | .result returnsSet _ => .result returnsSet
  | .other tag _ => .other tag

/-- The node reached from `t` by following the path `path` of subnode indices, if there
is one. -/
def nodeAt (t : PlanState) : List Nat → Option PlanState
  | [] => some t
  | i :: rest =>
      match t.children[i]? with
      | some sub => nodeAt sub rest
      | none => none

/-- The node lets the hint through to its subnodes: a MergeAppend (all inputs), or a
Result that has an outer subnode and whose target list returns no set. -/
def passesHint : PlanState → Bool
  | .mergeAppend _ => true
  | .result returnsSet (some _) => !returnsSet
  | _ => false

/-- Every node that the path `path` leaves, starting with `t` itself, lets the hint
through; the path exists in `t`. -/
def hintPath (t : PlanState) : List Nat → Bool
  | [] => true
  | i :: rest =>
      passesHint t &&
        match t.children[i]? with
        | some sub => hintPath sub rest
        | none => false

/-- The hint `pass_down_bound` writes into a Sort, as a function on the node's own
fields; the fields of other node kinds are left alone. -/
def hintFields {τ ξ : Type} (node : IgnoreState τ ξ) : NodeFields → NodeFields
  | .sort _ bound =>
      if node.noCount || decide (wrapInt64 (node.count + node.k) < 0) then .sort false bound
      else .sort true (wrapInt64 (node.count + node.k))
  | f => f

/-! ## Sequences of pulls and rescans over any subplan -/

/-- A call made on the node by the executor: a pull (`ExecIgnore`) in a direction, or a
rescan (`ExecReScanIgnore`), each with the expression context of the moment. -/
inductive Call (ε : Type) where
  | pull (direction : ScanDirection) (econtext : ε)
  | rescan (econtext : ε)

/-- The node and its subplan in the course of a sequence of calls, with a record of what
the calls returned: `lastPull` is the slot returned by the most recent `ExecIgnore` call
that returned (`none` while there has been none), `returnedInScan` says whether a call of
`ExecIgnore` has returned a tuple since the last successful rescan, and `error` is the
error that aborted the sequence, if one was raised. -/
structure RunState (τ σ ξ : Type) where
  node : IgnoreState τ ξ
  child : σ
  lastPull : Option (Option τ)
  returnedInScan : Bool
  error : Option ExecError

/-- The state before any call: the node as `ExecInitIgnore` returns it. -/
def runStart {τ σ ξ : Type} (node : IgnoreState τ ξ) (child : σ) : RunState τ σ ξ :=
  { node := node, child := child, lastPull := none, returnedInScan := false, error := none }

/-- One call.  Once an error has been raised no further call is made. -/
def stepCall {τ σ ξ ε : Type} (ex : Executor τ σ ξ ε) (s : RunState τ σ ξ) :
    Call ε → RunState τ σ ξ
  | .pull direction econtext =>
      match s.error with
      | some _ => s
      | none =>
          match ExecIgnore ex direction econtext s.node s.child with
          | (.ok slot, node1, child1) =>
              { node := node1, child := child1, lastPull := some slot,
                returnedInScan := s.returnedInScan || slot.isSome, error := none }
          | (.error err, node1, child1) =>
              { s with node := node1, child := child1, error := some err }
  | .rescan econtext =>
      match s.error with
      | some _ => s
      | none =>
          match ExecReScanIgnore ex econtext s.node s.child with
          | (none, node1, child1) =>
              { node := node1, child := child1, lastPull := s.lastPull,
                returnedInScan := false, error := none }
          | (some err, node1, child1) =>
              { s with node := node1, child := child1, error := some err }

/-- A sequence of calls, made in order. -/
def runCalls {τ σ ξ ε : Type} (ex : Executor τ σ ξ ε) (calls : List (Call ε))
    (s : RunState τ σ ξ) : RunState τ σ ξ :=
  calls.foldl (stepCall ex) s

/-- A node over character tuples in the given state: bound expression `clause`, state tag
`st`, bound `k`, `position` and cached tuple `slot`; `noCount` is set, `count` is 0. -/
def sampleNode (clause : Option (Option Int)) (st : IgnoreStateCond) (k position : Int)
    (slot : Option Char) : IgnoreState Char (Option Int) :=
  { lefttree := .other 0 [], ignoreClause := clause, k := k, count := 0, noCount := true,
    lstate := st, position := position, subSlot := slot }

/-- What holds of a node that a sequence of calls has reached without error, given the
record of the calls (`returned`: a tuple was returned since the last resolution of the
bound; `last`: the slot the most recent pull returned), state by state. -/
def NodeInv {τ ξ : Type} (node : IgnoreState τ ξ) (returned : Bool)
    (last : Option (Option τ)) : Prop :=
  match node.lstate with
  | .IGNORE_INITIAL => returned = false
  | .IGNORE_RESCAN => node.position = 0 ∧ 0 ≤ node.k ∧ returned = false
  | .IGNORE_EMPTY => 0 ≤ node.position ∧ node.position ≤ node.k ∧ returned = false
  | .IGNORE_INWINDOW =>
      0 ≤ node.k ∧ node.k + 1 ≤ node.position ∧
        ∃ t, node.subSlot = some t ∧ last = some (some t)
  | .IGNORE_SUBPLANEOF => 0 ≤ node.k ∧ node.k + 1 ≤ node.position
  | .IGNORE_WINDOWSTART =>
      0 ≤ node.k ∧ node.k + 1 ≤ node.position ∧ ∃ t, node.subSlot = some t
  | _ => False

/-- `NodeInv` for the state of a run that no error has aborted. -/
def RunInv {τ σ ξ : Type} (s : RunState τ σ ξ) : Prop :=
  s.error = none → NodeInv s.node s.returnedInScan s.lastPull

/-! # Theorems -/

/-! ## The fetch loop and single pulls over a cursor subplan -/

variable {τ ξ ε : Type}

theorem cursorExecutor_ExecProcNode (rows : List τ) (eval : ξ → ε → Option Int)
    (direction : ScanDirection) (tree : PlanState) (s : CursorState) :
    (cursorExecutor rows eval).ExecProcNode direction tree s = cursorProcNode rows direction s :=
  rfl

theorem fetch_cursor (rows : List τ) (eval : ξ → ε → Option Int) (K : Nat) :
    ∀ (g : Nat) (node : IgnoreState τ ξ) (p : Nat), node.k = (K : Int) → node.position = (p : Int) →
      p + g = K → p ≤ rows.length →
      ExecIgnore_fetch (cursorExecutor rows eval) .ForwardScanDirection node ⟨p, false⟩ =
        if h : K < rows.length then
          (.ok (some rows[K]), { node with subSlot := some rows[K], position := (K : Int) + 1, lstate := .IGNORE_INWINDOW }, ⟨K + 1, false⟩)
        else
          (.ok none, { node with subSlot := if p < rows.length then rows[rows.length - 1]? else node.subSlot,
                                 position := (rows.length : Int), lstate := .IGNORE_EMPTY }, ⟨rows.length + 1, false⟩) := by
  intro g
  induction g with
  | zero =>
    intro node p hk hp hg hle
    obtain ⟨lt, ic, k, cnt, nc, ls, pos, ss⟩ := node
    simp only at hk hp
    subst hk hp
    have hpK : p = K := by omega
    subst hpK
    rw [ExecIgnore_fetch]
    by_cases h : p < rows.length
    · simp [cursorExecutor, cursorProcNode, h]
    · have : rows.length = p := by omega
      subst this
      simp [cursorExecutor, cursorProcNode]
  | succ g ih =>
    intro node p hk hp hg hle
    obtain ⟨lt, ic, k, cnt, nc, ls, pos, ss⟩ := node
    simp only at hk hp
    subst hk hp
    rw [ExecIgnore_fetch]
    by_cases h : p < rows.length
    · have hnot : ¬ ((p : Int) + 1 > (K : Int)) := by omega
      have := ih { lefttree := lt, ignoreClause := ic, k := (K : Int), count := cnt, noCount := nc, lstate := ls, subSlot := some rows[p], position := (p : Int) + 1 } (p + 1) rfl (by simp) (by omega) (by omega)
      simp only [cursorExecutor_ExecProcNode, cursorProcNode, h, List.getElem?_eq_getElem, Bool.false_eq_true, if_false, hnot, this]
      by_cases h2 : K < rows.length
      · simp [h2]
      · simp only [h2, dite_false, if_true]
        by_cases h3 : p + 1 < rows.length
        · simp [h3, h]
        · have h4 : rows.length - 1 = p := by omega
          simp [h3, h4, h]
    · have : rows.length = p := by omega
      subst this
      have h2 : ¬ K < rows.length := by omega
      simp [cursorExecutor, cursorProcNode, h2]


theorem fetch_chgParam (rows : List τ) (eval : ξ → ε → Option Int) (node : IgnoreState τ ξ) (q : Nat) :
    ExecIgnore_fetch (cursorExecutor rows eval) .ForwardScanDirection node ⟨q, true⟩ =
      ExecIgnore_fetch (cursorExecutor rows eval) .ForwardScanDirection node ⟨0, false⟩ := by
  conv_lhs => rw [ExecIgnore_fetch]
  conv_rhs => rw [ExecIgnore_fetch]
  simp [cursorExecutor, cursorProcNode]

theorem fetch_start (rows : List τ) (eval : ξ → ε → Option Int) (K : Nat)
    (node : IgnoreState τ ξ) (child : CursorState) (hk : node.k = (K : Int))
    (hp : node.position = 0) (hc : child.chgParam = true ∨ child.pos = 0) :
    ExecIgnore_fetch (cursorExecutor rows eval) .ForwardScanDirection node child =
      if h : K < rows.length then
        (.ok (some rows[K]),
          { node with subSlot := some rows[K], position := (K : Int) + 1,
                      lstate := .IGNORE_INWINDOW }, ⟨K + 1, false⟩)
      else
        (.ok none,
          { node with subSlot := if 0 < rows.length then rows[rows.length - 1]? else node.subSlot,
                      position := (rows.length : Int), lstate := .IGNORE_EMPTY },
          ⟨rows.length + 1, false⟩) := by
  obtain ⟨cp, chg⟩ := child
  have key := fetch_cursor rows eval K K node 0 hk (by simpa using hp) (by omega) (by omega)
  cases chg
  · rcases hc with hc | hc
    · simp at hc
    · simp only at hc; subst hc; exact key
  · rw [fetch_chgParam]; exact key

theorem ExecIgnore_sync (rows : List τ) (eval : ξ → ε → Option Int) (ctx : ε) (K : Nat)
    (node : IgnoreState τ ξ) (child : CursorState) (h : Sync rows K node child)
    (d : ScanDirection) :
    Sync rows K (ExecIgnore (cursorExecutor rows eval) d ctx node child).2.1
        (ExecIgnore (cursorExecutor rows eval) d ctx node child).2.2 ∧
      (ExecIgnore (cursorExecutor rows eval) d ctx node child).2.1.lstate =
        (modelStep rows.length K d (node.lstate, node.position.toNat)).2.1 ∧
      (ExecIgnore (cursorExecutor rows eval) d ctx node child).2.1.position =
        ((modelStep rows.length K d (node.lstate, node.position.toNat)).2.2 : Int) ∧
      (ExecIgnore (cursorExecutor rows eval) d ctx node child).1 =
        .ok (if (modelStep rows.length K d (node.lstate, node.position.toNat)).1 then
          rows[(modelStep rows.length K d (node.lstate, node.position.toNat)).2.2 - 1]?
          else none) := by
  obtain ⟨lt, ic, k, cnt, nc, ls, pos, ss⟩ := node
  obtain ⟨cp, chg⟩ := child
  obtain ⟨hk, hs⟩ := h
  simp only at hk
  subst hk
  cases ls <;> cases d <;> simp only [Sync] at hs
  · -- RESCAN, backward
    simp [ExecIgnore, ExecIgnore_rescan, ScanDirectionIsForward, modelStep, Sync, hs]
  · -- RESCAN, forward
    obtain ⟨hp, hc⟩ := hs
    subst hp
    have hf := fetch_start rows eval K
        ({ lefttree := lt, ignoreClause := ic, k := (K : Int), count := cnt, noCount := true,
           lstate := .IGNORE_RESCAN, position := 0, subSlot := ss } : IgnoreState τ ξ) ⟨cp, chg⟩
        rfl rfl hc
    simp only [ExecIgnore, ExecIgnore_rescan, ScanDirectionIsForward, hf, modelStep]
    by_cases h : K < rows.length
    · simp [h, Sync]; omega
    · simp [h, Sync]; omega
  all_goals
    obtain ⟨hchg, hs⟩ := hs
    subst hchg
  · -- EMPTY, backward
    simp [ExecIgnore, modelStep, Sync, hs]
  · -- EMPTY, forward
    simp [ExecIgnore, modelStep, Sync, hs]
  · -- INWINDOW, backward
    obtain ⟨hp, h1, h2, h3⟩ := hs
    subst hp h3
    by_cases h : cp ≤ K + 1
    · have h' : (cp : Int) ≤ (K : Int) + 1 := by omega
      simp [ExecIgnore, ScanDirectionIsForward, modelStep, Sync, h, h', h2]
      omega
    · have h' : ¬ (cp : Int) ≤ (K : Int) + 1 := by omega
      have h4 : ¬ cp ≤ 1 := by omega
      have h5 : cp - 2 < rows.length := by omega
      have h6 : cp - 1 - 1 = cp - 2 := by omega
      simp [ExecIgnore, ScanDirectionIsForward, modelStep, Sync, h, h', h2, cursorExecutor,
        cursorProcNode, returnSlot, h4, h5, h6]
      omega
  · -- INWINDOW, forward
    obtain ⟨hp, h1, h2, h3⟩ := hs
    subst hp h3
    by_cases h : cp < rows.length
    · simp [ExecIgnore, ScanDirectionIsForward, modelStep, Sync, h, cursorExecutor,
        cursorProcNode, returnSlot]
      omega
    · have h4 : rows.length = cp := by omega
      subst h4
      simp [ExecIgnore, ScanDirectionIsForward, modelStep, Sync, cursorExecutor,
        cursorProcNode, returnSlot]
      omega
  · -- SUBPLANEOF, backward
    obtain ⟨hc, hp, h1, h3⟩ := hs
    subst hc hp h3
    have h4 : ¬ rows.length + 1 ≤ 1 := by omega
    have h5 : rows.length - 1 < rows.length := by omega
    simp [ExecIgnore, ScanDirectionIsForward, modelStep, Sync, cursorExecutor,
      cursorProcNode, returnSlot, h5, h4]
    omega
  · -- SUBPLANEOF, forward
    obtain ⟨hc, hp, h1, h3⟩ := hs
    subst hc hp h3
    simp [ExecIgnore, ScanDirectionIsForward, modelStep, Sync, h1]
  · -- WINDOWSTART, backward
    obtain ⟨hp, h1, h2, h3⟩ := hs
    subst hp h3
    simp [ExecIgnore, ScanDirectionIsForward, modelStep, Sync, h1, h2]
    omega
  · -- WINDOWSTART, forward
    obtain ⟨hp, h1, h2, h3⟩ := hs
    subst hp h3
    subst h1
    have hK : K < rows.length := by omega
    simp [ExecIgnore, ScanDirectionIsForward, modelStep, Sync, returnSlot,
      List.getElem?_eq_getElem hK]
    omega

/-! ## Runs over a cursor subplan -/

theorem ExecIgnoreSeq_sync (rows : List τ) (eval : ξ → ε → Option Int) (ctx : ε) (K : Nat)
    (ds : List ScanDirection) :
    ∀ (node : IgnoreState τ ξ) (child : CursorState), Sync rows K node child →
      (ExecIgnoreSeq (cursorExecutor rows eval) ctx ds node child).1 =
          (modelRun rows.length K ds (node.lstate, node.position.toNat)).1.map
            (fun o => .ok (o.bind fun i => rows[i]?)) ∧
        Sync rows K (ExecIgnoreSeq (cursorExecutor rows eval) ctx ds node child).2.1
          (ExecIgnoreSeq (cursorExecutor rows eval) ctx ds node child).2.2 ∧
        (ExecIgnoreSeq (cursorExecutor rows eval) ctx ds node child).2.1.lstate =
          (modelRun rows.length K ds (node.lstate, node.position.toNat)).2.1 ∧
        (ExecIgnoreSeq (cursorExecutor rows eval) ctx ds node child).2.1.position =
          ((modelRun rows.length K ds (node.lstate, node.position.toNat)).2.2 : Int) := by
  induction ds with
  | nil =>
    intro node child h
    refine ⟨rfl, h, rfl, ?_⟩
    simp only [ExecIgnoreSeq, modelRun]
    have : 0 ≤ node.position := by
      obtain ⟨hk, hs⟩ := h
      rcases hl : node.lstate with _ | _ | _ | _ | _ | _ | _ | _ <;> rw [hl] at hs <;>
        simp only at hs <;> omega
    omega
  | cons d ds ih =>
    intro node child h
    obtain ⟨hS, hl, hp, ho⟩ := ExecIgnore_sync rows eval ctx K node child h d
    rcases hr : ExecIgnore (cursorExecutor rows eval) d ctx node child with ⟨out, node1, child1⟩
    rw [hr] at hS hl hp ho
    simp only at hS hl hp ho
    subst ho
    obtain ⟨i1, i2, i3, i4⟩ := ih node1 child1 hS
    have hpos : node1.position.toNat = (modelStep rows.length K d (node.lstate, node.position.toNat)).2.2 := by
      rw [hp]; simp
    rw [hl, hpos] at i1 i3 i4
    simp only [ExecIgnoreSeq, hr, modelRun, List.map_cons]
    refine ⟨?_, i2, i3, i4⟩
    rw [i1]
    congr 2
    split <;> simp

/-! ## The first pull -/

theorem recompute_ignore_fields {σ : Type} (ex : Executor τ σ ξ ε) (ctx : ε)
    (node : IgnoreState τ ξ) (k : Int) (h : resolvedBound ex ctx node = some k) :
    (recompute_ignore ex ctx node).1 = none ∧
      (recompute_ignore ex ctx node).2.k = k ∧
      (recompute_ignore ex ctx node).2.position = 0 ∧
      (recompute_ignore ex ctx node).2.subSlot = none ∧
      (recompute_ignore ex ctx node).2.lstate = .IGNORE_RESCAN ∧
      (recompute_ignore ex ctx node).2.noCount = node.noCount ∧
      (recompute_ignore ex ctx node).2.count = node.count ∧
      (recompute_ignore ex ctx node).2.ignoreClause = node.ignoreClause := by
  unfold resolvedBound at h
  unfold recompute_ignore at h ⊢
  rcases hc : node.ignoreClause with _ | e
  · simp [hc] at h ⊢; exact h
  · rcases hv : ex.ExecEvalExprSwitchContext e ctx with _ | v
    · simp [hc, hv] at h ⊢; exact h
    · by_cases hneg : v < 0
      · simp [hc, hv, hneg] at h
      · simp [hc, hv, hneg] at h ⊢; exact h

theorem resolvedBound_noCount {σ : Type} (ex : Executor τ σ ξ ε) (ctx : ε)
    (node : IgnoreState τ ξ) (b : Bool) :
    resolvedBound ex ctx { node with noCount := b } = resolvedBound ex ctx node := by
  unfold resolvedBound recompute_ignore
  rcases hc : node.ignoreClause with _ | e
  · simp [hc]
  · rcases hv : ex.ExecEvalExprSwitchContext e ctx with _ | v
    · simp [hc, hv]
    · by_cases hneg : v < 0 <;> simp [hc, hv, hneg]

theorem ExecIgnore_initial {σ : Type} (ex : Executor τ σ ξ ε) (ctx : ε)
    (node : IgnoreState τ ξ) (k : Int) (hi : node.lstate = .IGNORE_INITIAL)
    (h : resolvedBound ex ctx node = some k) (d : ScanDirection) (child : σ) :
    ExecIgnore ex d ctx node child = ExecIgnore ex d ctx (resolvedNode ex ctx node) child := by
  obtain ⟨lt0, ic0, k0, cnt0, nc0, ls0, pos0, ss0⟩ := node
  simp only at hi
  subst hi
  have h2 := h
  rw [← resolvedBound_noCount ex ctx _ true] at h2
  obtain ⟨f1, f2, f3, f4, f5, f6, f7, f8⟩ := recompute_ignore_fields ex ctx _ k h2
  unfold resolvedNode
  rcases hr : recompute_ignore ex ctx
      { lefttree := lt0, ignoreClause := ic0, k := k0, count := cnt0, noCount := true,
        lstate := .IGNORE_INITIAL, position := pos0, subSlot := ss0 } with ⟨err, node1⟩
  rw [hr] at f1 f5 f6
  simp only at f1 f5 f6
  subst f1
  obtain ⟨lt, ic, k1, cnt, nc, ls, pos, ss⟩ := node1
  simp only at f5 f6
  subst f5 f6
  simp [ExecIgnore, hr]

theorem resolvedNode_sync (rows : List τ) (eval : ξ → ε → Option Int) (ctx : ε)
    (node : IgnoreState τ ξ) (K : Nat)
    (h : resolvedBound (cursorExecutor rows eval) ctx node = some (K : Int))
    (child : CursorState) (hc : child.chgParam = true ∨ child.pos = 0) :
    Sync rows K (resolvedNode (cursorExecutor rows eval) ctx node) child ∧
      (resolvedNode (cursorExecutor rows eval) ctx node).lstate = .IGNORE_RESCAN ∧
      (resolvedNode (cursorExecutor rows eval) ctx node).position = 0 := by
  have h2 : resolvedBound (cursorExecutor rows eval) ctx { node with noCount := true } = some (K : Int) := by
    rw [resolvedBound_noCount]; exact h
  obtain ⟨f1, f2, f3, f4, f5, f6, f7, f8⟩ := recompute_ignore_fields _ ctx _ _ h2
  unfold resolvedNode
  refine ⟨⟨f2, ?_⟩, f5, f3⟩
  rw [f5]
  exact ⟨f3, hc⟩

theorem ExecIgnoreSeq_initial {σ : Type} (ex : Executor τ σ ξ ε) (ctx : ε)
    (node : IgnoreState τ ξ) (k : Int) (hi : node.lstate = .IGNORE_INITIAL)
    (h : resolvedBound ex ctx node = some k) (d : ScanDirection) (ds : List ScanDirection)
    (child : σ) :
    ExecIgnoreSeq ex ctx (d :: ds) node child =
      ExecIgnoreSeq ex ctx (d :: ds) (resolvedNode ex ctx node) child := by
  simp only [ExecIgnoreSeq, ExecIgnore_initial ex ctx node k hi h d child]

/-! ## The transition table under forward pulls -/

theorem modelRun_empty (n K : Nat) (ds : List ScanDirection) (p : Nat) :
    modelRun n K ds (.IGNORE_EMPTY, p) = (List.replicate ds.length none, .IGNORE_EMPTY, p) := by
  induction ds with
  | nil => rfl
  | cons d ds ih => cases d <;> simp [modelRun, modelStep, ih, List.replicate_succ]

theorem modelRun_forward_eof (n K : Nat) (m p : Nat) :
    modelRun n K (pullsOf .ForwardScanDirection m) (.IGNORE_SUBPLANEOF, p) =
      (List.replicate m none, .IGNORE_SUBPLANEOF, p) := by
  induction m with
  | zero => rfl
  | succ m ih =>
    simp only [pullsOf] at ih
    simp [pullsOf, modelRun, modelStep, ih, List.replicate_succ]

theorem modelRun_forward_inwindow (n K : Nat) (m : Nat) :
    ∀ p, p ≤ n →
      modelRun n K (pullsOf .ForwardScanDirection m) (.IGNORE_INWINDOW, p) =
        ((List.range m).map (fun i => if p + i < n then some (p + i) else none),
          if m ≤ n - p then (.IGNORE_INWINDOW, p + m) else (.IGNORE_SUBPLANEOF, n)) := by
  induction m with
  | zero => intro p hp; simp [pullsOf, modelRun]
  | succ m ih =>
    intro p hp
    by_cases h : p < n
    · have := ih (p + 1) (by omega)
      simp only [pullsOf] at this
      simp only [pullsOf, List.replicate_succ, modelRun, modelStep, h, if_true, this,
        List.range_succ_eq_map, List.map_cons, List.map_map]
      refine Prod.ext ?_ ?_
      · simp only [Nat.add_zero, h, if_true, Nat.add_sub_cancel]
        congr 1
        apply List.map_congr_left
        intro i _
        simp only [Function.comp, Nat.succ_eq_add_one]
        have : p + 1 + i = p + (i + 1) := by omega
        rw [this]
      · simp only
        by_cases h2 : m ≤ n - (p + 1)
        · have h3 : m + 1 ≤ n - p := by omega
          have e : p + 1 + m = p + (m + 1) := by omega
          simp only [h2, h3, if_true, e]
        · have h3 : ¬ m + 1 ≤ n - p := by omega
          simp only [h2, h3, if_false]
    · have hpn : p = n := by omega
      subst hpn
      have := modelRun_forward_eof p K m p
      simp only [pullsOf] at this
      simp only [pullsOf, List.replicate_succ, modelRun, modelStep, h, if_false, this,
        List.range_succ_eq_map, List.map_cons, List.map_map]
      refine Prod.ext ?_ ?_
      · simp only [Nat.add_zero, h, if_false, Bool.false_eq_true]
        congr 1
        have e : ((fun i => if p + i < p then some (p + i) else none) ∘ Nat.succ) =
            fun _ => (none : Option Nat) := by
          funext i; simp
        rw [e]
        simp
      · simp

theorem modelRun_forward_rescan (n K : Nat) (m q : Nat) :
    modelRun n K (pullsOf .ForwardScanDirection (m + 1)) (.IGNORE_RESCAN, q) =
      ((List.range (m + 1)).map (fun i => if K + i < n then some (K + i) else none),
        if n ≤ K then (.IGNORE_EMPTY, n)
        else if m + 1 ≤ n - K then (.IGNORE_INWINDOW, K + (m + 1))
        else (.IGNORE_SUBPLANEOF, n)) := by
  by_cases h : K < n
  · have := modelRun_forward_inwindow n K m (K + 1) (by omega)
    simp only [pullsOf] at this
    simp only [pullsOf, List.replicate_succ, modelRun, modelStep, h, if_true, this,
      List.range_succ_eq_map, List.map_cons, List.map_map]
    have hn : ¬ n ≤ K := by omega
    refine Prod.ext ?_ ?_
    · simp only [Nat.add_zero, h, if_true, Nat.add_sub_cancel]
      congr 1
      apply List.map_congr_left
      intro i _
      simp only [Function.comp, Nat.succ_eq_add_one]
      have : K + 1 + i = K + (i + 1) := by omega
      rw [this]
    · simp only [hn, if_false]
      by_cases h2 : m ≤ n - (K + 1)
      · have h3 : m + 1 ≤ n - K := by omega
        have e : K + 1 + m = K + (m + 1) := by omega
        simp only [h2, h3, if_true, e]
      · have h3 : ¬ m + 1 ≤ n - K := by omega
        simp only [h2, h3, if_false]
  · have hn : n ≤ K := by omega
    have := modelRun_empty n K (List.replicate m .ForwardScanDirection) n
    simp only [pullsOf, List.replicate_succ, modelRun, modelStep, h, if_false, this,
      List.range_succ_eq_map, List.map_cons, List.map_map]
    refine Prod.ext ?_ ?_
    · simp only [Nat.add_zero, h, if_false, Bool.false_eq_true]
      congr 1
      have e : ((fun i => if K + i < n then some (K + i) else none) ∘ Nat.succ) =
          fun _ => (none : Option Nat) := by
        funext i
        have : ¬ K + (i + 1) < n := by omega
        simp [this]
      rw [e]
      simp
    · simp [hn]

theorem render_index (rows : List τ) (j : Nat) :
    ((if j < rows.length then some j else none).bind fun i => rows[i]?) = rows[j]? := by
  by_cases h : j < rows.length
  · simp [h]
  · simp [h]
    omega

/-! ## The transition table under backward pulls -/

theorem modelRun_backward_windowstart (n K : Nat) (j p : Nat) :
    modelRun n K (pullsOf .BackwardScanDirection j) (.IGNORE_WINDOWSTART, p) =
      (List.replicate j none, .IGNORE_WINDOWSTART, p) := by
  induction j with
  | zero => rfl
  | succ j ih =>
    simp only [pullsOf] at ih
    simp [pullsOf, modelRun, modelStep, ih, List.replicate_succ]

theorem modelRun_backward_inwindow (n K : Nat) (j : Nat) :
    ∀ p, K + 1 ≤ p →
      modelRun n K (pullsOf .BackwardScanDirection j) (.IGNORE_INWINDOW, p) =
        ((List.range j).map (fun i => if i < p - (K + 1) then some (p - 2 - i) else none),
          if j ≤ p - (K + 1) then (.IGNORE_INWINDOW, p - j) else (.IGNORE_WINDOWSTART, K + 1)) := by
  induction j with
  | zero => intro p hp; simp [pullsOf, modelRun]
  | succ j ih =>
    intro p hp
    by_cases h : p ≤ K + 1
    · have hpK : p = K + 1 := by omega
      subst hpK
      have := modelRun_backward_windowstart n K j (K + 1)
      simp only [pullsOf] at this
      simp only [pullsOf, List.replicate_succ, modelRun, modelStep, le_refl, if_true, this,
        List.range_succ_eq_map, List.map_cons, List.map_map]
      refine Prod.ext ?_ ?_
      · simp only [Nat.sub_self, Nat.lt_irrefl, if_false, Bool.false_eq_true]
        congr 1
        have e : ((fun i => if i < 0 then some (K + 1 - 2 - i) else none) ∘ Nat.succ) =
            fun _ => (none : Option Nat) := by
          funext i; simp
        rw [e]
        simp
      · simp
    · have := ih (p - 1) (by omega)
      simp only [pullsOf] at this
      simp only [pullsOf, List.replicate_succ, modelRun, modelStep, h, if_false, this,
        List.range_succ_eq_map, List.map_cons, List.map_map]
      refine Prod.ext ?_ ?_
      · have h0 : 0 < p - (K + 1) := by omega
        simp only [h0, if_true, Nat.sub_zero]
        have e0 : p - 1 - 1 = p - 2 := by omega
        rw [e0]
        congr 1
        apply List.map_congr_left
        intro i _
        simp only [Function.comp, Nat.succ_eq_add_one]
        by_cases h2 : i < p - 1 - (K + 1)
        · have h3 : i + 1 < p - (K + 1) := by omega
          have e1 : p - 1 - 2 - i = p - 2 - (i + 1) := by omega
          simp only [h2, h3, if_true, e1]
        · have h3 : ¬ i + 1 < p - (K + 1) := by omega
          simp only [h2, h3, if_false]
      · simp only
        by_cases h2 : j ≤ p - 1 - (K + 1)
        · have h3 : j + 1 ≤ p - (K + 1) := by omega
          have e : p - 1 - j = p - (j + 1) := by omega
          simp only [h2, h3, if_true, e]
        · have h3 : ¬ j + 1 ≤ p - (K + 1) := by omega
          simp only [h2, h3, if_false]

theorem modelRun_backward_eof (n K : Nat) (j p : Nat) (hp : K + 1 ≤ p) :
    modelRun n K (pullsOf .BackwardScanDirection (j + 1)) (.IGNORE_SUBPLANEOF, p) =
      ((List.range (j + 1)).map (fun i => if i < p - K then some (p - 1 - i) else none),
        if j ≤ p - (K + 1) then (.IGNORE_INWINDOW, p - j) else (.IGNORE_WINDOWSTART, K + 1)) := by
  have := modelRun_backward_inwindow n K j p hp
  simp only [pullsOf] at this
  simp only [pullsOf, List.replicate_succ, modelRun, modelStep, this,
    List.range_succ_eq_map, List.map_cons, List.map_map]
  refine Prod.ext ?_ ?_
  · have h0 : 0 < p - K := by omega
    simp only [h0, if_true, Nat.sub_zero]
    congr 1
    apply List.map_congr_left
    intro i _
    simp only [Function.comp, Nat.succ_eq_add_one]
    by_cases h2 : i < p - (K + 1)
    · have h3 : i + 1 < p - K := by omega
      have e1 : p - 2 - i = p - 1 - (i + 1) := by omega
      simp only [h2, h3, if_true, e1]
    · have h3 : ¬ i + 1 < p - K := by omega
      simp only [h2, h3, if_false]
  · rfl

/-- The state a fresh node is in after `m + 1` forward pulls. -/
theorem freshForward_state (rows : List τ) (eval : ξ → ε → Option Int) (ctx : ε)
    (fresh : IgnoreState τ ξ) (clause : Option ξ) (outer : PlanState) (K : Nat)
    (hK : resolvedBound (cursorExecutor rows eval) ctx (ExecInitIgnore fresh clause outer) =
      some (K : Int))
    (m : Nat) :
    Sync rows K (freshForward rows eval ctx fresh clause outer (m + 1)).2.1
        (freshForward rows eval ctx fresh clause outer (m + 1)).2.2 ∧
      (freshForward rows eval ctx fresh clause outer (m + 1)).2.1.lstate =
        (if rows.length ≤ K then .IGNORE_EMPTY
          else if m + 1 ≤ rows.length - K then .IGNORE_INWINDOW else .IGNORE_SUBPLANEOF) ∧
      (freshForward rows eval ctx fresh clause outer (m + 1)).2.1.position =
        ((if rows.length ≤ K then rows.length
          else if m + 1 ≤ rows.length - K then K + (m + 1) else rows.length : Nat) : Int) := by
  have hi : (ExecInitIgnore fresh clause outer).lstate = .IGNORE_INITIAL := rfl
  obtain ⟨hS, hl, hp⟩ := resolvedNode_sync rows eval ctx _ K hK cursorStart (Or.inr rfl)
  have hseq := ExecIgnoreSeq_initial (cursorExecutor rows eval) ctx _ _ hi hK
    .ForwardScanDirection (List.replicate m .ForwardScanDirection) cursorStart
  obtain ⟨o1, o2, o3, o4⟩ := ExecIgnoreSeq_sync rows eval ctx K
    (pullsOf .ForwardScanDirection (m + 1)) _ _ hS
  rw [hl, hp] at o3 o4
  simp only [Int.toNat_zero, modelRun_forward_rescan] at o3 o4
  simp only [pullsOf, List.replicate_succ] at o2 o3 o4
  unfold freshForward
  simp only [pullsOf, List.replicate_succ]
  rw [hseq]
  refine ⟨o2, ?_, ?_⟩
  · rw [o3]; split <;> [rfl; (split <;> rfl)]
  · rw [o4]; split <;> [rfl; (split <;> rfl)]

/-- The results of `m` forward pulls on a fresh node over a cursor subplan. -/
theorem freshForward_outputs (rows : List τ) (eval : ξ → ε → Option Int) (ctx : ε)
    (fresh : IgnoreState τ ξ) (clause : Option ξ) (outer : PlanState) (K : Nat)
    (hK : resolvedBound (cursorExecutor rows eval) ctx (ExecInitIgnore fresh clause outer) =
      some (K : Int))
    (m : Nat) :
    (freshForward rows eval ctx fresh clause outer m).1 =
      (List.range m).map (fun i => Except.ok rows[K + i]?) := by
  unfold freshForward
  cases m with
  | zero => simp [pullsOf, ExecIgnoreSeq]
  | succ m =>
    have hi : (ExecInitIgnore fresh clause outer).lstate = .IGNORE_INITIAL := rfl
    obtain ⟨hS, hl, hp⟩ := resolvedNode_sync rows eval ctx _ K hK cursorStart (Or.inr rfl)
    have hseq := ExecIgnoreSeq_initial (cursorExecutor rows eval) ctx _ _ hi hK
      .ForwardScanDirection (List.replicate m .ForwardScanDirection) cursorStart
    obtain ⟨o1, _, _, _⟩ := ExecIgnoreSeq_sync rows eval ctx K
      (pullsOf .ForwardScanDirection (m + 1)) _ _ hS
    rw [hl, hp] at o1
    simp only [Int.toNat_zero, modelRun_forward_rescan] at o1
    simp only [pullsOf, List.replicate_succ] at o1 ⊢
    rw [hseq, o1, List.map_map]
    apply List.map_congr_left
    intro i _
    simp only [Function.comp, render_index]

/-! ## C1: forward-only scans -/

/-- C1: over a cursor subplan serving `rows`, a freshly initialised node whose bound
resolves to `K >= 0`, pulled forward `m` times, returns on its `(i+1)`-th call the row with
0-based index `K + i` (the `(K+i+1)`-th row) while there is one and end-of-stream on every
later call; when the subplan has at most `K` rows the node is in `IGNORE_EMPTY` after the
first call and stays there. -/
theorem ExecIgnore_forward_only (rows : List τ) (eval : ξ → ε → Option Int) (ctx : ε)
    (fresh : IgnoreState τ ξ) (clause : Option ξ) (outer : PlanState) (K : Nat)
    (hK : resolvedBound (cursorExecutor rows eval) ctx (ExecInitIgnore fresh clause outer) =
      some (K : Int))
    (m : Nat) :
    (ExecIgnoreSeq (cursorExecutor rows eval) ctx (pullsOf .ForwardScanDirection m)
        (ExecInitIgnore fresh clause outer) cursorStart).1 =
      (List.range m).map (fun i => Except.ok rows[K + i]?) ∧
    (rows.length ≤ K → 0 < m →
      (ExecIgnoreSeq (cursorExecutor rows eval) ctx (pullsOf .ForwardScanDirection m)
        (ExecInitIgnore fresh clause outer) cursorStart).2.1.lstate = .IGNORE_EMPTY) := by
  refine ⟨freshForward_outputs rows eval ctx fresh clause outer K hK m, ?_⟩
  intro hn hm
  obtain ⟨m, rfl⟩ : ∃ m', m = m' + 1 := ⟨m - 1, by omega⟩
  obtain ⟨_, hl, _⟩ := freshForward_state rows eval ctx fresh clause outer K hK m
  simp only [hn, if_true] at hl
  exact hl

/-- The scenario `[a,b,c,d,e]`, `K = 2`: the bound resolves to 2 and five forward pulls
yield `c, d, e, end-of-stream, end-of-stream`. -/
theorem ExecIgnore_forward_only_witness :
    resolvedBound (cursorExecutor ['a', 'b', 'c', 'd', 'e'] constEval) ()
        (ExecInitIgnore (zeroedIgnoreState Char (Option Int)) (some (some 2)) (.other 0 [])) =
      some ((2 : Nat) : Int) ∧
    (ExecIgnoreSeq (cursorExecutor ['a', 'b', 'c', 'd', 'e'] constEval) ()
        (pullsOf .ForwardScanDirection 5)
        (ExecInitIgnore (zeroedIgnoreState Char (Option Int)) (some (some 2)) (.other 0 []))
        cursorStart).1 =
      [.ok (some 'c'), .ok (some 'd'), .ok (some 'e'), .ok none, .ok none] :=
  ⟨by rfl, (ExecIgnore_forward_only ['a', 'b', 'c', 'd', 'e'] constEval ()
      (zeroedIgnoreState Char (Option Int)) (some (some 2)) (.other 0 []) 2 (by rfl) 5).1⟩

theorem render_backward (rows : List τ) (n K i : Nat) :
    ((if i < n - K then some (n - 1 - i) else none).bind fun x => rows[x]?) =
      if i < n - K then rows[n - 1 - i]? else none := by
  split <;> simp

/-! ## C2: backward traversal after a forward drain -/

/-- C2: over a cursor subplan serving `rows` with more than `K` rows, once a fresh node
has been pulled forward until it returned end-of-stream (`m > n - K` forward pulls; the
last one returns end-of-stream, the state is `IGNORE_SUBPLANEOF` and `position = n`),
`j` successive backward pulls return the rows `n, n-1, ..., K+1` (1-based) in that order
and end-of-stream from then on; while rows are being returned `position` is
`n + 1 - j` after the `j`-th backward pull (so the first one leaves it at `n`), and after
the end-of-stream the state is `IGNORE_WINDOWSTART`. -/
theorem ExecIgnore_backward_after_drain (rows : List τ) (eval : ξ → ε → Option Int) (ctx : ε)
    (fresh : IgnoreState τ ξ) (clause : Option ξ) (outer : PlanState) (K : Nat)
    (hK : resolvedBound (cursorExecutor rows eval) ctx (ExecInitIgnore fresh clause outer) =
      some (K : Int))
    (hn : K < rows.length) (m : Nat) (hm : rows.length - K < m) (j : Nat) :
    (freshForward rows eval ctx fresh clause outer m).1[m - 1]? = some (.ok none) ∧
    (freshForward rows eval ctx fresh clause outer m).2.1.lstate = .IGNORE_SUBPLANEOF ∧
    (freshForward rows eval ctx fresh clause outer m).2.1.position = (rows.length : Int) ∧
    (ExecIgnoreSeq (cursorExecutor rows eval) ctx (pullsOf .BackwardScanDirection j)
        (freshForward rows eval ctx fresh clause outer m).2.1
        (freshForward rows eval ctx fresh clause outer m).2.2).1 =
      (List.range j).map
        (fun i => Except.ok (if i < rows.length - K then rows[rows.length - 1 - i]? else none)) ∧
    (0 < j → j ≤ rows.length - K →
      (ExecIgnoreSeq (cursorExecutor rows eval) ctx (pullsOf .BackwardScanDirection j)
        (freshForward rows eval ctx fresh clause outer m).2.1
        (freshForward rows eval ctx fresh clause outer m).2.2).2.1.position =
        ((rows.length + 1 - j : Nat) : Int)) ∧
    (rows.length - K < j →
      (ExecIgnoreSeq (cursorExecutor rows eval) ctx (pullsOf .BackwardScanDirection j)
        (freshForward rows eval ctx fresh clause outer m).2.1
        (freshForward rows eval ctx fresh clause outer m).2.2).2.1.lstate =
        .IGNORE_WINDOWSTART) := by
  obtain ⟨m, rfl⟩ : ∃ m', m = m' + 1 := ⟨m - 1, by omega⟩
  obtain ⟨hS, hl, hp⟩ := freshForward_state rows eval ctx fresh clause outer K hK m
  have h1 : ¬ rows.length ≤ K := by omega
  have h2 : ¬ m + 1 ≤ rows.length - K := by omega
  simp only [h1, h2, if_false] at hl hp
  have hout := freshForward_outputs rows eval ctx fresh clause outer K hK (m + 1)
  refine ⟨?_, hl, hp, ?_⟩
  · rw [hout]
    have h3 : rows.length ≤ K + m := by omega
    simp [h3]
  · cases j with
    | zero => simp [pullsOf, ExecIgnoreSeq]
    | succ j =>
      obtain ⟨o1, o2, o3, o4⟩ := ExecIgnoreSeq_sync rows eval ctx K
        (pullsOf .BackwardScanDirection (j + 1)) _ _ hS
      rw [hl, hp] at o1 o3 o4
      simp only [Int.toNat_ofNat, modelRun_backward_eof rows.length K j rows.length (by omega)]
        at o1 o3 o4
      refine ⟨?_, ?_, ?_⟩
      · rw [o1, List.map_map]
        apply List.map_congr_left
        intro i _
        simp only [Function.comp, render_backward]
      · intro _ hj
        rw [o4]
        have : j ≤ rows.length - (K + 1) := by omega
        simp only [this, if_true]
        congr 1
        omega
      · intro hj
        rw [o3]
        have : ¬ j ≤ rows.length - (K + 1) := by omega
        simp only [this, if_false]


/-- The scenario `[a,b,c,d]`, `K = 2`: after the forward drain `c, d, end-of-stream`,
three backward pulls yield `d, c, end-of-stream`. -/
theorem ExecIgnore_backward_after_drain_witness :
    resolvedBound (cursorExecutor ['a', 'b', 'c', 'd'] constEval) ()
        (ExecInitIgnore (zeroedIgnoreState Char (Option Int)) (some (some 2)) (.other 0 [])) =
      some ((2 : Nat) : Int) ∧
    2 < ['a', 'b', 'c', 'd'].length ∧ ['a', 'b', 'c', 'd'].length - 2 < 3 ∧
    (ExecIgnoreSeq (cursorExecutor ['a', 'b', 'c', 'd'] constEval) ()
        (pullsOf .BackwardScanDirection 3)
        (freshForward ['a', 'b', 'c', 'd'] constEval ()
          (zeroedIgnoreState Char (Option Int)) (some (some 2)) (.other 0 []) 3).2.1
        (freshForward ['a', 'b', 'c', 'd'] constEval ()
          (zeroedIgnoreState Char (Option Int)) (some (some 2)) (.other 0 []) 3).2.2).1 =
      [.ok (some 'd'), .ok (some 'c'), .ok none] :=
  ⟨by rfl, by decide, by decide,
    (ExecIgnore_backward_after_drain ['a', 'b', 'c', 'd'] constEval ()
      (zeroedIgnoreState Char (Option Int)) (some (some 2)) (.other 0 []) 2 (by rfl)
      (by decide) 3 (by decide) 3).2.2.2.1⟩

/-! ## C3: how `recompute_ignore` resolves the bound -/

/-- C3: `recompute_ignore` returns normally with `k = 0` when no bound expression is
configured, with `k = 0` when the expression evaluates to null, and with `k = v` when it
evaluates to an integer `v >= 0`; it raises the invalid-bound error exactly when the
expression evaluates to a strictly negative integer, and raises no other error. -/
theorem recompute_ignore_bound {σ : Type} (ex : Executor τ σ ξ ε) (ctx : ε)
    (node : IgnoreState τ ξ) :
    (node.ignoreClause = none →
      (recompute_ignore ex ctx node).1 = none ∧ (recompute_ignore ex ctx node).2.k = 0) ∧
    (∀ e, node.ignoreClause = some e → ex.ExecEvalExprSwitchContext e ctx = none →
      (recompute_ignore ex ctx node).1 = none ∧ (recompute_ignore ex ctx node).2.k = 0) ∧
    (∀ e v, node.ignoreClause = some e → ex.ExecEvalExprSwitchContext e ctx = some v →
      0 ≤ v →
      (recompute_ignore ex ctx node).1 = none ∧ (recompute_ignore ex ctx node).2.k = v) ∧
    ((recompute_ignore ex ctx node).1 = some .invalidBound ↔
      ∃ e v, node.ignoreClause = some e ∧ ex.ExecEvalExprSwitchContext e ctx = some v ∧
        v < 0) ∧
    ((recompute_ignore ex ctx node).1 = none ∨
      (recompute_ignore ex ctx node).1 = some .invalidBound) := by
  rcases hc : node.ignoreClause with _ | e
  · have h : (recompute_ignore ex ctx node).1 = none ∧ (recompute_ignore ex ctx node).2.k = 0 := by
      simp [recompute_ignore, hc]
    refine ⟨fun _ => h, ?_, ?_, ?_, Or.inl h.1⟩
    · intro e he; cases he
    · intro e v he; cases he
    · rw [h.1]
      constructor
      · intro hh; cases hh
      · rintro ⟨e, v, he, _⟩; cases he
  · rcases hv : ex.ExecEvalExprSwitchContext e ctx with _ | v
    · have h : (recompute_ignore ex ctx node).1 = none ∧
          (recompute_ignore ex ctx node).2.k = 0 := by
        simp [recompute_ignore, hc, hv]
      refine ⟨fun hh => (by cases hh), ?_, ?_, ?_, Or.inl h.1⟩
      · intro e' he' _; exact h
      · intro e' v' he' hv' _
        cases he'
        rw [hv] at hv'
        cases hv'
      · rw [h.1]
        constructor
        · intro hh; cases hh
        · rintro ⟨e', v', he', hv', _⟩
          cases he'
          rw [hv] at hv'
          cases hv'
    · by_cases hneg : v < 0
      · have h : (recompute_ignore ex ctx node).1 = some .invalidBound := by
          simp [recompute_ignore, hc, hv, hneg]
        refine ⟨fun hh => (by cases hh), ?_, ?_, ?_, Or.inr h⟩
        · intro e' he' hv'
          cases he'
          rw [hv] at hv'
          cases hv'
        · intro e' v' he' hv' hpos
          cases he'
          rw [hv] at hv'
          cases hv'
          omega
        · exact ⟨fun _ => ⟨e, v, rfl, hv, hneg⟩, fun _ => h⟩
      · have h : (recompute_ignore ex ctx node).1 = none ∧
            (recompute_ignore ex ctx node).2.k = v := by
          simp [recompute_ignore, hc, hv, hneg]
        refine ⟨fun hh => (by cases hh), ?_, ?_, ?_, Or.inl h.1⟩
        · intro e' he' hv'
          cases he'
          rw [hv] at hv'
          cases hv'
        · intro e' v' he' hv' _
          cases he'
          rw [hv] at hv'
          cases hv'
          exact h
        · rw [h.1]
          constructor
          · intro hh; cases hh
          · rintro ⟨e', v', he', hv', hlt⟩
            cases he'
            rw [hv] at hv'
            cases hv'
            omega

/-- The bound `-1` is rejected, the bounds null and `3` are accepted. -/
theorem recompute_ignore_bound_witness :
    (recompute_ignore (cursorExecutor ['a'] constEval) ()
        (ExecInitIgnore (zeroedIgnoreState Char (Option Int)) (some (some (-1)))
          (.other 0 []))).1 = some .invalidBound ∧
    (recompute_ignore (cursorExecutor ['a'] constEval) ()
        (ExecInitIgnore (zeroedIgnoreState Char (Option Int)) (some none)
          (.other 0 []))).2.k = 0 ∧
    (recompute_ignore (cursorExecutor ['a'] constEval) ()
        (ExecInitIgnore (zeroedIgnoreState Char (Option Int)) (some (some 3))
          (.other 0 []))).2.k = 3 :=
  ⟨(recompute_ignore_bound (cursorExecutor ['a'] constEval) ()
      (ExecInitIgnore (zeroedIgnoreState Char (Option Int)) (some (some (-1)))
        (.other 0 []))).2.2.2.1.mpr ⟨some (-1), -1, rfl, rfl, by decide⟩,
   ((recompute_ignore_bound (cursorExecutor ['a'] constEval) ()
      (ExecInitIgnore (zeroedIgnoreState Char (Option Int)) (some none)
        (.other 0 []))).2.1 none rfl rfl).2,
   ((recompute_ignore_bound (cursorExecutor ['a'] constEval) ()
      (ExecInitIgnore (zeroedIgnoreState Char (Option Int)) (some (some 3))
        (.other 0 []))).2.2.1 (some 3) 3 rfl rfl (by decide)).2⟩

/-- Forward pulls from a node that has just resolved its bound. -/
theorem forward_from_rescan (rows : List τ) (eval : ξ → ε → Option Int) (ctx : ε) (K : Nat)
    (node : IgnoreState τ ξ) (child : CursorState) (hS : Sync rows K node child)
    (hl : node.lstate = .IGNORE_RESCAN) (m : Nat) :
    (ExecIgnoreSeq (cursorExecutor rows eval) ctx (pullsOf .ForwardScanDirection m)
        node child).1 = (List.range m).map (fun i => Except.ok rows[K + i]?) := by
  cases m with
  | zero => simp [pullsOf, ExecIgnoreSeq]
  | succ m =>
    obtain ⟨o1, _, _, _⟩ := ExecIgnoreSeq_sync rows eval ctx K
      (pullsOf .ForwardScanDirection (m + 1)) _ _ hS
    rw [hl] at o1
    simp only [modelRun_forward_rescan] at o1
    rw [o1, List.map_map]
    apply List.map_congr_left
    intro i _
    simp only [Function.comp, render_index]

/-- After a successful `ExecReScanIgnore` node and cursor are in step, in state
`IGNORE_RESCAN`. -/
theorem ExecReScanIgnore_sync (rows : List τ) (eval : ξ → ε → Option Int) (ctxR : ε)
    (node : IgnoreState τ ξ) (child : CursorState) (K : Nat)
    (hK : resolvedBound (cursorExecutor rows eval) ctxR node = some (K : Int)) :
    (ExecReScanIgnore (cursorExecutor rows eval) ctxR node child).1 = none ∧
      Sync rows K (ExecReScanIgnore (cursorExecutor rows eval) ctxR node child).2.1
        (ExecReScanIgnore (cursorExecutor rows eval) ctxR node child).2.2 ∧
      (ExecReScanIgnore (cursorExecutor rows eval) ctxR node child).2.1.lstate =
        .IGNORE_RESCAN := by
  obtain ⟨f1, f2, f3, f4, f5, f6, f7, f8⟩ := recompute_ignore_fields _ ctxR node _ hK
  unfold ExecReScanIgnore
  rcases hr : recompute_ignore (cursorExecutor rows eval) ctxR node with ⟨err, node1⟩
  rw [hr] at f1 f2 f3 f5
  simp only at f1 f2 f3 f5
  subst f1
  obtain ⟨cp, chg⟩ := child
  cases chg
  · simp [cursorExecutor, Sync, f2, f3, f5]
  · simp [cursorExecutor, Sync, f2, f3, f5]

/-! ## Rescan over a subplan that takes no notice of the hint -/

/-- Over the cursor subplan, which serves the same rows whatever hint the plan-state tree
carries: take the node and the cursor in any state whatever and let `ExecReScanIgnore`
re-evaluate the bound to `K >= 0`.  The rescan returns normally, and `m` forward pulls
after it return the rows with 0-based indices `K, K+1, ...` while there are any and
end-of-stream afterwards.  These are the results of `m` forward pulls on a freshly
initialised node whose bound resolves to `K`; and rescanning again (bound again `K`) and
pulling forward `m` times repeats them.  For a subplan that acts on the hint see
`sortExecutor_rescan_pull`. -/
theorem cursor_rescan_like_fresh (rows : List τ) (eval : ξ → ε → Option Int)
    (ctxR ctx : ε) (node : IgnoreState τ ξ) (child : CursorState) (K : Nat)
    (hK : resolvedBound (cursorExecutor rows eval) ctxR node = some (K : Int))
    (fresh : IgnoreState τ ξ) (clause : Option ξ) (outer : PlanState) (ctxF : ε)
    (hF : resolvedBound (cursorExecutor rows eval) ctxF (ExecInitIgnore fresh clause outer) =
      some (K : Int))
    (m : Nat) :
    (ExecReScanIgnore (cursorExecutor rows eval) ctxR node child).1 = none ∧
    (rescanForward rows eval ctxR ctx m node child).1 =
      (List.range m).map (fun i => Except.ok rows[K + i]?) ∧
    (rescanForward rows eval ctxR ctx m node child).1 =
      (freshForward rows eval ctxF fresh clause outer m).1 ∧
    (∀ ctxR2 : ε,
      resolvedBound (cursorExecutor rows eval) ctxR2
          (rescanForward rows eval ctxR ctx m node child).2.1 = some (K : Int) →
      (rescanForward rows eval ctxR2 ctx m
          (rescanForward rows eval ctxR ctx m node child).2.1
          (rescanForward rows eval ctxR ctx m node child).2.2).1 =
        (rescanForward rows eval ctxR ctx m node child).1) := by
  obtain ⟨e1, hS, hl⟩ := ExecReScanIgnore_sync rows eval ctxR node child K hK
  have h1 := forward_from_rescan rows eval ctx K _ _ hS hl m
  refine ⟨e1, h1, ?_, ?_⟩
  · rw [freshForward_outputs rows eval ctxF fresh clause outer K hF m]
    exact h1
  · intro ctxR2 hK2
    obtain ⟨_, hS2, hl2⟩ := ExecReScanIgnore_sync rows eval ctxR2
      (rescanForward rows eval ctxR ctx m node child).2.1
      (rescanForward rows eval ctxR ctx m node child).2.2 K hK2
    have h2 := forward_from_rescan rows eval ctx K _ _ hS2 hl2 m
    unfold rescanForward at h2 ⊢
    rw [h2, h1]

/-- A fresh node over a cursor subplan follows the transition table from
`(IGNORE_RESCAN, 0)` once at least one pull is made. -/
theorem freshRun_model (rows : List τ) (eval : ξ → ε → Option Int) (ctx : ε)
    (fresh : IgnoreState τ ξ) (clause : Option ξ) (outer : PlanState) (K : Nat)
    (hK : resolvedBound (cursorExecutor rows eval) ctx (ExecInitIgnore fresh clause outer) =
      some (K : Int))
    (d : ScanDirection) (ds : List ScanDirection) :
    (ExecIgnoreSeq (cursorExecutor rows eval) ctx (d :: ds)
        (ExecInitIgnore fresh clause outer) cursorStart).1 =
      (modelRun rows.length K (d :: ds) (.IGNORE_RESCAN, 0)).1.map
        (fun o => .ok (o.bind fun i => rows[i]?)) ∧
    Sync rows K
      (ExecIgnoreSeq (cursorExecutor rows eval) ctx (d :: ds)
        (ExecInitIgnore fresh clause outer) cursorStart).2.1
      (ExecIgnoreSeq (cursorExecutor rows eval) ctx (d :: ds)
        (ExecInitIgnore fresh clause outer) cursorStart).2.2 ∧
    (ExecIgnoreSeq (cursorExecutor rows eval) ctx (d :: ds)
        (ExecInitIgnore fresh clause outer) cursorStart).2.1.lstate =
      (modelRun rows.length K (d :: ds) (.IGNORE_RESCAN, 0)).2.1 ∧
    (ExecIgnoreSeq (cursorExecutor rows eval) ctx (d :: ds)
        (ExecInitIgnore fresh clause outer) cursorStart).2.1.position =
      ((modelRun rows.length K (d :: ds) (.IGNORE_RESCAN, 0)).2.2 : Int) := by
  have hi : (ExecInitIgnore fresh clause outer).lstate = .IGNORE_INITIAL := rfl
  obtain ⟨hS, hl, hp⟩ := resolvedNode_sync rows eval ctx _ K hK cursorStart (Or.inr rfl)
  rw [ExecIgnoreSeq_initial (cursorExecutor rows eval) ctx _ _ hi hK d ds cursorStart]
  have := ExecIgnoreSeq_sync rows eval ctx K (d :: ds) _ _ hS
  rw [hl, hp] at this
  simpa using this

/-! ## C5: stepping off the start of the window and back -/

/-- C5: for any subplan, in state `IGNORE_INWINDOW` with `position = k + 1` and the tuple
`t` cached in `subSlot`, a backward pull returns end-of-stream, sets the state to
`IGNORE_WINDOWSTART`, and leaves `position`, the cache and the subplan's execution state
as they were (the subplan is not pulled); the next forward pull returns the cached tuple
`t`, sets the state to `IGNORE_INWINDOW`, and again leaves `position` and the subplan
untouched.  Over a cursor subplan with more than `K` rows the three pulls forward,
backward, forward on a fresh node return row `K+1`, end-of-stream, row `K+1`. -/
theorem ExecIgnore_window_start_replay {σ : Type} (ex : Executor τ σ ξ ε) (ctx ctx2 : ε)
    (node : IgnoreState τ ξ) (child : σ) (t : τ)
    (hl : node.lstate = .IGNORE_INWINDOW) (hp : node.position = node.k + 1)
    (hs : node.subSlot = some t) :
    (ExecIgnore ex .BackwardScanDirection ctx node child).1 = .ok none ∧
    (ExecIgnore ex .BackwardScanDirection ctx node child).2.1.lstate = .IGNORE_WINDOWSTART ∧
    (ExecIgnore ex .BackwardScanDirection ctx node child).2.1.position = node.position ∧
    (ExecIgnore ex .BackwardScanDirection ctx node child).2.1.subSlot = some t ∧
    (ExecIgnore ex .BackwardScanDirection ctx node child).2.2 = child ∧
    (ExecIgnore ex .ForwardScanDirection ctx2
        (ExecIgnore ex .BackwardScanDirection ctx node child).2.1
        (ExecIgnore ex .BackwardScanDirection ctx node child).2.2).1 = .ok (some t) ∧
    (ExecIgnore ex .ForwardScanDirection ctx2
        (ExecIgnore ex .BackwardScanDirection ctx node child).2.1
        (ExecIgnore ex .BackwardScanDirection ctx node child).2.2).2.1.lstate =
      .IGNORE_INWINDOW ∧
    (ExecIgnore ex .ForwardScanDirection ctx2
        (ExecIgnore ex .BackwardScanDirection ctx node child).2.1
        (ExecIgnore ex .BackwardScanDirection ctx node child).2.2).2.1.position =
      node.position ∧
    (ExecIgnore ex .ForwardScanDirection ctx2
        (ExecIgnore ex .BackwardScanDirection ctx node child).2.1
        (ExecIgnore ex .BackwardScanDirection ctx node child).2.2).2.2 = child ∧
    (∀ (rows : List τ) (eval : ξ → ε → Option Int) (fresh : IgnoreState τ ξ)
        (clause : Option ξ) (outer : PlanState) (K : Nat),
      resolvedBound (cursorExecutor rows eval) ctx (ExecInitIgnore fresh clause outer) =
          some (K : Int) →
      K < rows.length →
      (ExecIgnoreSeq (cursorExecutor rows eval) ctx
          [.ForwardScanDirection, .BackwardScanDirection, .ForwardScanDirection]
          (ExecInitIgnore fresh clause outer) cursorStart).1 =
        [.ok rows[K]?, .ok none, .ok rows[K]?]) := by
  obtain ⟨lt, ic, k, cnt, nc, ls, pos, ss⟩ := node
  simp only at hl hp hs
  subst hl hp hs
  refine ⟨?_, ?_, ?_, ?_, ?_, ?_, ?_, ?_, ?_, ?_⟩
  all_goals try simp [ExecIgnore, ScanDirectionIsForward, returnSlot]
  intro rows eval fresh clause outer K hK hn
  rw [(freshRun_model rows eval ctx fresh clause outer K hK _ _).1]
  simp [modelRun, modelStep, hn]


/-- On a subplan that counts its pulls (7 so far), a node on the first row of its window
(`k = 1`, `position = 2`, cache `b`) steps back and forward again: the second pull returns
`b` and the count is still 7. -/
theorem ExecIgnore_window_start_replay_witness :
    (({ lefttree := .other 0 [], ignoreClause := none, k := 1, count := 0, noCount := true,
        lstate := .IGNORE_INWINDOW, position := 2, subSlot := some 'b' } :
        IgnoreState Char (Option Int)).lstate = .IGNORE_INWINDOW) ∧
    ((2 : Int) = 1 + 1) ∧
    (ExecIgnore (countingExecutor 'z') .ForwardScanDirection ()
        (ExecIgnore (countingExecutor 'z') .BackwardScanDirection ()
          { lefttree := .other 0 [], ignoreClause := none, k := 1, count := 0,
            noCount := true, lstate := .IGNORE_INWINDOW, position := 2,
            subSlot := some 'b' } 7).2.1
        (ExecIgnore (countingExecutor 'z') .BackwardScanDirection ()
          { lefttree := .other 0 [], ignoreClause := none, k := 1, count := 0,
            noCount := true, lstate := .IGNORE_INWINDOW, position := 2,
            subSlot := some 'b' } 7).2.2).1 = .ok (some 'b') ∧
    (ExecIgnore (countingExecutor 'z') .ForwardScanDirection ()
        (ExecIgnore (countingExecutor 'z') .BackwardScanDirection ()
          { lefttree := .other 0 [], ignoreClause := none, k := 1, count := 0,
            noCount := true, lstate := .IGNORE_INWINDOW, position := 2,
            subSlot := some 'b' } 7).2.1
        (ExecIgnore (countingExecutor 'z') .BackwardScanDirection ()
          { lefttree := .other 0 [], ignoreClause := none, k := 1, count := 0,
            noCount := true, lstate := .IGNORE_INWINDOW, position := 2,
            subSlot := some 'b' } 7).2.2).2.2 = 7 :=
  ⟨rfl, by decide,
    (ExecIgnore_window_start_replay (countingExecutor 'z') () ()
      { lefttree := .other 0 [], ignoreClause := none, k := 1, count := 0, noCount := true,
        lstate := .IGNORE_INWINDOW, position := 2, subSlot := some 'b' } 7 'b'
      rfl (by decide) rfl).2.2.2.2.2.1,
    (ExecIgnore_window_start_replay (countingExecutor 'z') () ()
      { lefttree := .other 0 [], ignoreClause := none, k := 1, count := 0, noCount := true,
        lstate := .IGNORE_INWINDOW, position := 2, subSlot := some 'b' } 7 'b'
      rfl (by decide) rfl).2.2.2.2.2.2.2.2.1⟩

/-! ## Mixed-direction runs of the transition table -/

theorem modelStep_flag (n K : Nat) (d : ScanDirection) (s : IgnoreStateCond × Nat)
    (h : (modelStep n K d s).1 = true) : (modelStep n K d s).2.1 = .IGNORE_INWINDOW := by
  obtain ⟨st, p⟩ := s
  cases d <;> cases st <;> simp only [modelStep] at h ⊢ <;>
    first
    | rfl
    | (split <;> simp_all)
    | simp_all

/-- A pull on a node in step with its cursor that returns a tuple returns the row at the
new `position`, which lies in the window. -/
theorem ExecIgnore_sync_returns (rows : List τ) (eval : ξ → ε → Option Int) (ctx : ε)
    (K : Nat) (node : IgnoreState τ ξ) (child : CursorState) (h : Sync rows K node child)
    (d : ScanDirection) (t : τ)
    (ht : (ExecIgnore (cursorExecutor rows eval) d ctx node child).1 = .ok (some t)) :
    rows[(ExecIgnore (cursorExecutor rows eval) d ctx node child).2.1.position.toNat - 1]? =
        some t ∧
      (K : Int) + 1 ≤ (ExecIgnore (cursorExecutor rows eval) d ctx node child).2.1.position ∧
      (ExecIgnore (cursorExecutor rows eval) d ctx node child).2.1.position ≤
        (rows.length : Int) := by
  obtain ⟨hS, hl, hp, ho⟩ := ExecIgnore_sync rows eval ctx K node child h d
  rw [ho] at ht
  by_cases hf : (modelStep rows.length K d (node.lstate, node.position.toNat)).1 = true
  · rw [if_pos hf] at ht
    have hin := modelStep_flag _ _ _ _ hf
    rw [← hl] at hin
    obtain ⟨_, hs⟩ := hS
    rw [hin] at hs
    obtain ⟨_, hpos, h1, h2, _⟩ := hs
    refine ⟨?_, ?_, ?_⟩
    · rw [hp]
      simp only [Int.toNat_ofNat]
      injection ht with ht
    · rw [hpos]; omega
    · rw [hpos]; omega
  · rw [if_neg hf] at ht
    injection ht with ht
    cases ht

theorem returnedTuples_forward (rows : List τ) (m : Nat) :
    ∀ K, returnedTuples .ForwardScanDirection (pullsOf .ForwardScanDirection m)
        ((List.range m).map (fun i => Except.ok rows[K + i]?)) = (rows.drop K).take m := by
  induction m with
  | zero => intro K; simp [pullsOf, returnedTuples]
  | succ m ih =>
    intro K
    have e : (fun i => (Except.ok rows[K + i]? : Except ExecError (Option τ))) ∘ Nat.succ =
        fun i => Except.ok rows[K + 1 + i]? := by
      funext i
      simp only [Function.comp, Nat.succ_eq_add_one]
      have : K + (i + 1) = K + 1 + i := by omega
      rw [this]
    have ih' := ih (K + 1)
    simp only [pullsOf] at ih'
    simp only [pullsOf, List.replicate_succ, List.range_succ_eq_map, List.map_cons,
      List.map_map, e, Nat.add_zero]
    by_cases hK : K < rows.length
    · rw [List.getElem?_eq_getElem hK]
      simp only [returnedTuples, if_true, ih']
      rw [List.drop_eq_getElem_cons hK, List.take_succ_cons]
    · have hnone : rows[K]? = none := List.getElem?_eq_none (by omega)
      rw [hnone]
      simp only [returnedTuples, ih']
      rw [List.drop_eq_nil_of_le (by omega), List.drop_eq_nil_of_le (by omega)]
      simp

theorem returnedTuples_backward_of_forward (m : Nat) :
    ∀ outs : List (Except ExecError (Option τ)),
      returnedTuples .BackwardScanDirection (pullsOf .ForwardScanDirection m) outs = [] := by
  induction m with
  | zero => intro outs; simp [pullsOf, returnedTuples]
  | succ m ih =>
    intro outs
    simp only [pullsOf] at ih
    rcases outs with _ | ⟨o, outs⟩
    · simp [pullsOf, List.replicate_succ, returnedTuples]
    · rcases o with e | (_ | t) <;>
        simp [pullsOf, List.replicate_succ, returnedTuples, ih]

/-- Whatever pulls a fresh node has served, its next pull behaves as a pull on a node
that is in step with the cursor. -/
theorem freshRun_next (rows : List τ) (eval : ξ → ε → Option Int) (ctx : ε)
    (fresh : IgnoreState τ ξ) (clause : Option ξ) (outer : PlanState) (K : Nat)
    (hK : resolvedBound (cursorExecutor rows eval) ctx (ExecInitIgnore fresh clause outer) =
      some (K : Int))
    (ds : List ScanDirection) :
    ∃ (node : IgnoreState τ ξ) (child : CursorState), Sync rows K node child ∧
      ∀ d, ExecIgnore (cursorExecutor rows eval) d ctx
          (ExecIgnoreSeq (cursorExecutor rows eval) ctx ds
            (ExecInitIgnore fresh clause outer) cursorStart).2.1
          (ExecIgnoreSeq (cursorExecutor rows eval) ctx ds
            (ExecInitIgnore fresh clause outer) cursorStart).2.2 =
        ExecIgnore (cursorExecutor rows eval) d ctx node child := by
  cases ds with
  | nil =>
    have hi : (ExecInitIgnore fresh clause outer).lstate = .IGNORE_INITIAL := rfl
    obtain ⟨hS, _, _⟩ := resolvedNode_sync rows eval ctx _ K hK cursorStart (Or.inr rfl)
    exact ⟨_, _, hS, fun d => ExecIgnore_initial _ ctx _ _ hi hK d cursorStart⟩
  | cons d0 ds =>
    obtain ⟨_, hS, _, _⟩ := freshRun_model rows eval ctx fresh clause outer K hK d0 ds
    exact ⟨_, _, hS, fun _ => rfl⟩

/-! ## C7: mixed-direction accounting -/

/-- C7 (as stated, refuted): over `[a,b]` with `K = 0`, the pulls forward, forward,
backward return `a`, `b`, `a` and leave `position = 1`.  The forward pulls returned
`{a, b}`, the backward pull `{a}`; the difference `{b}` is not the multiset `{a}` of the
rows `K+1 .. position`. -/
theorem accounting_counterexample :
    ((returnedTuples .ForwardScanDirection
          [.ForwardScanDirection, .ForwardScanDirection, .BackwardScanDirection]
          (ExecIgnoreSeq (cursorExecutor ['a', 'b'] constEval) ()
            [.ForwardScanDirection, .ForwardScanDirection, .BackwardScanDirection]
            (ExecInitIgnore (zeroedIgnoreState Char (Option Int)) (some (some 0))
              (.other 0 [])) cursorStart).1 : Multiset Char) -
        (returnedTuples .BackwardScanDirection
          [.ForwardScanDirection, .ForwardScanDirection, .BackwardScanDirection]
          (ExecIgnoreSeq (cursorExecutor ['a', 'b'] constEval) ()
            [.ForwardScanDirection, .ForwardScanDirection, .BackwardScanDirection]
            (ExecInitIgnore (zeroedIgnoreState Char (Option Int)) (some (some 0))
              (.other 0 [])) cursorStart).1 : Multiset Char)) ≠
      (windowRows ['a', 'b'] 0
          (ExecIgnoreSeq (cursorExecutor ['a', 'b'] constEval) ()
            [.ForwardScanDirection, .ForwardScanDirection, .BackwardScanDirection]
            (ExecInitIgnore (zeroedIgnoreState Char (Option Int)) (some (some 0))
              (.other 0 [])) cursorStart).2.1.position : Multiset Char) := by
  obtain ⟨h1, _, _, h4⟩ := freshRun_model ['a', 'b'] constEval ()
    (zeroedIgnoreState Char (Option Int)) (some (some 0)) (.other 0 []) 0 (by rfl)
    .ForwardScanDirection [.ForwardScanDirection, .BackwardScanDirection]
  have h1' : (ExecIgnoreSeq (cursorExecutor ['a', 'b'] constEval) ()
      [.ForwardScanDirection, .ForwardScanDirection, .BackwardScanDirection]
      (ExecInitIgnore (zeroedIgnoreState Char (Option Int)) (some (some 0))
        (.other 0 [])) cursorStart).1 = [.ok (some 'a'), .ok (some 'b'), .ok (some 'a')] :=
    h1.trans (by rfl)
  have h4' : (ExecIgnoreSeq (cursorExecutor ['a', 'b'] constEval) ()
      [.ForwardScanDirection, .ForwardScanDirection, .BackwardScanDirection]
      (ExecInitIgnore (zeroedIgnoreState Char (Option Int)) (some (some 0))
        (.other 0 [])) cursorStart).2.1.position = 1 :=
    h4.trans (by rfl)
  rw [h1', h4']
  decide

/-- C7 (amended): over a cursor subplan serving `rows`, for a fresh node whose bound
resolves to `K`: after any sequence `ds` of forward and backward pulls, a further pull in
any direction that returns a tuple returns the row at the node's `position` as that pull
leaves it (1-based), and that position lies in `K+1 .. n`; and for a sequence of forward
pulls only, the multiset of the tuples returned by forward pulls minus the multiset
returned by backward pulls (none) equals the multiset of the rows `K+1 .. position`. -/
theorem returned_tuple_accounting [DecidableEq τ] (rows : List τ)
    (eval : ξ → ε → Option Int) (ctx : ε)
    (fresh : IgnoreState τ ξ) (clause : Option ξ) (outer : PlanState) (K : Nat)
    (hK : resolvedBound (cursorExecutor rows eval) ctx (ExecInitIgnore fresh clause outer) =
      some (K : Int))
    (ds : List ScanDirection) (d : ScanDirection) (m : Nat) :
    (∀ t : τ,
      (ExecIgnore (cursorExecutor rows eval) d ctx
          (ExecIgnoreSeq (cursorExecutor rows eval) ctx ds
            (ExecInitIgnore fresh clause outer) cursorStart).2.1
          (ExecIgnoreSeq (cursorExecutor rows eval) ctx ds
            (ExecInitIgnore fresh clause outer) cursorStart).2.2).1 = .ok (some t) →
      rows[(ExecIgnore (cursorExecutor rows eval) d ctx
          (ExecIgnoreSeq (cursorExecutor rows eval) ctx ds
            (ExecInitIgnore fresh clause outer) cursorStart).2.1
          (ExecIgnoreSeq (cursorExecutor rows eval) ctx ds
            (ExecInitIgnore fresh clause outer) cursorStart).2.2).2.1.position.toNat - 1]? =
          some t ∧
        (K : Int) + 1 ≤ (ExecIgnore (cursorExecutor rows eval) d ctx
          (ExecIgnoreSeq (cursorExecutor rows eval) ctx ds
            (ExecInitIgnore fresh clause outer) cursorStart).2.1
          (ExecIgnoreSeq (cursorExecutor rows eval) ctx ds
            (ExecInitIgnore fresh clause outer) cursorStart).2.2).2.1.position ∧
        (ExecIgnore (cursorExecutor rows eval) d ctx
          (ExecIgnoreSeq (cursorExecutor rows eval) ctx ds
            (ExecInitIgnore fresh clause outer) cursorStart).2.1
          (ExecIgnoreSeq (cursorExecutor rows eval) ctx ds
            (ExecInitIgnore fresh clause outer) cursorStart).2.2).2.1.position ≤
          (rows.length : Int)) ∧
    ((returnedTuples .ForwardScanDirection (pullsOf .ForwardScanDirection (m + 1))
          (freshForward rows eval ctx fresh clause outer (m + 1)).1 : Multiset τ) -
        (returnedTuples .BackwardScanDirection (pullsOf .ForwardScanDirection (m + 1))
          (freshForward rows eval ctx fresh clause outer (m + 1)).1 : Multiset τ) =
      (windowRows rows K
        (freshForward rows eval ctx fresh clause outer (m + 1)).2.1.position :
        Multiset τ)) := by
  constructor
  · intro t ht
    obtain ⟨node, child, hS, hd⟩ := freshRun_next rows eval ctx fresh clause outer K hK ds
    rw [hd d] at ht ⊢
    exact ExecIgnore_sync_returns rows eval ctx K node child hS d t ht
  · obtain ⟨_, _, hp⟩ := freshForward_state rows eval ctx fresh clause outer K hK m
    rw [returnedTuples_backward_of_forward, freshForward_outputs rows eval ctx fresh clause
      outer K hK (m + 1), returnedTuples_forward, hp]
    simp only [windowRows, Int.toNat_ofNat, Multiset.coe_nil, tsub_zero]
    congr 1
    by_cases h1 : rows.length ≤ K
    · simp only [h1, if_true]
      rw [List.drop_eq_nil_of_le h1]
      simp
    · by_cases h2 : m + 1 ≤ rows.length - K
      · simp only [h1, h2, if_true, if_false]
        congr 1
        omega
      · simp only [h1, h2, if_false]
        rw [List.take_of_length_le (by simp; omega), List.take_of_length_le (by simp)]


/-- Over `[a,b]` with `K = 0`: the bound resolves to 0 and after two forward pulls the
returned tuples are the rows `1 .. position`. -/
theorem returned_tuple_accounting_witness :
    resolvedBound (cursorExecutor ['a', 'b'] constEval) ()
        (ExecInitIgnore (zeroedIgnoreState Char (Option Int)) (some (some 0)) (.other 0 [])) =
      some ((0 : Nat) : Int) ∧
    ((returnedTuples .ForwardScanDirection (pullsOf .ForwardScanDirection (1 + 1))
          (freshForward ['a', 'b'] constEval () (zeroedIgnoreState Char (Option Int))
            (some (some 0)) (.other 0 []) (1 + 1)).1 : Multiset Char) -
        (returnedTuples .BackwardScanDirection (pullsOf .ForwardScanDirection (1 + 1))
          (freshForward ['a', 'b'] constEval () (zeroedIgnoreState Char (Option Int))
            (some (some 0)) (.other 0 []) (1 + 1)).1 : Multiset Char) =
      (windowRows ['a', 'b'] 0
        (freshForward ['a', 'b'] constEval () (zeroedIgnoreState Char (Option Int))
          (some (some 0)) (.other 0 []) (1 + 1)).2.1.position : Multiset Char)) :=
  ⟨by rfl,
    (returned_tuple_accounting ['a', 'b'] constEval ()
      (zeroedIgnoreState Char (Option Int)) (some (some 0)) (.other 0 []) 0 (by rfl)
      [.ForwardScanDirection, .ForwardScanDirection] .BackwardScanDirection 1).2⟩

/-! ## C8: the hint at a rescan that precedes the first pull -/

/-- C8 (code evaluated at the failing input): a node is initialised on a zero-filled
record (`noCount = false`, `count = 0`) over a Sort subplan, with a bound expression that
evaluates to 3.  If the first thing that happens is a pull, the Sort is left with
`bounded = false`; if it is `ExecReScanIgnore`, the Sort is left with `bounded = true` and
`bound = 3`. -/
theorem rescan_before_first_pull_bounds_sort :
    (ExecIgnore (cursorExecutor ['a', 'b', 'c', 'd', 'e'] constEval) .BackwardScanDirection ()
        (ExecInitIgnore (zeroedIgnoreState Char (Option Int)) (some (some 3))
          (.sort false 0 none)) cursorStart).2.1.lefttree = .sort false 0 none ∧
    (ExecReScanIgnore (cursorExecutor ['a', 'b', 'c', 'd', 'e'] constEval) ()
        (ExecInitIgnore (zeroedIgnoreState Char (Option Int)) (some (some 3))
          (.sort false 0 none)) cursorStart).2.1.lefttree = .sort true 3 none := by
  constructor
  · rfl
  · rfl

/-! ## C9: the arithmetic of the Sort hint -/

/-- C9: for `count` and `k` in `0 .. 2^63 - 1`, `pass_down_bound` on a Sort node clears
the hint (`bounded = false`, `bound` left as it was) exactly when `noCount` is set or the
mathematical sum `count + k` exceeds `2^63 - 1`, and otherwise sets `bounded = true` and
`bound = count + k`; the test `tuples_needed < 0` on the sum read as an `int64` holds
exactly when the sum exceeds `2^63 - 1`. -/
theorem pass_down_bound_sort (node : IgnoreState τ ξ) (bounded : Bool) (bound : Int)
    (lefttree : Option PlanState)
    (hc0 : 0 ≤ node.count) (hc1 : node.count < 2 ^ 63)
    (hk0 : 0 ≤ node.k) (hk1 : node.k < 2 ^ 63) :
    pass_down_bound node (.sort bounded bound lefttree) =
        (if node.noCount = true ∨ node.count + node.k > 2 ^ 63 - 1 then
          .sort false bound lefttree
        else .sort true (node.count + node.k) lefttree) ∧
      (wrapInt64 (node.count + node.k) < 0 ↔ node.count + node.k > 2 ^ 63 - 1) := by
  have hw : wrapInt64 (node.count + node.k) < 0 ↔ node.count + node.k > 2 ^ 63 - 1 := by
    unfold wrapInt64
    omega
  refine ⟨?_, hw⟩
  by_cases hn : node.noCount = true
  · rw [if_pos (Or.inl hn)]
    simp [pass_down_bound, hn]
  · by_cases ho : node.count + node.k > 2 ^ 63 - 1
    · rw [if_pos (Or.inr ho)]
      have := hw.mpr ho
      simp [pass_down_bound, hn, this]
    · have h1 : ¬ wrapInt64 (node.count + node.k) < 0 := fun h => ho (hw.mp h)
      have h2 : wrapInt64 (node.count + node.k) = node.count + node.k := by
        unfold wrapInt64
        omega
      rw [if_neg (by rintro (h | h) <;> [exact hn h; exact ho h])]
      simp [pass_down_bound, hn, h2]
      omega


/-- With `count = 2^63 - 1` and `k = 1` the sum overflows and the hint is cleared; the
range hypotheses hold. -/
theorem pass_down_bound_sort_witness :
    (0 : Int) ≤ 2 ^ 63 - 1 ∧ (2 ^ 63 - 1 : Int) < 2 ^ 63 ∧ (0 : Int) ≤ 1 ∧ (1 : Int) < 2 ^ 63 ∧
    pass_down_bound
        ({ lefttree := .other 0 [], ignoreClause := none, k := 1, count := 2 ^ 63 - 1,
           noCount := false, lstate := .IGNORE_RESCAN, position := 0, subSlot := none } :
          IgnoreState Char (Option Int))
        (.sort true 5 none) = .sort false 5 none :=
  ⟨by decide, by decide, by decide, by decide,
    (pass_down_bound_sort
      ({ lefttree := .other 0 [], ignoreClause := none, k := 1, count := 2 ^ 63 - 1,
         noCount := false, lstate := .IGNORE_RESCAN, position := 0, subSlot := none } :
        IgnoreState Char (Option Int))
      true 5 none (by decide) (by decide) (by decide) (by decide)).1.trans (by rfl)⟩

/-! ## C10: the scope of the hint walk -/

theorem pass_down_bound_plans_eq_map (node : IgnoreState τ ξ) (ps : List PlanState) :
    pass_down_bound_plans node ps = ps.map (pass_down_bound node) := by
  induction ps with
  | nil => simp [pass_down_bound_plans]
  | cons p ps ih => simp [pass_down_bound_plans, ih]

/-- The own fields of every node after `pass_down_bound`, path by path. -/
theorem pass_down_bound_fields (node : IgnoreState τ ξ) (path : List Nat) :
    ∀ t : PlanState,
      (nodeAt (pass_down_bound node t) path).map PlanState.fields =
        (nodeAt t path).map
          (fun n => if hintPath t path then hintFields node n.fields else n.fields) := by
  induction path with
  | nil =>
    intro t
    cases t with
    | sort b bd l =>
      by_cases hc : (node.noCount || decide (wrapInt64 (node.count + node.k) < 0)) = true
      · simp only [nodeAt, hintPath, pass_down_bound, hc, Option.map_some', if_true,
          PlanState.fields, hintFields]
      · simp only [nodeAt, hintPath, pass_down_bound, hc, Option.map_some', if_true,
          if_false, PlanState.fields, hintFields]
        simp
    | mergeAppend ps => simp [nodeAt, hintPath, pass_down_bound, PlanState.fields, hintFields]
    | result rs l =>
      cases l with
      | none => simp [nodeAt, hintPath, pass_down_bound, PlanState.fields, hintFields]
      | some c =>
        cases rs <;> simp [nodeAt, hintPath, pass_down_bound, PlanState.fields, hintFields]
    | other tag ss => simp [nodeAt, hintPath, pass_down_bound, PlanState.fields, hintFields]
  | cons i rest ih =>
    intro t
    cases t with
    | sort b bd l =>
      simp only [pass_down_bound]
      split <;> simp [nodeAt, hintPath, passesHint, PlanState.children]
    | mergeAppend ps =>
      simp only [pass_down_bound, pass_down_bound_plans_eq_map, nodeAt, hintPath, passesHint,
        PlanState.children, List.getElem?_map, Bool.true_and]
      rcases hps : ps[i]? with _ | sub
      · simp
      · simp only [Option.map_some']
        exact ih sub
    | result rs l =>
      cases l with
      | none => simp [nodeAt, hintPath, passesHint, pass_down_bound, PlanState.children]
      | some c =>
        cases rs
        · simp only [pass_down_bound, nodeAt, hintPath, passesHint, PlanState.children,
            Bool.not_false, Bool.true_and, if_true, Option.toList]
          cases i with
          | zero => simpa using ih c
          | succ i => simp
        · simp [nodeAt, hintPath, passesHint, pass_down_bound, PlanState.children]
    | other tag ss => simp [nodeAt, hintPath, passesHint, pass_down_bound, PlanState.children]


/-- C10: for every plan-state tree `t` and every path `path` into it, the tree after
`pass_down_bound` has a node at `path` exactly when `t` has one, and that node has the
same own fields, except that a Sort reached by a path that runs solely through
MergeAppend nodes and through Result nodes with an outer subnode and no set-returning
target list has `bounded`/`bound` set by the one hint `hintFields node`.  In particular
the subtree below a Sort is the same tree, and a tree whose root is of any other kind,
or a Result with a set-returning target list or without outer subnode, is returned
unchanged. -/
theorem pass_down_bound_scope (node : IgnoreState τ ξ) (t : PlanState) (path : List Nat)
    (bounded returnsSet : Bool) (bound : Int) (lefttree : Option PlanState) (tag : Nat)
    (subnodes : List PlanState) :
    ((nodeAt (pass_down_bound node t) path).map PlanState.fields =
        (nodeAt t path).map
          (fun n => if hintPath t path then hintFields node n.fields else n.fields)) ∧
    (pass_down_bound node (.sort bounded bound lefttree)).children = lefttree.toList ∧
    pass_down_bound node (.other tag subnodes) = .other tag subnodes ∧
    pass_down_bound node (.result true lefttree) = .result true lefttree ∧
    pass_down_bound node (.result returnsSet none) = .result returnsSet none := by
  refine ⟨pass_down_bound_fields node path t, ?_, ?_, ?_, ?_⟩
  · simp only [pass_down_bound]
    split <;> rfl
  · simp [pass_down_bound]
  · cases lefttree <;> simp [pass_down_bound]
  · simp [pass_down_bound]

/-! ## C11: what a successful `recompute_ignore` leaves -/

/-- C11: whenever `recompute_ignore` returns normally, from whatever node state it was
called, it leaves `lstate = IGNORE_RESCAN`, `position = 0`, `subSlot = NULL` and `k >= 0`;
and this node is the one `ExecReScanIgnore` leaves. -/
theorem recompute_ignore_resets {σ : Type} (ex : Executor τ σ ξ ε) (ctx : ε)
    (node : IgnoreState τ ξ) (child : σ) (h : (recompute_ignore ex ctx node).1 = none) :
    (recompute_ignore ex ctx node).2.lstate = .IGNORE_RESCAN ∧
    (recompute_ignore ex ctx node).2.position = 0 ∧
    (recompute_ignore ex ctx node).2.subSlot = none ∧
    0 ≤ (recompute_ignore ex ctx node).2.k ∧
    (ExecReScanIgnore ex ctx node child).1 = none ∧
    (ExecReScanIgnore ex ctx node child).2.1 = (recompute_ignore ex ctx node).2 := by
  have hR : (ExecReScanIgnore ex ctx node child).1 = none ∧
      (ExecReScanIgnore ex ctx node child).2.1 = (recompute_ignore ex ctx node).2 := by
    unfold ExecReScanIgnore
    rcases hr : recompute_ignore ex ctx node with ⟨err, node1⟩
    rw [hr] at h
    simp only at h
    subst h
    by_cases hc : ex.chgParamIsNull child = true <;> simp [hc]
  refine ⟨?_, ?_, ?_, ?_, hR.1, hR.2⟩
  all_goals
    revert h
    unfold recompute_ignore
    rcases hc : node.ignoreClause with _ | e
    · simp
    · rcases hv : ex.ExecEvalExprSwitchContext e ctx with _ | v
      · simp [hv]
      · by_cases hneg : v < 0
        · simp [hv, hneg]
        · simp [hv, hneg]
          try omega

/-- A node in its window is rescanned with a bound expression that evaluates to 2. -/
theorem recompute_ignore_resets_witness :
    (recompute_ignore (countingExecutor 'z') ()
        { lefttree := .other 0 [], ignoreClause := some (some 2), k := 1, count := 0,
          noCount := true, lstate := .IGNORE_INWINDOW, position := 3,
          subSlot := some 'c' }).1 = none ∧
    (recompute_ignore (countingExecutor 'z') ()
        { lefttree := .other 0 [], ignoreClause := some (some 2), k := 1, count := 0,
          noCount := true, lstate := .IGNORE_INWINDOW, position := 3,
          subSlot := some 'c' }).2.position = 0 :=
  ⟨by rfl,
    (recompute_ignore_resets (countingExecutor 'z') ()
      { lefttree := .other 0 [], ignoreClause := some (some 2), k := 1, count := 0,
        noCount := true, lstate := .IGNORE_INWINDOW, position := 3,
        subSlot := some 'c' } 0 (by rfl)).2.1⟩

/-! ## C12: when the bound is resolved -/

/-- C12 (as stated, refuted): initialising a node whose bound expression evaluates to
`-1` returns normally, in state `IGNORE_INITIAL` and with `k` still the allocated 0; the
invalid-bound error is raised by the first pull. -/
theorem init_does_not_resolve_bound :
    ExecInitIgnore_eflags false (zeroedIgnoreState Char (Option Int)) (some (some (-1)))
        (.other 0 []) =
      .ok (ExecInitIgnore (zeroedIgnoreState Char (Option Int)) (some (some (-1)))
        (.other 0 [])) ∧
    (ExecInitIgnore (zeroedIgnoreState Char (Option Int)) (some (some (-1)))
        (.other 0 [])).lstate = .IGNORE_INITIAL ∧
    (ExecInitIgnore (zeroedIgnoreState Char (Option Int)) (some (some (-1)))
        (.other 0 [])).k = 0 ∧
    (ExecIgnore (cursorExecutor ['a', 'b'] constEval) .ForwardScanDirection ()
        (ExecInitIgnore (zeroedIgnoreState Char (Option Int)) (some (some (-1)))
          (.other 0 [])) cursorStart).1 = .error .invalidBound := by
  refine ⟨rfl, rfl, rfl, ?_⟩
  simp [ExecIgnore, ExecInitIgnore, zeroedIgnoreState, recompute_ignore, cursorExecutor,
    constEval]

/-- C12 (amended): for any subplan, `ExecInitIgnore` (called without the mark flag) on a
node whose bound expression evaluates to a negative value returns normally, leaving
`lstate = IGNORE_INITIAL` and `k` as allocated; the first call of `ExecIgnore`, in either
direction, raises the invalid-bound error, and does so without pulling the subplan. -/
theorem bound_resolved_at_first_pull {σ : Type} (ex : Executor τ σ ξ ε) (ctx : ε)
    (fresh : IgnoreState τ ξ) (e : ξ) (outer : PlanState) (v : Int)
    (hv : ex.ExecEvalExprSwitchContext e ctx = some v) (hneg : v < 0)
    (d : ScanDirection) (child : σ) :
    ExecInitIgnore_eflags false fresh (some e) outer =
      .ok (ExecInitIgnore fresh (some e) outer) ∧
    (ExecInitIgnore fresh (some e) outer).lstate = .IGNORE_INITIAL ∧
    (ExecInitIgnore fresh (some e) outer).k = fresh.k ∧
    (ExecIgnore ex d ctx (ExecInitIgnore fresh (some e) outer) child).1 =
      .error .invalidBound ∧
    (ExecIgnore ex d ctx (ExecInitIgnore fresh (some e) outer) child).2.2 = child := by
  refine ⟨rfl, rfl, rfl, ?_, ?_⟩ <;>
    simp [ExecIgnore, ExecInitIgnore, recompute_ignore, hv, hneg]

/-- The bound `-1` over a subplan that counts its pulls: the first pull raises the error
and the count is unchanged. -/
theorem bound_resolved_at_first_pull_witness :
    (countingExecutor 'z').ExecEvalExprSwitchContext (some (-1)) () = some (-1) ∧
    (-1 : Int) < 0 ∧
    (ExecIgnore (countingExecutor 'z') .ForwardScanDirection ()
        (ExecInitIgnore (zeroedIgnoreState Char (Option Int)) (some (some (-1)))
          (.other 0 [])) 7).1 = .error .invalidBound ∧
    (ExecIgnore (countingExecutor 'z') .ForwardScanDirection ()
        (ExecInitIgnore (zeroedIgnoreState Char (Option Int)) (some (some (-1)))
          (.other 0 [])) 7).2.2 = 7 :=
  ⟨rfl, by decide,
    (bound_resolved_at_first_pull (countingExecutor 'z') ()
      (zeroedIgnoreState Char (Option Int)) (some (-1)) (.other 0 []) (-1) rfl (by decide)
      .ForwardScanDirection 7).2.2.2.1,
    (bound_resolved_at_first_pull (countingExecutor 'z') ()
      (zeroedIgnoreState Char (Option Int)) (some (-1)) (.other 0 []) (-1) rfl (by decide)
      .ForwardScanDirection 7).2.2.2.2⟩

/-! ## C16: terminal states without a reversal -/

/-- C16: for any subplan, a pull in `IGNORE_EMPTY` (either direction), a forward pull in
`IGNORE_SUBPLANEOF` or `IGNORE_WINDOWEND`, and a backward pull in `IGNORE_WINDOWSTART`
return end-of-stream, leave the subplan's execution state as it was (the subplan is not
pulled), and leave `lstate`, `k`, `position` and `subSlot` unchanged. -/
theorem ExecIgnore_terminal_stable {σ : Type} (ex : Executor τ σ ξ ε) (d : ScanDirection)
    (ctx : ε) (node : IgnoreState τ ξ) (child : σ)
    (h : node.lstate = .IGNORE_EMPTY ∨
      (d = .ForwardScanDirection ∧
        (node.lstate = .IGNORE_SUBPLANEOF ∨ node.lstate = .IGNORE_WINDOWEND)) ∨
      (d = .BackwardScanDirection ∧ node.lstate = .IGNORE_WINDOWSTART)) :
    (ExecIgnore ex d ctx node child).1 = .ok none ∧
    (ExecIgnore ex d ctx node child).2.2 = child ∧
    (ExecIgnore ex d ctx node child).2.1.lstate = node.lstate ∧
    (ExecIgnore ex d ctx node child).2.1.k = node.k ∧
    (ExecIgnore ex d ctx node child).2.1.position = node.position ∧
    (ExecIgnore ex d ctx node child).2.1.subSlot = node.subSlot := by
  obtain ⟨lt, ic, k, cnt, nc, ls, pos, ss⟩ := node
  simp only at h
  rcases h with h | ⟨hd, h | h⟩ | ⟨hd, h⟩
  · subst h
    simp [ExecIgnore]
  · subst h hd
    simp [ExecIgnore, ScanDirectionIsForward]
  · subst h hd
    simp [ExecIgnore, ScanDirectionIsForward]
  · subst h hd
    simp [ExecIgnore, ScanDirectionIsForward]

/-- A forward pull at subplan end-of-file on a subplan that counts its pulls. -/
theorem ExecIgnore_terminal_stable_witness :
    ((sampleNode none .IGNORE_SUBPLANEOF 1 4 (some 'd')).lstate = .IGNORE_EMPTY ∨
      (ScanDirection.ForwardScanDirection = .ForwardScanDirection ∧
        ((sampleNode none .IGNORE_SUBPLANEOF 1 4 (some 'd')).lstate = .IGNORE_SUBPLANEOF ∨
          (sampleNode none .IGNORE_SUBPLANEOF 1 4 (some 'd')).lstate =
            .IGNORE_WINDOWEND)) ∨
      (ScanDirection.ForwardScanDirection = .BackwardScanDirection ∧
        (sampleNode none .IGNORE_SUBPLANEOF 1 4 (some 'd')).lstate =
          .IGNORE_WINDOWSTART)) ∧
    (ExecIgnore (countingExecutor 'z') .ForwardScanDirection ()
        (sampleNode none .IGNORE_SUBPLANEOF 1 4 (some 'd')) 7).1 = .ok none ∧
    (ExecIgnore (countingExecutor 'z') .ForwardScanDirection ()
        (sampleNode none .IGNORE_SUBPLANEOF 1 4 (some 'd')) 7).2.2 = 7 :=
  ⟨Or.inr (Or.inl ⟨rfl, Or.inl rfl⟩),
    (ExecIgnore_terminal_stable (countingExecutor 'z') .ForwardScanDirection ()
      (sampleNode none .IGNORE_SUBPLANEOF 1 4 (some 'd')) 7
      (Or.inr (Or.inl ⟨rfl, Or.inl rfl⟩))).1,
    (ExecIgnore_terminal_stable (countingExecutor 'z') .ForwardScanDirection ()
      (sampleNode none .IGNORE_SUBPLANEOF 1 4 (some 'd')) 7
      (Or.inr (Or.inl ⟨rfl, Or.inl rfl⟩))).2.1⟩

/-! ## C17: a backward pull before any forward progress -/

/-- C17 (as stated, refuted): on a freshly initialised node (`IGNORE_INITIAL`, `k` as
allocated, 0) whose bound expression evaluates to 3, a backward pull returns no tuple
but leaves `lstate = IGNORE_RESCAN` and `k = 3`: the state is not as it was. -/
theorem backward_pull_initial_changes_state :
    (ExecInitIgnore (zeroedIgnoreState Char (Option Int)) (some (some 3))
        (.other 0 [])).lstate = .IGNORE_INITIAL ∧
    (ExecInitIgnore (zeroedIgnoreState Char (Option Int)) (some (some 3))
        (.other 0 [])).k = 0 ∧
    (ExecIgnore (cursorExecutor ['a', 'b'] constEval) .BackwardScanDirection ()
        (ExecInitIgnore (zeroedIgnoreState Char (Option Int)) (some (some 3)) (.other 0 []))
        cursorStart).1 = .ok none ∧
    (ExecIgnore (cursorExecutor ['a', 'b'] constEval) .BackwardScanDirection ()
        (ExecInitIgnore (zeroedIgnoreState Char (Option Int)) (some (some 3)) (.other 0 []))
        cursorStart).2.1.lstate = .IGNORE_RESCAN ∧
    (ExecIgnore (cursorExecutor ['a', 'b'] constEval) .BackwardScanDirection ()
        (ExecInitIgnore (zeroedIgnoreState Char (Option Int)) (some (some 3)) (.other 0 []))
        cursorStart).2.1.k = 3 := by
  refine ⟨rfl, rfl, rfl, rfl, rfl⟩

/-- C17 (amended): for any subplan and a backward scan direction.  In `IGNORE_RESCAN` the
call returns end-of-stream and leaves `lstate`, `k`, `position`, `subSlot` and the
subplan's execution state exactly as they were.  In `IGNORE_INITIAL` the call first runs
`recompute_ignore`: if that raises, the call raises the same error; otherwise the call
returns end-of-stream and leaves the node as `recompute_ignore` left it (`lstate =
IGNORE_RESCAN`, `position = 0`, `subSlot = NULL`, `k` the resolved bound); in both cases
the subplan is not pulled. -/
theorem ExecIgnore_backward_before_progress {σ : Type} (ex : Executor τ σ ξ ε) (ctx : ε)
    (node : IgnoreState τ ξ) (child : σ)
    (h : node.lstate = .IGNORE_INITIAL ∨ node.lstate = .IGNORE_RESCAN) :
    (ExecIgnore ex .BackwardScanDirection ctx node child).2.2 = child ∧
    (node.lstate = .IGNORE_RESCAN →
      (ExecIgnore ex .BackwardScanDirection ctx node child).1 = .ok none ∧
      (ExecIgnore ex .BackwardScanDirection ctx node child).2.1.lstate = node.lstate ∧
      (ExecIgnore ex .BackwardScanDirection ctx node child).2.1.k = node.k ∧
      (ExecIgnore ex .BackwardScanDirection ctx node child).2.1.position = node.position ∧
      (ExecIgnore ex .BackwardScanDirection ctx node child).2.1.subSlot = node.subSlot) ∧
    (node.lstate = .IGNORE_INITIAL →
      (ExecIgnore ex .BackwardScanDirection ctx node child).2.1 =
        (recompute_ignore ex ctx { node with noCount := true }).2 ∧
      (ExecIgnore ex .BackwardScanDirection ctx node child).1 =
        match (recompute_ignore ex ctx { node with noCount := true }).1 with
        | some err => .error err
        | none => .ok none) := by
  obtain ⟨lt, ic, k, cnt, nc, ls, pos, ss⟩ := node
  simp only at h
  rcases h with h | h
  · subst h
    rcases hr : recompute_ignore ex ctx
      { lefttree := lt, ignoreClause := ic, k := k, count := cnt, noCount := true,
        lstate := .IGNORE_INITIAL, position := pos, subSlot := ss } with ⟨err, node1⟩
    cases err <;>
      simp [ExecIgnore, ExecIgnore_rescan, ScanDirectionIsForward, hr]
  · subst h
    simp [ExecIgnore, ExecIgnore_rescan, ScanDirectionIsForward]

/-- A backward pull in `IGNORE_RESCAN` on a subplan that counts its pulls. -/
theorem ExecIgnore_backward_before_progress_witness :
    ((sampleNode none .IGNORE_RESCAN 1 0 none).lstate = .IGNORE_INITIAL ∨
      (sampleNode none .IGNORE_RESCAN 1 0 none).lstate = .IGNORE_RESCAN) ∧
    (ExecIgnore (countingExecutor 'z') .BackwardScanDirection ()
        (sampleNode none .IGNORE_RESCAN 1 0 none) 7).2.2 = 7 :=
  ⟨Or.inr rfl,
    (ExecIgnore_backward_before_progress (countingExecutor 'z') ()
      (sampleNode none .IGNORE_RESCAN 1 0 none) 7 (Or.inr rfl)).1⟩

/-! ## The fetch loop over any subplan -/

/-- The fetch loop raises no error and leaves `k` alone.  It ends either at the
subplan's end-of-stream in `IGNORE_EMPTY`, or on a row in `IGNORE_INWINDOW` with that row
cached and returned and `position` beyond `k`. -/
theorem ExecIgnore_fetch_result {σ : Type} (ex : Executor τ σ ξ ε) (d : ScanDirection)
    (node : IgnoreState τ ξ) (child : σ) :
    (ExecIgnore_fetch ex d node child).2.1.k = node.k ∧
    (((ExecIgnore_fetch ex d node child).1 = .ok none ∧
        (ExecIgnore_fetch ex d node child).2.1.lstate = .IGNORE_EMPTY ∧
        node.position ≤ (ExecIgnore_fetch ex d node child).2.1.position ∧
        (node.position ≤ node.k → (ExecIgnore_fetch ex d node child).2.1.position ≤ node.k)) ∨
      (∃ t, (ExecIgnore_fetch ex d node child).1 = .ok (some t) ∧
        (ExecIgnore_fetch ex d node child).2.1.lstate = .IGNORE_INWINDOW ∧
        (ExecIgnore_fetch ex d node child).2.1.subSlot = some t ∧
        node.k + 1 ≤ (ExecIgnore_fetch ex d node child).2.1.position ∧
        node.position < (ExecIgnore_fetch ex d node child).2.1.position)) := by
  induction node, child using ExecIgnore_fetch.induct ex d with
  | case1 node child child1 h =>
    rw [ExecIgnore_fetch]
    simp [h]
  | case2 node child slot child1 h hgt =>
    rw [ExecIgnore_fetch]
    simp [h, hgt]
    omega
  | case3 node child slot child1 h hgt ih =>
    rw [ExecIgnore_fetch]
    simp only [h, hgt, if_false]
    obtain ⟨ik, ih⟩ := ih
    refine ⟨ik, ?_⟩
    rcases ih with ⟨i1, i2, i3, i4⟩ | ⟨t, i1, i2, i3, i4, i5⟩
    · left
      simp only at i3 i4
      refine ⟨i1, i2, by omega, fun _ => i4 (by omega)⟩
    · right
      simp only at i4 i5
      exact ⟨t, i1, i2, i3, i4, by omega⟩

/-- When `recompute_ignore` raises, the error is the invalid-bound one, the node has a
bound expression, that expression evaluated to a negative value `v`, `k` is exactly `v`,
and `lstate`, `position`, `subSlot` are as before. -/
theorem recompute_ignore_error {σ : Type} (ex : Executor τ σ ξ ε) (ctx : ε)
    (node : IgnoreState τ ξ) (e : ExecError) (h : (recompute_ignore ex ctx node).1 = some e) :
    e = .invalidBound ∧
      (∃ c v, node.ignoreClause = some c ∧ ex.ExecEvalExprSwitchContext c ctx = some v ∧
        v < 0 ∧ (recompute_ignore ex ctx node).2.k = v) ∧
      (recompute_ignore ex ctx node).2.lstate = node.lstate ∧
      (recompute_ignore ex ctx node).2.position = node.position ∧
      (recompute_ignore ex ctx node).2.subSlot = node.subSlot := by
  revert h
  unfold recompute_ignore
  rcases hc : node.ignoreClause with _ | c
  · simp
  · rcases hv : ex.ExecEvalExprSwitchContext c ctx with _ | v
    · simp [hv]
    · by_cases hneg : v < 0
      · simp only [hv, hneg, if_true]
        intro h
        injection h with h
        exact ⟨h.symm, ⟨c, v, rfl, hv, hneg, rfl⟩, trivial, trivial, trivial⟩
      · simp [hv, hneg]

/-! ## C18: the node's fields when an error is raised -/

/-- C18 (as stated, refuted): a node in its window with `k = 1` is rescanned with a bound
expression that evaluates to `-1`; `ExecReScanIgnore` raises the invalid-bound error and
leaves `k = -1`, not the value 1 that `k` had before the call. -/
theorem error_changes_bound :
    (sampleNode (some (some (-1))) .IGNORE_INWINDOW 1 3 (some 'c')).k = 1 ∧
    (ExecReScanIgnore (countingExecutor 'z') ()
        (sampleNode (some (some (-1))) .IGNORE_INWINDOW 1 3 (some 'c')) 7).1 =
      some .invalidBound ∧
    (ExecReScanIgnore (countingExecutor 'z') ()
        (sampleNode (some (some (-1))) .IGNORE_INWINDOW 1 3 (some 'c')) 7).2.1.k = -1 ∧
    (ExecReScanIgnore (countingExecutor 'z') ()
        (sampleNode (some (some (-1))) .IGNORE_INWINDOW 1 3 (some 'c')) 7).2.1.k ≠
      (sampleNode (some (some (-1))) .IGNORE_INWINDOW 1 3 (some 'c')).k := by
  refine ⟨rfl, rfl, rfl, ?_⟩
  decide

/-- C18 (amended): for any subplan, when `ExecIgnore` raises the invalid-bound error or
the subplan-failed-to-run-backwards error, `lstate`, `position` and `subSlot` are as they
were before the call; `k` is as it was when the error is the backwards one; when the error
is the invalid-bound one, the node has a bound expression, its evaluation in the call's
expression context gave a value `v < 0`, and `k` is exactly that rejected value `v`.  When
`ExecReScanIgnore` raises, the error is the invalid-bound one, `lstate`, `position` and
`subSlot` are as before and `k` is, in the same way, exactly the rejected value. -/
theorem error_leaves_state {σ : Type} (ex : Executor τ σ ξ ε) (d : ScanDirection) (ctx : ε)
    (node : IgnoreState τ ξ) (child : σ) (e : ExecError)
    (he : e = .invalidBound ∨ e = .subplanFailedBackwards) :
    ((ExecIgnore ex d ctx node child).1 = .error e →
      (ExecIgnore ex d ctx node child).2.1.lstate = node.lstate ∧
      (ExecIgnore ex d ctx node child).2.1.position = node.position ∧
      (ExecIgnore ex d ctx node child).2.1.subSlot = node.subSlot ∧
      (e = .subplanFailedBackwards → (ExecIgnore ex d ctx node child).2.1.k = node.k) ∧
      (e = .invalidBound →
        ∃ c v, node.ignoreClause = some c ∧ ex.ExecEvalExprSwitchContext c ctx = some v ∧
          v < 0 ∧ (ExecIgnore ex d ctx node child).2.1.k = v)) ∧
    ((ExecReScanIgnore ex ctx node child).1 = some e →
      e = .invalidBound ∧
      (ExecReScanIgnore ex ctx node child).2.1.lstate = node.lstate ∧
      (ExecReScanIgnore ex ctx node child).2.1.position = node.position ∧
      (ExecReScanIgnore ex ctx node child).2.1.subSlot = node.subSlot ∧
      ∃ c v, node.ignoreClause = some c ∧ ex.ExecEvalExprSwitchContext c ctx = some v ∧
        v < 0 ∧ (ExecReScanIgnore ex ctx node child).2.1.k = v) := by
  constructor
  · intro h
    obtain ⟨lt, ic, k, cnt, nc, ls, pos, ss⟩ := node
    cases ls
    case IGNORE_INITIAL =>
      rcases hr : recompute_ignore ex ctx
        { lefttree := lt, ignoreClause := ic, k := k, count := cnt, noCount := true,
          lstate := .IGNORE_INITIAL, position := pos, subSlot := ss } with ⟨err, node1⟩
      cases err with
      | some err =>
        have hre := recompute_ignore_error ex ctx _ err (by rw [hr])
        rw [hr] at hre
        simp only [ExecIgnore, hr] at h ⊢
        injection h with h
        subst h
        obtain ⟨h1, h2, h3, h4, h5⟩ := hre
        exact ⟨h3, h4, h5, fun hh => (by rw [h1] at hh; cases hh), fun _ => h2⟩
      | none =>
        simp only [ExecIgnore, hr, ExecIgnore_rescan] at h
        exfalso
        split at h
        · cases h
        · rcases (ExecIgnore_fetch_result ex d node1 child).2 with ⟨i1, _⟩ | ⟨t, i1, _⟩ <;>
            rw [i1] at h <;> cases h
    case IGNORE_RESCAN =>
      simp only [ExecIgnore, ExecIgnore_rescan] at h
      exfalso
      split at h
      · cases h
      · rcases (ExecIgnore_fetch_result ex d _ child).2 with ⟨i1, _⟩ | ⟨t, i1, _⟩ <;>
          rw [i1] at h <;> cases h
    case IGNORE_EMPTY => simp [ExecIgnore] at h
    case IGNORE_INWINDOW =>
      cases d
      · simp only [ExecIgnore, ScanDirectionIsForward, returnSlot, Bool.false_eq_true,
          if_false] at h ⊢
        by_cases hpk : pos ≤ k + 1
        · simp [hpk] at h
        · rcases hp : ex.ExecProcNode .BackwardScanDirection lt child with ⟨_ | slot, child1⟩
          · simp only [hpk, if_false, hp] at h ⊢
            injection h with h
            subst h
            simp
          · simp [hpk, hp] at h
      · simp only [ExecIgnore, ScanDirectionIsForward, returnSlot, if_true] at h
        rcases hp : ex.ExecProcNode .ForwardScanDirection lt child with ⟨_ | slot, child1⟩ <;>
          simp [hp] at h
    case IGNORE_SUBPLANEOF =>
      cases d
      · simp only [ExecIgnore, ScanDirectionIsForward, returnSlot, Bool.false_eq_true,
          if_false] at h ⊢
        rcases hp : ex.ExecProcNode .BackwardScanDirection lt child with ⟨_ | slot, child1⟩
        · simp only [hp] at h ⊢
          injection h with h
          subst h
          simp
        · simp [hp] at h
      · simp [ExecIgnore, ScanDirectionIsForward] at h
    case IGNORE_WINDOWEND =>
      cases d
      · cases ss <;> simp [ExecIgnore, ScanDirectionIsForward, returnSlot] at h
        subst h
        simp at he
      · simp [ExecIgnore, ScanDirectionIsForward] at h
    case IGNORE_WINDOWSTART =>
      cases d
      · simp [ExecIgnore, ScanDirectionIsForward] at h
      · cases ss <;> simp [ExecIgnore, ScanDirectionIsForward, returnSlot] at h
        subst h
        simp at he
    case outOfRange raw =>
      simp only [ExecIgnore] at h
      injection h with h
      subst h
      simp at he
  · intro h
    unfold ExecReScanIgnore at h ⊢
    rcases hr : recompute_ignore ex ctx node with ⟨err, node1⟩
    rw [hr] at h
    cases err with
    | some err =>
      simp only at h
      injection h with h
      subst h
      have hre := recompute_ignore_error ex ctx _ err (by rw [hr])
      rw [hr] at hre
      obtain ⟨h1, h2, h3, h4, h5⟩ := hre
      exact ⟨h1, h3, h4, h5, h2⟩
    | none =>
      simp only at h
      split at h <;> cases h


/-- A node in its window is rescanned with the bound `-1`: the error is raised, `position`
is still 3, and `k` is the value the bound expression evaluated to. -/
theorem error_leaves_state_witness :
    ((ExecError.invalidBound = .invalidBound) ∨
      (ExecError.invalidBound = .subplanFailedBackwards)) ∧
    (ExecReScanIgnore (countingExecutor 'z') ()
        (sampleNode (some (some (-1))) .IGNORE_INWINDOW 1 3 (some 'c')) 7).1 =
      some .invalidBound ∧
    (ExecReScanIgnore (countingExecutor 'z') ()
        (sampleNode (some (some (-1))) .IGNORE_INWINDOW 1 3 (some 'c')) 7).2.1.position =
      (sampleNode (some (some (-1))) .IGNORE_INWINDOW 1 3 (some 'c')).position ∧
    (∃ c v, (sampleNode (some (some (-1))) .IGNORE_INWINDOW 1 3 (some 'c')).ignoreClause =
        some c ∧
      (countingExecutor 'z').ExecEvalExprSwitchContext c () = some v ∧ v < 0 ∧
      (ExecReScanIgnore (countingExecutor 'z') ()
        (sampleNode (some (some (-1))) .IGNORE_INWINDOW 1 3 (some 'c')) 7).2.1.k = v) :=
  ⟨Or.inl rfl, by rfl,
    ((error_leaves_state (countingExecutor 'z') .ForwardScanDirection ()
      (sampleNode (some (some (-1))) .IGNORE_INWINDOW 1 3 (some 'c')) 7 .invalidBound
      (Or.inl rfl)).2 (by rfl)).2.2.1,
    ((error_leaves_state (countingExecutor 'z') .ForwardScanDirection ()
      (sampleNode (some (some (-1))) .IGNORE_INWINDOW 1 3 (some 'c')) 7 .invalidBound
      (Or.inl rfl)).2 (by rfl)).2.2.2.2⟩

theorem modelRun_length (n K : Nat) (ds : List ScanDirection) :
    ∀ s, (modelRun n K ds s).1.length = ds.length := by
  induction ds with
  | nil => intro s; rfl
  | cons d ds ih => intro s; simp [modelRun, ih]

/-! ## C13: no pull on a cursor subplan raises an error -/

/-- C13: over a cursor subplan serving `rows`, for a fresh node whose bound resolves to
`K >= 0` and any sequence `ds` of forward and backward pulls, every pull is made and
returns normally (a tuple or end-of-stream): none raises the subplan-failed-to-run-backwards
error or the impossible-state error, and the closing assertion on the returned slot never
fails. -/
theorem pulls_raise_no_error (rows : List τ) (eval : ξ → ε → Option Int) (ctx : ε)
    (fresh : IgnoreState τ ξ) (clause : Option ξ) (outer : PlanState) (K : Nat)
    (hK : resolvedBound (cursorExecutor rows eval) ctx (ExecInitIgnore fresh clause outer) =
      some (K : Int))
    (ds : List ScanDirection) :
    (ExecIgnoreSeq (cursorExecutor rows eval) ctx ds
        (ExecInitIgnore fresh clause outer) cursorStart).1.length = ds.length ∧
    (∀ o ∈ (ExecIgnoreSeq (cursorExecutor rows eval) ctx ds
        (ExecInitIgnore fresh clause outer) cursorStart).1, ∃ slot, o = Except.ok slot) ∧
    Except.error ExecError.subplanFailedBackwards ∉
      (ExecIgnoreSeq (cursorExecutor rows eval) ctx ds
        (ExecInitIgnore fresh clause outer) cursorStart).1 ∧
    (∀ raw, Except.error (ExecError.impossibleState raw) ∉
      (ExecIgnoreSeq (cursorExecutor rows eval) ctx ds
        (ExecInitIgnore fresh clause outer) cursorStart).1) ∧
    Except.error ExecError.assertNonNullSlot ∉
      (ExecIgnoreSeq (cursorExecutor rows eval) ctx ds
        (ExecInitIgnore fresh clause outer) cursorStart).1 := by
  have hall : (ExecIgnoreSeq (cursorExecutor rows eval) ctx ds
        (ExecInitIgnore fresh clause outer) cursorStart).1.length = ds.length ∧
      ∀ o ∈ (ExecIgnoreSeq (cursorExecutor rows eval) ctx ds
        (ExecInitIgnore fresh clause outer) cursorStart).1, ∃ slot, o = Except.ok slot := by
    cases ds with
    | nil => simp [ExecIgnoreSeq]
    | cons d ds =>
      rw [(freshRun_model rows eval ctx fresh clause outer K hK d ds).1]
      constructor
      · rw [List.length_map, modelRun_length]
      · intro o ho
        obtain ⟨i, _, hi⟩ := List.mem_map.mp ho
        exact ⟨_, hi.symm⟩
  refine ⟨hall.1, hall.2, ?_, ?_, ?_⟩
  · intro hmem
    obtain ⟨slot, hs⟩ := hall.2 _ hmem
    cases hs
  · intro raw hmem
    obtain ⟨slot, hs⟩ := hall.2 _ hmem
    cases hs
  · intro hmem
    obtain ⟨slot, hs⟩ := hall.2 _ hmem
    cases hs

/-- Over `[a,b,c]` with `K = 1` the pulls forward, backward, backward, forward, forward,
forward, backward are all made. -/
theorem pulls_raise_no_error_witness :
    resolvedBound (cursorExecutor ['a', 'b', 'c'] constEval) ()
        (ExecInitIgnore (zeroedIgnoreState Char (Option Int)) (some (some 1)) (.other 0 [])) =
      some ((1 : Nat) : Int) ∧
    (ExecIgnoreSeq (cursorExecutor ['a', 'b', 'c'] constEval) ()
        [.ForwardScanDirection, .BackwardScanDirection, .BackwardScanDirection,
          .ForwardScanDirection, .ForwardScanDirection, .ForwardScanDirection,
          .BackwardScanDirection]
        (ExecInitIgnore (zeroedIgnoreState Char (Option Int)) (some (some 1)) (.other 0 []))
        cursorStart).1.length = 7 :=
  ⟨by rfl,
    (pulls_raise_no_error ['a', 'b', 'c'] constEval ()
      (zeroedIgnoreState Char (Option Int)) (some (some 1)) (.other 0 []) 1 (by rfl)
      [.ForwardScanDirection, .BackwardScanDirection, .BackwardScanDirection,
        .ForwardScanDirection, .ForwardScanDirection, .ForwardScanDirection,
        .BackwardScanDirection]).1⟩

/-! ## C20: node and cursor stay in step -/

/-- The fields a successful `recompute_ignore` leaves. -/
theorem recompute_ignore_success {σ : Type} (ex : Executor τ σ ξ ε) (ctx : ε)
    (node node1 : IgnoreState τ ξ) (h : recompute_ignore ex ctx node = (none, node1)) :
    node1.lstate = .IGNORE_RESCAN ∧ node1.position = 0 ∧ node1.subSlot = none ∧
      0 ≤ node1.k ∧ node1.noCount = node.noCount := by
  have hk : resolvedBound ex ctx node = some node1.k := by
    unfold resolvedBound
    rw [h]
  obtain ⟨_, _, f3, f4, f5, f6, _, _⟩ := recompute_ignore_fields ex ctx node _ hk
  rw [h] at f3 f4 f5 f6
  refine ⟨f5, f3, f4, ?_, f6⟩
  revert h
  unfold recompute_ignore
  rcases hc : node.ignoreClause with _ | c
  · simp
    intro h
    rw [← h]
  · rcases hv : ex.ExecEvalExprSwitchContext c ctx with _ | v
    · simp [hv]
      intro h
      rw [← h]
    · by_cases hneg : v < 0
      · simp [hv, hneg]
      · simp [hv, hneg]
        intro h
        rw [← h]
        simpa using hneg

/-- The `IGNORE_RESCAN` case keeps `NodeInv`. -/
theorem ExecIgnore_rescan_inv {σ : Type} (ex : Executor τ σ ξ ε) (d : ScanDirection)
    (node : IgnoreState τ ξ) (child : σ)
    (hl : node.lstate = .IGNORE_RESCAN) (hp : node.position = 0) (hk : 0 ≤ node.k) :
    ∃ slot, (ExecIgnore_rescan ex d node child).1 = .ok slot ∧
      NodeInv (ExecIgnore_rescan ex d node child).2.1 (false || slot.isSome) (some slot) := by
  unfold ExecIgnore_rescan
  cases d
  · simp only [ScanDirectionIsForward, Bool.not_false, if_true]
    refine ⟨none, rfl, ?_⟩
    simp [NodeInv, hl, hp, hk]
  · simp only [ScanDirectionIsForward, Bool.not_true, Bool.false_eq_true, if_false]
    obtain ⟨fk, fr⟩ := ExecIgnore_fetch_result ex .ForwardScanDirection node child
    rcases fr with ⟨f1, f2, f3, f4⟩ | ⟨t, f1, f2, f3, f4, f5⟩
    · refine ⟨none, f1, ?_⟩
      have := f4 (by omega)
      simp only [NodeInv, f2, fk]
      refine ⟨by omega, this, by simp⟩
    · refine ⟨some t, f1, ?_⟩
      simp only [NodeInv, f2, fk]
      exact ⟨hk, f4, t, f3, rfl⟩

/-- A pull that returns normally keeps `NodeInv`. -/
theorem ExecIgnore_inv {σ : Type} (ex : Executor τ σ ξ ε) (d : ScanDirection) (ctx : ε)
    (node : IgnoreState τ ξ) (child : σ) (returned : Bool) (last : Option (Option τ))
    (h : NodeInv node returned last) (slot : Option τ) (node1 : IgnoreState τ ξ) (child1 : σ)
    (hr : ExecIgnore ex d ctx node child = (.ok slot, node1, child1)) :
    NodeInv node1 (returned || slot.isSome) (some slot) := by
  obtain ⟨lt, ic, k, cnt, nc, ls, pos, ss⟩ := node
  cases ls <;> simp only [NodeInv] at h
  case IGNORE_INITIAL =>
    subst h
    rcases hrc : recompute_ignore ex ctx
      { lefttree := lt, ignoreClause := ic, k := k, count := cnt, noCount := true,
        lstate := .IGNORE_INITIAL, position := pos, subSlot := ss } with ⟨err, node2⟩
    cases err with
    | some err => simp [ExecIgnore, hrc] at hr
    | none =>
      obtain ⟨r1, r2, _, r4, _⟩ := recompute_ignore_success ex ctx _ _ hrc
      obtain ⟨slot2, e1, e2⟩ := ExecIgnore_rescan_inv ex d node2 child r1 r2 r4
      simp only [ExecIgnore, hrc] at hr
      rw [hr] at e1 e2
      simp only at e1 e2
      injection e1 with e1
      subst e1
      exact e2
  case IGNORE_RESCAN =>
    obtain ⟨hp, hk, hf⟩ := h
    subst hf
    obtain ⟨slot2, e1, e2⟩ := ExecIgnore_rescan_inv ex d
      { lefttree := lt, ignoreClause := ic, k := k, count := cnt, noCount := true,
        lstate := .IGNORE_RESCAN, position := pos, subSlot := ss } child rfl hp hk
    simp only [ExecIgnore] at hr
    rw [hr] at e1 e2
    simp only at e1 e2
    injection e1 with e1
    subst e1
    exact e2
  case IGNORE_EMPTY =>
    simp only [ExecIgnore] at hr
    injection hr with h1 h2
    injection h1 with h1
    injection h2 with h2 h3
    subst h1 h2
    simpa [NodeInv] using h
  case IGNORE_INWINDOW =>
    obtain ⟨hk, hp, t, hs, hl⟩ := h
    cases d
    · simp only [ExecIgnore, ScanDirectionIsForward, returnSlot, Bool.false_eq_true,
        if_false] at hr
      by_cases hpk : pos ≤ k + 1
      · simp only [hpk, if_true] at hr
        injection hr with h1 h2
        injection h2 with h2 h3
        subst h2
        simp only [NodeInv]
        exact ⟨hk, hp, t, hs⟩
      · rcases hpn : ex.ExecProcNode .BackwardScanDirection lt child with ⟨_ | t2, child2⟩
        · simp [hpk, hpn] at hr
        · simp only [hpk, if_false, hpn] at hr
          injection hr with h1 h2
          injection h1 with h1
          injection h2 with h2 h3
          subst h1 h2
          simp only [NodeInv]
          exact ⟨hk, by omega, t2, rfl, rfl⟩
    · simp only [ExecIgnore, ScanDirectionIsForward, returnSlot, if_true, Bool.not_true,
        Bool.false_and, Bool.false_eq_true, if_false] at hr
      rcases hpn : ex.ExecProcNode .ForwardScanDirection lt child with ⟨_ | t2, child2⟩
      · simp only [hpn] at hr
        injection hr with h1 h2
        injection h2 with h2 h3
        subst h2
        simp only [NodeInv]
        exact ⟨hk, hp⟩
      · simp only [hpn] at hr
        injection hr with h1 h2
        injection h1 with h1
        injection h2 with h2 h3
        subst h1 h2
        simp only [NodeInv]
        exact ⟨hk, by omega, t2, rfl, rfl⟩
  case IGNORE_SUBPLANEOF =>
    obtain ⟨hk, hp⟩ := h
    cases d
    · simp only [ExecIgnore, ScanDirectionIsForward, returnSlot, Bool.false_eq_true,
        if_false] at hr
      rcases hpn : ex.ExecProcNode .BackwardScanDirection lt child with ⟨_ | t2, child2⟩
      · simp [hpn] at hr
      · simp only [hpn] at hr
        injection hr with h1 h2
        injection h1 with h1
        injection h2 with h2 h3
        subst h1 h2
        simp only [NodeInv]
        exact ⟨hk, hp, t2, rfl, rfl⟩
    · simp only [ExecIgnore, ScanDirectionIsForward, if_true] at hr
      injection hr with h1 h2
      injection h2 with h2 h3
      subst h2
      simp only [NodeInv]
      exact ⟨hk, hp⟩
  case IGNORE_WINDOWSTART =>
    obtain ⟨hk, hp, t, hs⟩ := h
    subst hs
    cases d
    · simp only [ExecIgnore, ScanDirectionIsForward, Bool.not_false, if_true] at hr
      injection hr with h1 h2
      injection h2 with h2 h3
      subst h2
      simp only [NodeInv]
      exact ⟨hk, hp, t, rfl⟩
    · simp only [ExecIgnore, ScanDirectionIsForward, returnSlot, Bool.not_true,
        Bool.false_eq_true, if_false] at hr
      injection hr with h1 h2
      injection h1 with h1
      injection h2 with h2 h3
      subst h1 h2
      simp only [NodeInv]
      exact ⟨hk, hp, t, rfl, rfl⟩

/-- One call keeps `RunInv`. -/
theorem stepCall_inv {σ : Type} (ex : Executor τ σ ξ ε) (s : RunState τ σ ξ)
    (c : Call ε) (h : RunInv s) : RunInv (stepCall ex s c) := by
  rcases he : s.error with _ | err
  · have hN := h he
    cases c with
    | pull d ctx =>
      rcases hr : ExecIgnore ex d ctx s.node s.child with ⟨out, node1, child1⟩
      cases out with
      | error e =>
        intro hne
        simp [stepCall, he, hr] at hne
      | ok slot =>
        intro _
        have := ExecIgnore_inv ex d ctx s.node s.child _ _ hN slot node1 child1 hr
        simpa [stepCall, he, hr] using this
    | rescan ctx =>
      rcases hr : recompute_ignore ex ctx s.node with ⟨err, node1⟩
      cases err with
      | some e =>
        intro hne
        simp [stepCall, he, ExecReScanIgnore, hr] at hne
      | none =>
        intro _
        obtain ⟨r1, r2, _, r4, _⟩ := recompute_ignore_success ex ctx _ _ hr
        by_cases hc : ex.chgParamIsNull s.child = true <;>
          simp [stepCall, he, ExecReScanIgnore, hr, hc, NodeInv, r1, r2, r4]
  · have : stepCall ex s c = s := by
      cases c <;> simp [stepCall, he]
    rw [this]
    exact h

/-- A sequence of calls keeps `RunInv`. -/
theorem runCalls_inv {σ : Type} (ex : Executor τ σ ξ ε) (calls : List (Call ε)) :
    ∀ s : RunState τ σ ξ, RunInv s → RunInv (runCalls ex calls s) := by
  induction calls with
  | nil => intro s h; exact h
  | cons c calls ih =>
    intro s h
    exact ih _ (stepCall_inv ex s c h)

/-- The start of a run satisfies `RunInv`. -/
theorem runStart_inv {σ : Type} (fresh : IgnoreState τ ξ) (clause : Option ξ)
    (outer : PlanState) (child : σ) :
    RunInv (runStart (ExecInitIgnore fresh clause outer) child) := by
  intro _
  simp [runStart, ExecInitIgnore, NodeInv]

/-- The state tag the `IGNORE_RESCAN` case leaves. -/
theorem ExecIgnore_rescan_lstate {σ : Type} (ex : Executor τ σ ξ ε) (d : ScanDirection)
    (node : IgnoreState τ ξ) (child : σ) :
    (ExecIgnore_rescan ex d node child).2.1.lstate = node.lstate ∨
      (ExecIgnore_rescan ex d node child).2.1.lstate = .IGNORE_EMPTY ∨
      (ExecIgnore_rescan ex d node child).2.1.lstate = .IGNORE_INWINDOW := by
  unfold ExecIgnore_rescan
  split
  · exact Or.inl rfl
  · rcases (ExecIgnore_fetch_result ex d node child).2 with ⟨_, f2, _⟩ | ⟨t, _, f2, _⟩
    · exact Or.inr (Or.inl f2)
    · exact Or.inr (Or.inr f2)

/-- No call of `ExecIgnore` takes a node that is not in `IGNORE_WINDOWEND` into that
state, whether it returns or raises. -/
theorem ExecIgnore_not_windowend {σ : Type} (ex : Executor τ σ ξ ε) (d : ScanDirection)
    (ctx : ε) (node : IgnoreState τ ξ) (child : σ)
    (h : node.lstate ≠ .IGNORE_WINDOWEND) :
    (ExecIgnore ex d ctx node child).2.1.lstate ≠ .IGNORE_WINDOWEND := by
  obtain ⟨lt, ic, k, cnt, nc, ls, pos, ss⟩ := node
  cases ls
  case IGNORE_INITIAL =>
    rcases hrc : recompute_ignore ex ctx
      { lefttree := lt, ignoreClause := ic, k := k, count := cnt, noCount := true,
        lstate := .IGNORE_INITIAL, position := pos, subSlot := ss } with ⟨err, node2⟩
    cases err with
    | some err =>
      have hre := recompute_ignore_error ex ctx _ err (by rw [hrc])
      rw [hrc] at hre
      simp only [ExecIgnore, hrc]
      rw [hre.2.2.1]
      simp
    | none =>
      obtain ⟨r1, _⟩ := recompute_ignore_success ex ctx _ _ hrc
      simp only [ExecIgnore, hrc]
      rcases ExecIgnore_rescan_lstate ex d node2 child with e | e | e <;> rw [e]
      · rw [r1]; simp
      · simp
      · simp
  case IGNORE_RESCAN =>
    simp only [ExecIgnore]
    rcases ExecIgnore_rescan_lstate ex d
      { lefttree := lt, ignoreClause := ic, k := k, count := cnt, noCount := true,
        lstate := .IGNORE_RESCAN, position := pos, subSlot := ss } child with e | e | e <;>
      rw [e] <;> simp
  case IGNORE_EMPTY => simp [ExecIgnore]
  case IGNORE_INWINDOW =>
    cases d
    · simp only [ExecIgnore, ScanDirectionIsForward, returnSlot, Bool.false_eq_true,
        if_false]
      by_cases hpk : pos ≤ k + 1
      · simp [hpk]
      · rcases hpn : ex.ExecProcNode .BackwardScanDirection lt child with ⟨_ | t2, child2⟩ <;>
          simp [hpk, hpn]
    · simp only [ExecIgnore, ScanDirectionIsForward, returnSlot, if_true, Bool.not_true,
        Bool.false_and, Bool.false_eq_true, if_false]
      rcases hpn : ex.ExecProcNode .ForwardScanDirection lt child with ⟨_ | t2, child2⟩ <;>
        simp [hpn]
  case IGNORE_SUBPLANEOF =>
    cases d
    · simp only [ExecIgnore, ScanDirectionIsForward, returnSlot, Bool.false_eq_true,
        if_false]
      rcases hpn : ex.ExecProcNode .BackwardScanDirection lt child with ⟨_ | t2, child2⟩ <;>
        simp [hpn]
    · simp [ExecIgnore, ScanDirectionIsForward]
  case IGNORE_WINDOWEND => exact absurd rfl h
  case IGNORE_WINDOWSTART =>
    cases d
    · simp [ExecIgnore, ScanDirectionIsForward]
    · cases ss <;> simp [ExecIgnore, ScanDirectionIsForward, returnSlot]
  case outOfRange raw => simp [ExecIgnore]

/-- Neither does a call of `ExecReScanIgnore`. -/
theorem ExecReScanIgnore_not_windowend {σ : Type} (ex : Executor τ σ ξ ε) (ctx : ε)
    (node : IgnoreState τ ξ) (child : σ) (h : node.lstate ≠ .IGNORE_WINDOWEND) :
    (ExecReScanIgnore ex ctx node child).2.1.lstate ≠ .IGNORE_WINDOWEND := by
  unfold ExecReScanIgnore
  rcases hrc : recompute_ignore ex ctx node with ⟨err, node2⟩
  cases err with
  | some err =>
    have hre := recompute_ignore_error ex ctx _ err (by rw [hrc])
    rw [hrc] at hre
    simp only
    rw [hre.2.2.1]
    exact h
  | none =>
    obtain ⟨r1, _⟩ := recompute_ignore_success ex ctx _ _ hrc
    by_cases hc : ex.chgParamIsNull child = true <;> simp [hc, r1]

/-- One call of a run keeps the node out of `IGNORE_WINDOWEND`. -/
theorem stepCall_not_windowend {σ : Type} (ex : Executor τ σ ξ ε) (s : RunState τ σ ξ)
    (c : Call ε) (h : s.node.lstate ≠ .IGNORE_WINDOWEND) :
    (stepCall ex s c).node.lstate ≠ .IGNORE_WINDOWEND := by
  rcases he : s.error with _ | err
  · cases c with
    | pull d ctx =>
      have := ExecIgnore_not_windowend ex d ctx s.node s.child h
      rcases hr : ExecIgnore ex d ctx s.node s.child with ⟨out, node1, child1⟩
      rw [hr] at this
      cases out <;> simpa [stepCall, he, hr] using this
    | rescan ctx =>
      have := ExecReScanIgnore_not_windowend ex ctx s.node s.child h
      rcases hr : ExecReScanIgnore ex ctx s.node s.child with ⟨out, node1, child1⟩
      rw [hr] at this
      cases out <;> simpa [stepCall, he, hr] using this
  · have : stepCall ex s c = s := by
      cases c <;> simp [stepCall, he]
    rw [this]
    exact h

/-- A call of `ExecIgnore` that leaves the node in `IGNORE_INITIAL` found it there and
left `position` alone. -/
theorem ExecIgnore_initial_position {σ : Type} (ex : Executor τ σ ξ ε) (d : ScanDirection)
    (ctx : ε) (node : IgnoreState τ ξ) (child : σ)
    (h : (ExecIgnore ex d ctx node child).2.1.lstate = .IGNORE_INITIAL) :
    node.lstate = .IGNORE_INITIAL ∧
      (ExecIgnore ex d ctx node child).2.1.position = node.position := by
  obtain ⟨lt, ic, k, cnt, nc, ls, pos, ss⟩ := node
  cases ls
  case IGNORE_INITIAL =>
    refine ⟨rfl, ?_⟩
    rcases hrc : recompute_ignore ex ctx
      { lefttree := lt, ignoreClause := ic, k := k, count := cnt, noCount := true,
        lstate := .IGNORE_INITIAL, position := pos, subSlot := ss } with ⟨err, node2⟩
    cases err with
    | some err =>
      have hre := recompute_ignore_error ex ctx _ err (by rw [hrc])
      rw [hrc] at hre
      simp only [ExecIgnore, hrc]
      exact hre.2.2.2.1
    | none =>
      obtain ⟨r1, _⟩ := recompute_ignore_success ex ctx _ _ hrc
      simp only [ExecIgnore, hrc] at h
      rcases ExecIgnore_rescan_lstate ex d node2 child with e | e | e <;> rw [e] at h
      · rw [r1] at h; cases h
      · cases h
      · cases h
  case IGNORE_RESCAN =>
    simp only [ExecIgnore] at h
    rcases ExecIgnore_rescan_lstate ex d
      { lefttree := lt, ignoreClause := ic, k := k, count := cnt, noCount := true,
        lstate := .IGNORE_RESCAN, position := pos, subSlot := ss } child with e | e | e <;>
      rw [e] at h <;> cases h
  case IGNORE_EMPTY => simp [ExecIgnore] at h
  case IGNORE_INWINDOW =>
    exfalso
    cases d
    · simp only [ExecIgnore, ScanDirectionIsForward, returnSlot, Bool.false_eq_true,
        if_false] at h
      by_cases hpk : pos ≤ k + 1
      · simp [hpk] at h
      · rcases hpn : ex.ExecProcNode .BackwardScanDirection lt child with ⟨_ | t2, child2⟩ <;>
          simp [hpk, hpn] at h
    · simp only [ExecIgnore, ScanDirectionIsForward, returnSlot, if_true, Bool.not_true,
        Bool.false_and, Bool.false_eq_true, if_false] at h
      rcases hpn : ex.ExecProcNode .ForwardScanDirection lt child with ⟨_ | t2, child2⟩ <;>
        simp [hpn] at h
  case IGNORE_SUBPLANEOF =>
    exfalso
    cases d
    · simp only [ExecIgnore, ScanDirectionIsForward, returnSlot, Bool.false_eq_true,
        if_false] at h
      rcases hpn : ex.ExecProcNode .BackwardScanDirection lt child with ⟨_ | t2, child2⟩ <;>
        simp [hpn] at h
    · simp [ExecIgnore, ScanDirectionIsForward] at h
  case IGNORE_WINDOWEND =>
    exfalso
    cases d
    · cases ss <;> simp [ExecIgnore, ScanDirectionIsForward, returnSlot] at h
    · simp [ExecIgnore, ScanDirectionIsForward] at h
  case IGNORE_WINDOWSTART =>
    exfalso
    cases d
    · simp [ExecIgnore, ScanDirectionIsForward] at h
    · cases ss <;> simp [ExecIgnore, ScanDirectionIsForward, returnSlot] at h
  case outOfRange raw => simp [ExecIgnore] at h

/-- One call of a run that leaves the node in `IGNORE_INITIAL` found it there and left
`position` alone. -/
theorem stepCall_initial_position {σ : Type} (ex : Executor τ σ ξ ε) (s : RunState τ σ ξ)
    (c : Call ε) (h : (stepCall ex s c).node.lstate = .IGNORE_INITIAL) :
    s.node.lstate = .IGNORE_INITIAL ∧ (stepCall ex s c).node.position = s.node.position := by
  rcases he : s.error with _ | err
  · cases c with
    | pull d ctx =>
      rcases hr : ExecIgnore ex d ctx s.node s.child with ⟨out, node1, child1⟩
      have hl : node1.lstate = .IGNORE_INITIAL := by
        cases out <;> simpa [stepCall, he, hr] using h
      have := ExecIgnore_initial_position ex d ctx s.node s.child (by rw [hr]; exact hl)
      rw [hr] at this
      cases out <;> simpa [stepCall, he, hr] using this
    | rescan ctx =>
      rcases hrc : recompute_ignore ex ctx s.node with ⟨err, node1⟩
      cases err with
      | some e =>
        have hre := recompute_ignore_error ex ctx _ e (by rw [hrc])
        rw [hrc] at hre
        simp only [stepCall, he, ExecReScanIgnore, hrc] at h ⊢
        exact ⟨by rw [← hre.2.2.1]; exact h, hre.2.2.2.1⟩
      | none =>
        obtain ⟨r1, _⟩ := recompute_ignore_success ex ctx _ _ hrc
        exfalso
        by_cases hc : ex.chgParamIsNull s.child = true <;>
          simp [stepCall, he, ExecReScanIgnore, hrc, hc, r1] at h
  · have : stepCall ex s c = s := by
      cases c <;> simp [stepCall, he]
    rw [this] at h ⊢
    exact ⟨h, rfl⟩

/-- A run that ends in `IGNORE_INITIAL` began there and left `position` alone. -/
theorem runCalls_initial_position {σ : Type} (ex : Executor τ σ ξ ε)
    (calls : List (Call ε)) :
    ∀ s : RunState τ σ ξ, (runCalls ex calls s).node.lstate = .IGNORE_INITIAL →
      s.node.lstate = .IGNORE_INITIAL ∧ (runCalls ex calls s).node.position = s.node.position := by
  induction calls with
  | nil => intro s h; exact ⟨h, rfl⟩
  | cons c calls ih =>
    intro s h
    obtain ⟨h1, h2⟩ := ih (stepCall ex s c) h
    obtain ⟨h3, h4⟩ := stepCall_initial_position ex s c h1
    exact ⟨h3, h2.trans h4⟩

/-- A run keeps the node out of `IGNORE_WINDOWEND`. -/
theorem runCalls_not_windowend {σ : Type} (ex : Executor τ σ ξ ε) (calls : List (Call ε)) :
    ∀ s : RunState τ σ ξ, s.node.lstate ≠ .IGNORE_WINDOWEND →
      (runCalls ex calls s).node.lstate ≠ .IGNORE_WINDOWEND := by
  induction calls with
  | nil => intro s h; exact h
  | cons c calls ih =>
    intro s h
    exact ih _ (stepCall_not_windowend ex s c h)

/-- The state of a one-pull run on the counting subplan, bound expression absent. -/
theorem countingRun_first_pull :
    runCalls (countingExecutor 'z') [Call.pull .ForwardScanDirection ()]
        (runStart (ExecInitIgnore (zeroedIgnoreState Char (Option Int)) none (.other 0 []))
          0) =
      { node := sampleNode none .IGNORE_INWINDOW 0 1 (some 'z'), child := 1,
        lastPull := some (some 'z'), returnedInScan := true, error := none } := by
  simp [runCalls, stepCall, runStart, ExecIgnore, ExecInitIgnore, zeroedIgnoreState,
    recompute_ignore, ExecIgnore_rescan, ScanDirectionIsForward, countingExecutor,
    pass_down_bound, sampleNode]
  rw [ExecIgnore_fetch]
  simp

/-! ## C14: the cache in `IGNORE_INWINDOW` -/

/-- C14: for any subplan, in every state that a sequence of pulls and rescans reaches
from a freshly initialised node without raising an error, if `lstate = IGNORE_INWINDOW`
then `subSlot` holds a tuple, and that tuple is what the most recent call of `ExecIgnore`
returned. -/
theorem inwindow_cache {σ : Type} (ex : Executor τ σ ξ ε) (fresh : IgnoreState τ ξ)
    (clause : Option ξ) (outer : PlanState) (child : σ) (calls : List (Call ε))
    (he : (runCalls ex calls
      (runStart (ExecInitIgnore fresh clause outer) child)).error = none)
    (hl : (runCalls ex calls
      (runStart (ExecInitIgnore fresh clause outer) child)).node.lstate = .IGNORE_INWINDOW) :
    ∃ t, (runCalls ex calls
        (runStart (ExecInitIgnore fresh clause outer) child)).node.subSlot = some t ∧
      (runCalls ex calls
        (runStart (ExecInitIgnore fresh clause outer) child)).lastPull = some (some t) := by
  have h := runCalls_inv ex calls _ (runStart_inv fresh clause outer child) he
  simp only [NodeInv, hl] at h
  exact h.2.2

/-- One forward pull on the counting subplan: the node is in its window, caching the
tuple just returned. -/
theorem inwindow_cache_witness :
    (runCalls (countingExecutor 'z') [Call.pull .ForwardScanDirection ()]
        (runStart (ExecInitIgnore (zeroedIgnoreState Char (Option Int)) none (.other 0 []))
          0)).error = none ∧
    (runCalls (countingExecutor 'z') [Call.pull .ForwardScanDirection ()]
        (runStart (ExecInitIgnore (zeroedIgnoreState Char (Option Int)) none (.other 0 []))
          0)).node.lstate = .IGNORE_INWINDOW ∧
    ∃ t, (runCalls (countingExecutor 'z') [Call.pull .ForwardScanDirection ()]
        (runStart (ExecInitIgnore (zeroedIgnoreState Char (Option Int)) none (.other 0 []))
          0)).node.subSlot = some t ∧
      (runCalls (countingExecutor 'z') [Call.pull .ForwardScanDirection ()]
        (runStart (ExecInitIgnore (zeroedIgnoreState Char (Option Int)) none (.other 0 []))
          0)).lastPull = some (some t) :=
  ⟨by rw [countingRun_first_pull], by rw [countingRun_first_pull]; rfl,
    inwindow_cache (countingExecutor 'z') (zeroedIgnoreState Char (Option Int)) none
      (.other 0 []) 0 [Call.pull .ForwardScanDirection ()]
      (by rw [countingRun_first_pull]) (by rw [countingRun_first_pull]; rfl)⟩

/-! ## C15: bounds on `position` -/

/-- C15: for any subplan and a node whose `position` was allocated non-negative (the
zero fill gives 0), in every state that a sequence of pulls and rescans reaches without
raising an error: `position >= 0`; if `position <= k` then no call of `ExecIgnore` has
returned a tuple since the bound was last resolved; equivalently, once a tuple has been
returned in the current scan, `position >= k + 1`. -/
theorem position_bounds {σ : Type} (ex : Executor τ σ ξ ε) (fresh : IgnoreState τ ξ)
    (clause : Option ξ) (outer : PlanState) (child : σ) (calls : List (Call ε))
    (hp : 0 ≤ fresh.position)
    (he : (runCalls ex calls
      (runStart (ExecInitIgnore fresh clause outer) child)).error = none) :
    0 ≤ (runCalls ex calls
      (runStart (ExecInitIgnore fresh clause outer) child)).node.position ∧
    ((runCalls ex calls
        (runStart (ExecInitIgnore fresh clause outer) child)).node.position ≤
      (runCalls ex calls
        (runStart (ExecInitIgnore fresh clause outer) child)).node.k →
      (runCalls ex calls
        (runStart (ExecInitIgnore fresh clause outer) child)).returnedInScan = false) ∧
    ((runCalls ex calls
        (runStart (ExecInitIgnore fresh clause outer) child)).returnedInScan = true →
      (runCalls ex calls
        (runStart (ExecInitIgnore fresh clause outer) child)).node.k + 1 ≤
      (runCalls ex calls
        (runStart (ExecInitIgnore fresh clause outer) child)).node.position) := by
  have h := runCalls_inv ex calls _ (runStart_inv fresh clause outer child) he
  have hi := runCalls_initial_position ex calls
    (runStart (ExecInitIgnore fresh clause outer) child)
  rcases hl : (runCalls ex calls
      (runStart (ExecInitIgnore fresh clause outer) child)).node.lstate with
    _ | _ | _ | _ | _ | _ | _ | raw <;> simp only [NodeInv, hl] at h
  · have hpos : (runCalls ex calls
        (runStart (ExecInitIgnore fresh clause outer) child)).node.position =
        fresh.position := (hi hl).2
    rw [hpos]
    refine ⟨hp, fun _ => h, fun hr => ?_⟩
    rw [h] at hr
    cases hr
  · obtain ⟨h1, h2, h3⟩ := h
    refine ⟨by omega, fun _ => h3, fun hr => ?_⟩
    rw [h3] at hr
    cases hr
  · obtain ⟨h1, h2, h3⟩ := h
    refine ⟨h1, fun _ => h3, fun hr => ?_⟩
    rw [h3] at hr
    cases hr
  · obtain ⟨h1, h2, _⟩ := h
    exact ⟨by omega, fun hle => by omega, fun _ => h2⟩
  · obtain ⟨h1, h2⟩ := h
    exact ⟨by omega, fun hle => by omega, fun _ => h2⟩
  · obtain ⟨h1, h2, _⟩ := h
    exact ⟨by omega, fun hle => by omega, fun _ => h2⟩

/-- One forward pull on the counting subplan with no bound expression: a tuple has been
returned and `position = 1 >= k + 1`. -/
theorem position_bounds_witness :
    (0 : Int) ≤ (zeroedIgnoreState Char (Option Int)).position ∧
    (runCalls (countingExecutor 'z') [Call.pull .ForwardScanDirection ()]
        (runStart (ExecInitIgnore (zeroedIgnoreState Char (Option Int)) none (.other 0 []))
          0)).error = none ∧
    0 ≤ (runCalls (countingExecutor 'z') [Call.pull .ForwardScanDirection ()]
        (runStart (ExecInitIgnore (zeroedIgnoreState Char (Option Int)) none (.other 0 []))
          0)).node.position :=
  ⟨by decide, by rw [countingRun_first_pull],
    (position_bounds (countingExecutor 'z') (zeroedIgnoreState Char (Option Int)) none
      (.other 0 []) 0 [Call.pull .ForwardScanDirection ()] (by decide)
      (by rw [countingRun_first_pull])).1⟩

/-! ## C19: `IGNORE_WINDOWEND` is never entered -/

/-- C19: for any subplan (whatever its pulls return) and any sequence of `ExecIgnore`
calls in any directions and `ExecReScanIgnore` calls on a freshly initialised node, the
state tag is never `IGNORE_WINDOWEND`, also when the sequence is cut short by an error. -/
theorem windowend_unreachable {σ : Type} (ex : Executor τ σ ξ ε) (fresh : IgnoreState τ ξ)
    (clause : Option ξ) (outer : PlanState) (child : σ) (calls : List (Call ε)) :
    (runCalls ex calls
      (runStart (ExecInitIgnore fresh clause outer) child)).node.lstate ≠
      .IGNORE_WINDOWEND := by
  apply runCalls_not_windowend
  simp [runStart, ExecInitIgnore]

/-! ## A subplan that acts on the hint -/

theorem sortExecutor_ExecProcNode (rows : List τ) (eval : ξ → ε → Option Int)
    (direction : ScanDirection) (tree : PlanState) (s : CursorState) :
    (sortExecutor rows eval).ExecProcNode direction tree s =
      cursorProcNode (sortRows tree rows) direction s :=
  rfl

/-- The fetch loop over the hint-sensitive subplan is the fetch loop over the cursor
subplan of the rows the tree lets through: the loop does not touch `lefttree`. -/
theorem fetch_sortExecutor (rows : List τ) (eval : ξ → ε → Option Int) (d : ScanDirection) :
    ∀ (m : Nat) (node : IgnoreState τ ξ) (s : CursorState),
      (node.k - node.position).toNat = m →
      ExecIgnore_fetch (sortExecutor rows eval) d node s =
        ExecIgnore_fetch (cursorExecutor (sortRows node.lefttree rows) eval) d node s := by
  intro m
  induction m using Nat.strong_induction_on with
  | _ m ih =>
    intro node s hm
    rw [ExecIgnore_fetch]
    conv_rhs => rw [ExecIgnore_fetch]
    simp only [sortExecutor_ExecProcNode, cursorExecutor_ExecProcNode]
    rcases hp : cursorProcNode (sortRows node.lefttree rows) d s with ⟨_ | slot, s1⟩
    · rfl
    · simp only
      by_cases hgt : node.position + 1 > node.k
      · simp only [hgt, if_true]
      · simp only [hgt, if_false]
        exact ih _ (by subst hm; simp only; omega) _ _ rfl

/-- A pull over the hint-sensitive subplan in a state other than `IGNORE_INITIAL` is the
pull over the cursor subplan of the rows the tree lets through. -/
theorem ExecIgnore_sortExecutor (rows : List τ) (eval : ξ → ε → Option Int)
    (d : ScanDirection) (ctx : ε) (node : IgnoreState τ ξ) (s : CursorState)
    (hl : node.lstate ≠ .IGNORE_INITIAL) :
    ExecIgnore (sortExecutor rows eval) d ctx node s =
      ExecIgnore (cursorExecutor (sortRows node.lefttree rows) eval) d ctx node s := by
  obtain ⟨lt, ic, k, cnt, nc, ls, pos, ss⟩ := node
  cases ls
  case IGNORE_INITIAL => exact absurd rfl hl
  case IGNORE_RESCAN =>
    simp only [ExecIgnore, ExecIgnore_rescan]
    split
    · rfl
    · exact fetch_sortExecutor rows eval d _ _ _ rfl
  all_goals rfl

/-- `ExecReScanIgnore` does not pull: over the hint-sensitive subplan it does what it does
over any cursor subplan. -/
theorem ExecReScanIgnore_sortExecutor (rows rows2 : List τ) (eval : ξ → ε → Option Int)
    (ctx : ε) (node : IgnoreState τ ξ) (child : CursorState) :
    ExecReScanIgnore (sortExecutor rows eval) ctx node child =
      ExecReScanIgnore (cursorExecutor rows2 eval) ctx node child :=
  rfl

/-- With `noCount` set, the tree `recompute_ignore` leaves lets every row through. -/
theorem sortRows_recompute_noCount {σ : Type} (ex : Executor τ σ ξ ε) (ctx : ε)
    (node : IgnoreState τ ξ) (rows : List τ) (hn : node.noCount = true)
    (h : (recompute_ignore ex ctx node).1 = none) :
    sortRows (recompute_ignore ex ctx node).2.lefttree rows = rows := by
  revert h
  have key : ∀ (n2 : IgnoreState τ ξ), n2.noCount = true →
      sortRows (pass_down_bound n2 n2.lefttree) rows = rows := by
    intro n2 h2
    rcases hlt : n2.lefttree with ⟨b, n, sub⟩ | ⟨ps⟩ | ⟨rs, _ | o⟩ | ⟨tag, subs⟩
    · simp [pass_down_bound, sortRows, h2]
    · simp [pass_down_bound, sortRows]
    · simp [pass_down_bound, sortRows]
    · cases rs <;> simp [pass_down_bound, sortRows]
    · simp [pass_down_bound, sortRows]
  unfold recompute_ignore
  rcases hc : node.ignoreClause with _ | c
  · intro _
    exact key _ hn
  · rcases hv : ex.ExecEvalExprSwitchContext c ctx with _ | v
    · intro _
      simp only [hv]
      exact key _ hn
    · by_cases hneg : v < 0
      · simp [hv, hneg]
      · intro _
        simp only [hv, hneg, if_false]
        exact key _ hn

/-- Over the hint-sensitive subplan: after a successful `ExecReScanIgnore` that resolves
the bound to `K`, the first forward pull returns the `(K+1)`-th of the rows that the tree
left by the rescan lets through, or end-of-stream when there are at most `K` of them. -/
theorem sortExecutor_rescan_pull (rows : List τ) (eval : ξ → ε → Option Int) (ctxR ctx : ε)
    (node : IgnoreState τ ξ) (child : CursorState) (K : Nat)
    (hK : resolvedBound (sortExecutor rows eval) ctxR node = some (K : Int)) :
    (ExecReScanIgnore (sortExecutor rows eval) ctxR node child).1 = none ∧
    (ExecIgnore (sortExecutor rows eval) .ForwardScanDirection ctx
        (ExecReScanIgnore (sortExecutor rows eval) ctxR node child).2.1
        (ExecReScanIgnore (sortExecutor rows eval) ctxR node child).2.2).1 =
      .ok (sortRows (ExecReScanIgnore (sortExecutor rows eval) ctxR node child).2.1.lefttree
        rows)[K]? ∧
    (ExecIgnore (sortExecutor rows eval) .ForwardScanDirection ctx
        (ExecReScanIgnore (sortExecutor rows eval) ctxR node child).2.1
        (ExecReScanIgnore (sortExecutor rows eval) ctxR node child).2.2).2.1.lstate =
      (if K < (sortRows (ExecReScanIgnore (sortExecutor rows eval) ctxR node child).2.1.lefttree
          rows).length then .IGNORE_INWINDOW else .IGNORE_EMPTY) := by
  have hK2 : ∀ rows2 : List τ,
      resolvedBound (cursorExecutor rows2 eval) ctxR node = some (K : Int) := fun _ => hK
  obtain ⟨e1, hS, hl⟩ := ExecReScanIgnore_sync
    (sortRows (ExecReScanIgnore (sortExecutor rows eval) ctxR node child).2.1.lefttree rows)
    eval ctxR node child K (hK2 _)
  rw [← ExecReScanIgnore_sortExecutor rows] at e1 hS hl
  have hne : (ExecReScanIgnore (sortExecutor rows eval) ctxR node child).2.1.lstate ≠
      .IGNORE_INITIAL := by rw [hl]; decide
  rw [ExecIgnore_sortExecutor rows eval _ ctx _ _ hne]
  obtain ⟨_, o2, o3, o4⟩ := ExecIgnore_sync _ eval ctx K _ _ hS .ForwardScanDirection
  refine ⟨e1, ?_, ?_⟩
  · rw [o4, hl]
    simp only [modelStep]
    split
    · rename_i hlt
      simp
    · rename_i hlt
      simp only [Bool.false_eq_true, if_false]
      congr 1
      symm
      apply List.getElem?_eq_none
      omega
  · rw [o2, hl]
    simp only [modelStep]
    split <;> rfl


/-- The fields the fetch loop never writes. -/
theorem ExecIgnore_fetch_frame {σ : Type} (ex : Executor τ σ ξ ε) (d : ScanDirection)
    (node : IgnoreState τ ξ) (child : σ) :
    (ExecIgnore_fetch ex d node child).2.1.noCount = node.noCount ∧
    (ExecIgnore_fetch ex d node child).2.1.ignoreClause = node.ignoreClause ∧
    (ExecIgnore_fetch ex d node child).2.1.lefttree = node.lefttree ∧
    (ExecIgnore_fetch ex d node child).2.1.count = node.count := by
  induction node, child using ExecIgnore_fetch.induct ex d with
  | case1 node child child1 h =>
    rw [ExecIgnore_fetch]
    simp [h]
  | case2 node child slot child1 h hgt =>
    rw [ExecIgnore_fetch]
    simp [h, hgt]
  | case3 node child slot child1 h hgt ih =>
    rw [ExecIgnore_fetch]
    simp only [h, hgt, if_false]
    exact ih

/-- The fields `recompute_ignore` never writes, whether it raises or not. -/
theorem recompute_ignore_frame {σ : Type} (ex : Executor τ σ ξ ε) (ctx : ε)
    (node : IgnoreState τ ξ) :
    (recompute_ignore ex ctx node).2.noCount = node.noCount ∧
    (recompute_ignore ex ctx node).2.ignoreClause = node.ignoreClause ∧
    (recompute_ignore ex ctx node).2.count = node.count := by
  unfold recompute_ignore
  rcases hc : node.ignoreClause with _ | c
  · simp
  · rcases hv : ex.ExecEvalExprSwitchContext c ctx with _ | v
    · simp [hv]
    · by_cases hneg : v < 0 <;> simp [hv, hneg]

/-- Every call of `ExecIgnore`, for any subplan, leaves `noCount` set and the bound
expression as it was; outside `IGNORE_INITIAL` it leaves the plan-state tree as it was. -/
theorem ExecIgnore_frame {σ : Type} (ex : Executor τ σ ξ ε) (d : ScanDirection) (ctx : ε)
    (node : IgnoreState τ ξ) (child : σ) :
    (ExecIgnore ex d ctx node child).2.1.noCount = true ∧
    (ExecIgnore ex d ctx node child).2.1.ignoreClause = node.ignoreClause ∧
    (node.lstate ≠ .IGNORE_INITIAL →
      (ExecIgnore ex d ctx node child).2.1.lefttree = node.lefttree) := by
  obtain ⟨lt, ic, k, cnt, nc, ls, pos, ss⟩ := node
  cases ls
  case IGNORE_INITIAL =>
    have hf := recompute_ignore_frame ex ctx
      { lefttree := lt, ignoreClause := ic, k := k, count := cnt, noCount := true,
        lstate := .IGNORE_INITIAL, position := pos, subSlot := ss }
    rcases hr : recompute_ignore ex ctx
      { lefttree := lt, ignoreClause := ic, k := k, count := cnt, noCount := true,
        lstate := .IGNORE_INITIAL, position := pos, subSlot := ss } with ⟨err, node1⟩
    rw [hr] at hf
    simp only at hf
    cases err with
    | some err =>
      simp only [ExecIgnore, hr]
      exact ⟨hf.1, hf.2.1, fun h => absurd rfl h⟩
    | none =>
      simp only [ExecIgnore, hr, ExecIgnore_rescan]
      split
      · exact ⟨hf.1, hf.2.1, fun h => absurd rfl h⟩
      · obtain ⟨g1, g2, _, _⟩ := ExecIgnore_fetch_frame ex d node1 child
        exact ⟨g1.trans hf.1, g2.trans hf.2.1, fun h => absurd rfl h⟩
  case IGNORE_RESCAN =>
    simp only [ExecIgnore, ExecIgnore_rescan]
    split
    · exact ⟨rfl, rfl, fun _ => rfl⟩
    · obtain ⟨g1, g2, g3, _⟩ := ExecIgnore_fetch_frame ex d
        { lefttree := lt, ignoreClause := ic, k := k, count := cnt, noCount := true,
          lstate := .IGNORE_RESCAN, position := pos, subSlot := ss } child
      exact ⟨g1, g2, fun _ => g3⟩
  case IGNORE_EMPTY => exact ⟨rfl, rfl, fun _ => rfl⟩
  case IGNORE_INWINDOW =>
    cases d
    · simp only [ExecIgnore, ScanDirectionIsForward, returnSlot, Bool.false_eq_true, if_false]
      by_cases hpk : pos ≤ k + 1
      · simp [hpk]
      · rcases hp : ex.ExecProcNode .BackwardScanDirection lt child with ⟨_ | slot, child1⟩ <;>
          simp [hpk, hp]
    · simp only [ExecIgnore, ScanDirectionIsForward, returnSlot, if_true]
      rcases hp : ex.ExecProcNode .ForwardScanDirection lt child with ⟨_ | slot, child1⟩ <;>
        simp [hp]
  case IGNORE_SUBPLANEOF =>
    cases d
    · simp only [ExecIgnore, ScanDirectionIsForward, returnSlot, Bool.false_eq_true, if_false]
      rcases hp : ex.ExecProcNode .BackwardScanDirection lt child with ⟨_ | slot, child1⟩ <;>
        simp [hp]
    · simp [ExecIgnore, ScanDirectionIsForward]
  case IGNORE_WINDOWEND =>
    cases d
    · cases ss <;> simp [ExecIgnore, ScanDirectionIsForward, returnSlot]
    · simp [ExecIgnore, ScanDirectionIsForward]
  case IGNORE_WINDOWSTART =>
    cases d
    · simp [ExecIgnore, ScanDirectionIsForward]
    · cases ss <;> simp [ExecIgnore, ScanDirectionIsForward, returnSlot]
  case outOfRange raw => simp [ExecIgnore]

/-- The resolved bound depends on the node through its bound expression only. -/
theorem resolvedBound_congr {σ : Type} (ex : Executor τ σ ξ ε) (ctx : ε)
    (node node2 : IgnoreState τ ξ) (h : node.ignoreClause = node2.ignoreClause) :
    resolvedBound ex ctx node = resolvedBound ex ctx node2 := by
  unfold resolvedBound recompute_ignore
  rw [h]
  rcases hc : node2.ignoreClause with _ | c
  · simp
  · rcases hv : ex.ExecEvalExprSwitchContext c ctx with _ | v
    · simp [hv]
    · by_cases hneg : v < 0 <;> simp [hv, hneg]

/-- Over the hint-sensitive subplan, from any state with `noCount` set (`ExecIgnore_frame`:
any state a pull has left): after `ExecReScanIgnore` resolves the bound to `K`, the first
forward pull returns the `(K+1)`-th row, or end-of-stream when there are at most `K` rows. -/
theorem sortExecutor_rescan_pull_noCount (rows : List τ) (eval : ξ → ε → Option Int)
    (ctxR ctx : ε) (node : IgnoreState τ ξ) (child : CursorState) (K : Nat)
    (hK : resolvedBound (sortExecutor rows eval) ctxR node = some (K : Int))
    (hn : node.noCount = true) :
    (ExecReScanIgnore (sortExecutor rows eval) ctxR node child).1 = none ∧
    (ExecIgnore (sortExecutor rows eval) .ForwardScanDirection ctx
        (ExecReScanIgnore (sortExecutor rows eval) ctxR node child).2.1
        (ExecReScanIgnore (sortExecutor rows eval) ctxR node child).2.2).1 = .ok rows[K]? := by
  obtain ⟨e1, e2, _⟩ := sortExecutor_rescan_pull rows eval ctxR ctx node child K hK
  refine ⟨e1, ?_⟩
  rw [e2]
  have hr : (recompute_ignore (sortExecutor rows eval) ctxR node).1 = none :=
    (recompute_ignore_fields _ ctxR node _ hK).1
  have hs := sortRows_recompute_noCount (sortExecutor rows eval) ctxR node rows hn hr
  have ht : (ExecReScanIgnore (sortExecutor rows eval) ctxR node child).2.1 =
      (recompute_ignore (sortExecutor rows eval) ctxR node).2 := by
    unfold ExecReScanIgnore
    rcases hrc : recompute_ignore (sortExecutor rows eval) ctxR node with ⟨err, node1⟩
    rw [hrc] at hr
    simp only at hr
    subst hr
    simp only
    split <;> rfl
  rw [ht, hs]

/-- Over the hint-sensitive subplan, the first forward pull of a freshly initialised node
whose bound resolves to `K` returns the `(K+1)`-th row, or end-of-stream when there are
at most `K` rows, whatever hint the tree carried. -/
theorem sortExecutor_first_pull (rows : List τ) (eval : ξ → ε → Option Int) (ctx : ε)
    (fresh : IgnoreState τ ξ) (clause : Option ξ) (outer : PlanState) (K : Nat)
    (hK : resolvedBound (sortExecutor rows eval) ctx (ExecInitIgnore fresh clause outer) =
      some (K : Int)) :
    (ExecIgnore (sortExecutor rows eval) .ForwardScanDirection ctx
        (ExecInitIgnore fresh clause outer) cursorStart).1 = .ok rows[K]? := by
  have hi : (ExecInitIgnore fresh clause outer).lstate = .IGNORE_INITIAL := rfl
  rw [ExecIgnore_initial (sortExecutor rows eval) ctx _ _ hi hK]
  have hK1 : resolvedBound (cursorExecutor rows eval) ctx (ExecInitIgnore fresh clause outer) =
      some (K : Int) := hK
  obtain ⟨hS, hl, hp⟩ := resolvedNode_sync rows eval ctx _ K hK1 cursorStart (Or.inr rfl)
  have hrn : resolvedNode (sortExecutor rows eval) ctx (ExecInitIgnore fresh clause outer) =
      resolvedNode (cursorExecutor rows eval) ctx (ExecInitIgnore fresh clause outer) := rfl
  rw [hrn]
  have hne : (resolvedNode (cursorExecutor rows eval) ctx
      (ExecInitIgnore fresh clause outer)).lstate ≠ .IGNORE_INITIAL := by rw [hl]; decide
  rw [ExecIgnore_sortExecutor rows eval _ ctx _ _ hne]
  have hK2 : resolvedBound (cursorExecutor rows eval) ctx
      { ExecInitIgnore fresh clause outer with noCount := true } = some (K : Int) := by
    rw [resolvedBound_noCount]; exact hK1
  have hs : sortRows (resolvedNode (cursorExecutor rows eval) ctx
      (ExecInitIgnore fresh clause outer)).lefttree rows = rows :=
    sortRows_recompute_noCount (cursorExecutor rows eval) ctx _ rows rfl
      (recompute_ignore_fields _ ctx _ _ hK2).1
  rw [hs]
  obtain ⟨_, _, _, o4⟩ := ExecIgnore_sync rows eval ctx K _ _ hS .ForwardScanDirection
  rw [o4, hl]
  simp only [modelStep]
  split
  · simp
  · rename_i hlt
    simp only [Bool.false_eq_true, if_false]
    congr 1
    symm
    apply List.getElem?_eq_none
    omega

/-! ## C4: rescan before the first pull, over a Sort that acts on the hint -/

/-- C4 (code evaluated at the failing input): a node is initialised on a zero-filled
record (`noCount = false`, `count = 0`) over a Sort subplan that acts on the hint, with
output `a, b, c, d, e` and a bound expression that evaluates to 3.

* The first forward pull of the fresh node returns `d`, the fourth row.
* `ExecReScanIgnore` before any pull returns normally and leaves the Sort with
  `bounded = true`, `bound = 3`.
* The first forward pull after that rescan returns end-of-stream and leaves the node in
  `IGNORE_EMPTY`: the Sort served the three rows the node skips and no more.
* Rescanning once more and pulling forward returns `d`: the pull in between has set
  `noCount`, so this rescan clears the hint, and the output of rescan-then-pull is not
  the same each time. -/
theorem rescan_before_first_pull_starves_window :
    (ExecIgnore (sortExecutor ['a', 'b', 'c', 'd', 'e'] constEval) .ForwardScanDirection ()
        (ExecInitIgnore (zeroedIgnoreState Char (Option Int)) (some (some 3))
          (.sort false 0 none)) cursorStart).1 = .ok (some 'd') ∧
    (ExecReScanIgnore (sortExecutor ['a', 'b', 'c', 'd', 'e'] constEval) ()
        (ExecInitIgnore (zeroedIgnoreState Char (Option Int)) (some (some 3))
          (.sort false 0 none)) cursorStart).1 = none ∧
    (ExecReScanIgnore (sortExecutor ['a', 'b', 'c', 'd', 'e'] constEval) ()
        (ExecInitIgnore (zeroedIgnoreState Char (Option Int)) (some (some 3))
          (.sort false 0 none)) cursorStart).2.1.lefttree = .sort true 3 none ∧
    (ExecIgnore (sortExecutor ['a', 'b', 'c', 'd', 'e'] constEval) .ForwardScanDirection ()
        (ExecReScanIgnore (sortExecutor ['a', 'b', 'c', 'd', 'e'] constEval) ()
        (ExecInitIgnore (zeroedIgnoreState Char (Option Int)) (some (some 3))
          (.sort false 0 none)) cursorStart).2.1
        (ExecReScanIgnore (sortExecutor ['a', 'b', 'c', 'd', 'e'] constEval) ()
        (ExecInitIgnore (zeroedIgnoreState Char (Option Int)) (some (some 3))
          (.sort false 0 none)) cursorStart).2.2).1 = .ok none ∧
    (ExecIgnore (sortExecutor ['a', 'b', 'c', 'd', 'e'] constEval) .ForwardScanDirection ()
        (ExecReScanIgnore (sortExecutor ['a', 'b', 'c', 'd', 'e'] constEval) ()
        (ExecInitIgnore (zeroedIgnoreState Char (Option Int)) (some (some 3))
          (.sort false 0 none)) cursorStart).2.1
        (ExecReScanIgnore (sortExecutor ['a', 'b', 'c', 'd', 'e'] constEval) ()
        (ExecInitIgnore (zeroedIgnoreState Char (Option Int)) (some (some 3))
          (.sort false 0 none)) cursorStart).2.2).2.1.lstate = .IGNORE_EMPTY ∧
    (ExecReScanIgnore (sortExecutor ['a', 'b', 'c', 'd', 'e'] constEval) ()
        (ExecIgnore (sortExecutor ['a', 'b', 'c', 'd', 'e'] constEval) .ForwardScanDirection ()
        (ExecReScanIgnore (sortExecutor ['a', 'b', 'c', 'd', 'e'] constEval) ()
        (ExecInitIgnore (zeroedIgnoreState Char (Option Int)) (some (some 3))
          (.sort false 0 none)) cursorStart).2.1
        (ExecReScanIgnore (sortExecutor ['a', 'b', 'c', 'd', 'e'] constEval) ()
        (ExecInitIgnore (zeroedIgnoreState Char (Option Int)) (some (some 3))
          (.sort false 0 none)) cursorStart).2.2).2.1
        (ExecIgnore (sortExecutor ['a', 'b', 'c', 'd', 'e'] constEval) .ForwardScanDirection ()
        (ExecReScanIgnore (sortExecutor ['a', 'b', 'c', 'd', 'e'] constEval) ()
        (ExecInitIgnore (zeroedIgnoreState Char (Option Int)) (some (some 3))
          (.sort false 0 none)) cursorStart).2.1
        (ExecReScanIgnore (sortExecutor ['a', 'b', 'c', 'd', 'e'] constEval) ()
        (ExecInitIgnore (zeroedIgnoreState Char (Option Int)) (some (some 3))
          (.sort false 0 none)) cursorStart).2.2).2.2).1 = none ∧
    (ExecIgnore (sortExecutor ['a', 'b', 'c', 'd', 'e'] constEval) .ForwardScanDirection ()
        (ExecReScanIgnore (sortExecutor ['a', 'b', 'c', 'd', 'e'] constEval) ()
        (ExecIgnore (sortExecutor ['a', 'b', 'c', 'd', 'e'] constEval) .ForwardScanDirection ()
        (ExecReScanIgnore (sortExecutor ['a', 'b', 'c', 'd', 'e'] constEval) ()
        (ExecInitIgnore (zeroedIgnoreState Char (Option Int)) (some (some 3))
          (.sort false 0 none)) cursorStart).2.1
        (ExecReScanIgnore (sortExecutor ['a', 'b', 'c', 'd', 'e'] constEval) ()
        (ExecInitIgnore (zeroedIgnoreState Char (Option Int)) (some (some 3))
          (.sort false 0 none)) cursorStart).2.2).2.1
        (ExecIgnore (sortExecutor ['a', 'b', 'c', 'd', 'e'] constEval) .ForwardScanDirection ()
        (ExecReScanIgnore (sortExecutor ['a', 'b', 'c', 'd', 'e'] constEval) ()
        (ExecInitIgnore (zeroedIgnoreState Char (Option Int)) (some (some 3))
          (.sort false 0 none)) cursorStart).2.1
        (ExecReScanIgnore (sortExecutor ['a', 'b', 'c', 'd', 'e'] constEval) ()
        (ExecInitIgnore (zeroedIgnoreState Char (Option Int)) (some (some 3))
          (.sort false 0 none)) cursorStart).2.2).2.2).2.1
        (ExecReScanIgnore (sortExecutor ['a', 'b', 'c', 'd', 'e'] constEval) ()
        (ExecIgnore (sortExecutor ['a', 'b', 'c', 'd', 'e'] constEval) .ForwardScanDirection ()
        (ExecReScanIgnore (sortExecutor ['a', 'b', 'c', 'd', 'e'] constEval) ()
        (ExecInitIgnore (zeroedIgnoreState Char (Option Int)) (some (some 3))
          (.sort false 0 none)) cursorStart).2.1
        (ExecReScanIgnore (sortExecutor ['a', 'b', 'c', 'd', 'e'] constEval) ()
        (ExecInitIgnore (zeroedIgnoreState Char (Option Int)) (some (some 3))
          (.sort false 0 none)) cursorStart).2.2).2.1
        (ExecIgnore (sortExecutor ['a', 'b', 'c', 'd', 'e'] constEval) .ForwardScanDirection ()
        (ExecReScanIgnore (sortExecutor ['a', 'b', 'c', 'd', 'e'] constEval) ()
        (ExecInitIgnore (zeroedIgnoreState Char (Option Int)) (some (some 3))
          (.sort false 0 none)) cursorStart).2.1
        (ExecReScanIgnore (sortExecutor ['a', 'b', 'c', 'd', 'e'] constEval) ()
        (ExecInitIgnore (zeroedIgnoreState Char (Option Int)) (some (some 3))
          (.sort false 0 none)) cursorStart).2.2).2.2).2.2).1 = .ok (some 'd') := by
  have h1 := sortExecutor_first_pull ['a', 'b', 'c', 'd', 'e'] constEval ()
    (zeroedIgnoreState Char (Option Int)) (some (some 3)) (.sort false 0 none) 3 (by rfl)
  obtain ⟨_, h3, h4⟩ := sortExecutor_rescan_pull ['a', 'b', 'c', 'd', 'e'] constEval () ()
    (ExecInitIgnore (zeroedIgnoreState Char (Option Int)) (some (some 3))
          (.sort false 0 none)) cursorStart 3 (by rfl)
  obtain ⟨f1, f2, _⟩ := ExecIgnore_frame (sortExecutor ['a', 'b', 'c', 'd', 'e'] constEval) .ForwardScanDirection ()
    (ExecReScanIgnore (sortExecutor ['a', 'b', 'c', 'd', 'e'] constEval) ()
        (ExecInitIgnore (zeroedIgnoreState Char (Option Int)) (some (some 3))
          (.sort false 0 none)) cursorStart).2.1
    (ExecReScanIgnore (sortExecutor ['a', 'b', 'c', 'd', 'e'] constEval) ()
        (ExecInitIgnore (zeroedIgnoreState Char (Option Int)) (some (some 3))
          (.sort false 0 none)) cursorStart).2.2
  have hK : resolvedBound (sortExecutor ['a', 'b', 'c', 'd', 'e'] constEval) ()
      (ExecIgnore (sortExecutor ['a', 'b', 'c', 'd', 'e'] constEval) .ForwardScanDirection ()
        (ExecReScanIgnore (sortExecutor ['a', 'b', 'c', 'd', 'e'] constEval) ()
        (ExecInitIgnore (zeroedIgnoreState Char (Option Int)) (some (some 3))
          (.sort false 0 none)) cursorStart).2.1
        (ExecReScanIgnore (sortExecutor ['a', 'b', 'c', 'd', 'e'] constEval) ()
        (ExecInitIgnore (zeroedIgnoreState Char (Option Int)) (some (some 3))
          (.sort false 0 none)) cursorStart).2.2).2.1 = some ((3 : Nat) : Int) :=
    (resolvedBound_congr _ () _
      (ExecReScanIgnore (sortExecutor ['a', 'b', 'c', 'd', 'e'] constEval) ()
        (ExecInitIgnore (zeroedIgnoreState Char (Option Int)) (some (some 3))
          (.sort false 0 none)) cursorStart).2.1 f2).trans (by rfl)
  obtain ⟨h5, h6⟩ := sortExecutor_rescan_pull_noCount ['a', 'b', 'c', 'd', 'e'] constEval
    () () _ (ExecIgnore (sortExecutor ['a', 'b', 'c', 'd', 'e'] constEval) .ForwardScanDirection ()
        (ExecReScanIgnore (sortExecutor ['a', 'b', 'c', 'd', 'e'] constEval) ()
        (ExecInitIgnore (zeroedIgnoreState Char (Option Int)) (some (some 3))
          (.sort false 0 none)) cursorStart).2.1
        (ExecReScanIgnore (sortExecutor ['a', 'b', 'c', 'd', 'e'] constEval) ()
        (ExecInitIgnore (zeroedIgnoreState Char (Option Int)) (some (some 3))
          (.sort false 0 none)) cursorStart).2.2).2.2 3 hK f1
  exact ⟨h1.trans (by rfl), by rfl, by rfl, h3.trans (by rfl), h4.trans (by rfl), h5,
    h6.trans (by rfl)⟩

end NodeIgnore
